import Mathlib

/-!
# vitestify: text cursor, edit ledger and replay

A shallow embedding of `tools/vitestify/parse/reader.go` and of the part of
`vitestifyTask.run` (`tools/vitestify/update.go`) that runs once the tree walk
has returned: the consolidated import, the shim chunks, the edits synthesized
from derived state, the sort of the ledger and the replay over the source bytes.

Go `int` values are `Int`, Go strings and byte slices are lists of bytes.
A Go method that mutates its receiver returns the receiver's new state next to
its result. A run-time panic (a slice expression out of range) is an outcome of
its own, apart from a returned error. The two library sorts are insertion sorts,
which is what Go runs on slices of up to twelve elements.
-/

namespace Vitestify

/-- A Go `string` or `[]byte`. -/
abbrev Bytes := List UInt8

/-- A Go string literal of the source (every literal of the source is ASCII). -/
def lit (s : String) : Bytes := s.data.map (fun c => UInt8.ofNat c.toNat)

/-- The `error` values of `reader.go` and of the replay in `run`; `noop` is the
sentinel of `main.go`. The file name that the messages print is left out. -/
inductive GoError where
  /-- `noop = errors.New("no work to do")`. -/
  | noop
  /-- `"attempted to read past end of file %s"`. -/
  | readPastEnd
  /-- `"attempted to seek past end of file to %d for file %s"`; the number printed is
  the receiver's position at the time of the call. -/
  | seekPastEnd (pos : Int)
  /-- `"unable to read file chunk: %w"`. -/
  | unableToReadChunk (cause : GoError)
  /-- `"unexpected src seek error: %w"`. -/
  | unexpectedSeek (cause : GoError)
  /-- `"… unhandled/unexpected import statement format: %s [ %s ]"`, with the text of
  the import statement; the literal opens with eight bytes that are no ASCII text. -/
  | unhandledImportFormat (content : Bytes)
  /-- `"missing vitest import clause: %s"`, `"missing node:path import clause: %s"`,
  `"missing node:url import clause: %s"`: the module, then the text of the statement. -/
  | missingImportClause (module : Bytes) (content : Bytes)
  /-- `"missing arguments for jest.setTimeout call: %s"`, with the text of the call. -/
  | missingArguments (content : Bytes)
  /-- `"missing name from jest type node: %s"`, with the text of the type. -/
  | missingJestTypeName (content : Bytes)
  /-- `"unhandled jest type: jest.%s"`, with the member name. -/
  | unhandledJestType (name : Bytes)
  deriving DecidableEq, Repr

/-- What a call of a Go function `(T, error)` does: return a value with a nil error,
return an error, or raise a run-time panic. -/
inductive Outcome (α : Type) where
  | ok (val : α)
  | error (e : GoError)
  | panic
  deriving DecidableEq, Repr

/-- The outcome is a returned error (neither a value nor a panic). -/
def Outcome.isError {α : Type} : Outcome α → Bool
  | .error _ => true
  | _ => false

/-- The outcome is a returned value. -/
def Outcome.isOk {α : Type} : Outcome α → Bool
  | .ok _ => true
  | _ => false

/-- The same outcome with a function applied to the returned value. -/
def Outcome.map {α β : Type} (f : α → β) : Outcome α → Outcome β
  | .ok val => .ok (f val)
  | .error e => .error e
  | .panic => .panic

/-- The decimal digits that `%d` prints. -/
def decimal (n : Int) : Bytes :=
  (if n < 0 then [45] else [])
    ++ (Nat.toDigits 10 n.natAbs).map (fun c => UInt8.ofNat c.toNat)

/-- `err.Error()`, the message of an error, for the file `file` that the reader names in
its messages and `rootPath`, the path that the import message prints. The literal of
that message opens with the eight bytes `c3 b0 c5 b8 c5 a1 c2 a8`, as they stand in
`update.go`, before the space. -/
def GoError.Error (file rootPath : Bytes) : GoError → Bytes
  | .noop => lit "no work to do"
  | .readPastEnd => lit "attempted to read past end of file " ++ file
  | .seekPastEnd pos =>
    lit "attempted to seek past end of file to " ++ decimal pos ++ lit " for file " ++ file
  | .unableToReadChunk cause =>
    lit "unable to read file chunk: " ++ cause.Error file rootPath
  | .unexpectedSeek cause =>
    lit "unexpected src seek error: " ++ cause.Error file rootPath
  | .unhandledImportFormat content =>
    [195, 176, 197, 184, 197, 161, 194, 168]
      ++ lit " unhandled/unexpected import statement format: "
      ++ rootPath ++ lit " [ " ++ content ++ lit " ]"
  | .missingImportClause module content =>
    lit "missing " ++ module ++ lit " import clause: " ++ content
  | .missingArguments content =>
    lit "missing arguments for jest.setTimeout call: " ++ content
  | .missingJestTypeName content => lit "missing name from jest type node: " ++ content
  | .unhandledJestType name => lit "unhandled jest type: jest." ++ name

/-- The slice expression `code[lo:hi]` of Go: it panics unless `0 ≤ lo ≤ hi ≤ len(code)`
(`none` is the panic). -/
def sliceBytes (code : Bytes) (lo hi : Int) : Option Bytes :=
  if 0 ≤ lo ∧ lo ≤ hi ∧ hi ≤ (code.length : Int) then
    some ((code.drop lo.toNat).take (hi - lo).toNat)
  else
    none

/-- `parse.Reader`: the source bytes (`file.code`) and the position. -/
structure Reader where
  code : Bytes
  pos : Int
  deriving DecidableEq, Repr

/-- `NewReader` and `Src.NewReader`. -/
def NewReader (code : Bytes) : Reader := { code := code, pos := 0 }

/-- `Reader.Seek`: the error, if any, and the reader afterwards. -/
def Reader.Seek (self : Reader) (newPos : Int) : Option GoError × Reader :=
  if newPos > (self.code.length : Int) then
    (some (GoError.seekPastEnd self.pos), self)
  else
    (none, { self with pos := newPos })

/-- `Reader.ReadTo`: the outcome and the reader afterwards. -/
def Reader.ReadTo (self : Reader) (newPos : Int) : Outcome Bytes × Reader :=
  if self.pos ≥ (self.code.length : Int) then
    (Outcome.error GoError.readPastEnd, self)
  else if newPos = self.pos then
    (Outcome.ok [], self)
  else
    let oldPos := self.pos
    match self.Seek newPos with
    | (some err, r) => (Outcome.error err, r)
    | (none, r) =>
      match sliceBytes r.code oldPos newPos with
      | some s => (Outcome.ok s, r)
      | none => (Outcome.panic, r)

/-- `Reader.ReadToEnd`. -/
def Reader.ReadToEnd (self : Reader) : Outcome Bytes × Reader :=
  if self.pos ≥ (self.code.length : Int) then
    (Outcome.ok [], self)
  else
    self.ReadTo (self.code.length : Int)

/-- `Reader.MaybeConsumeTrailingNewline`; `none` is the panic of indexing `code[pos]`
at a negative position. The error of the inner `Seek` is dropped, as in the source. -/
def Reader.MaybeConsumeTrailingNewline (self : Reader) : Option Reader :=
  if self.pos ≥ (self.code.length : Int) then
    some self
  else if self.pos < 0 then
    none
  else if self.code.get? self.pos.toNat = some 10 then
    some (self.Seek (self.pos + 1)).2
  else
    some self

/-! ## Syntax nodes (the part of `sitter.Node` that `run` reads) -/

/-- A node of the concrete syntax tree: its kind, byte range, whether it is a named
node, the field name it has in its parent, and its children in source order. -/
inductive Node where
  | mk (type : String) (startByte endByte : Nat) (named : Bool)
      (field : Option String) (children : List Node)
  deriving Repr

/-- `Node.Type`, the kind of the node. -/
def Node.type : Node → String
  | .mk t _ _ _ _ _ => t

/-- `Node.StartByte`. -/
def Node.StartByte : Node → Nat
  | .mk _ s _ _ _ _ => s

/-- `Node.EndByte`. -/
def Node.EndByte : Node → Nat
  | .mk _ _ e _ _ _ => e

/-- The children of a node. -/
def Node.children : Node → List Node
  | .mk _ _ _ _ _ cs => cs

/-- The node is a named node. -/
def Node.isNamed : Node → Bool
  | .mk _ _ _ n _ _ => n

/-- The field name the node has in its parent. -/
def Node.fieldName : Node → Option String
  | .mk _ _ _ _ f _ => f

/-- The named children, those that `NamedChild(0)`, ..., `NamedChild(NamedChildCount()-1)`
yield. -/
def Node.namedChildren (self : Node) : List Node :=
  self.children.filter Node.isNamed

/-- `Node.NamedChildCount`. -/
def Node.NamedChildCount (self : Node) : Nat :=
  self.namedChildren.length

/-- `Node.NamedChild(idx)`; `none` is the nil node. -/
def Node.NamedChild (self : Node) (idx : Nat) : Option Node :=
  (self.children.filter Node.isNamed).get? idx

/-- `Node.ChildByFieldName(name)`: the first child with that field name, `none` is nil. -/
def Node.ChildByFieldName (self : Node) (name : String) : Option Node :=
  self.children.find? (fun c => c.fieldName = some name)

/-- `Node.Content(code)`, the slice `code[StartByte:EndByte]`; `none` is its panic. -/
def Node.Content (self : Node) (code : Bytes) : Option Bytes :=
  sliceBytes code (self.StartByte : Int) (self.EndByte : Int)

/-! ## The edit ledger and the task state -/

/-- `codeEdit`. -/
structure codeEdit where
  endByte : Int
  replacement : Bytes
  startByte : Int
  deriving DecidableEq, Repr

/-- `vitestifyTask`, as far as `run` reads it after the walk. The map `vitestImports`
is the list of its keys and the map `needsAsyncFns` the list of its keys, each in the
order in which `run` iterates over it (any order: Go leaves it unspecified); `code` is
`src.Code()`. -/
structure vitestifyTask where
  edits : List codeEdit
  existingNodePathImport : Option Node
  existingNodeUrlImport : Option Node
  needsAsyncFns : List Node
  needsEsmDirnamePatch : Bool
  needsEsmFilenamePatch : Bool
  code : Bytes
  vitestImports : List Bytes
  existingVitestImport : Option Node := none
  hasEsmDirnamePatch : Bool := false
  hasEsmFilenamePatch : Bool := false

/-- `CHARS_PER_LINE_MAX`. -/
def CHARS_PER_LINE_MAX : Nat := 80

/-! ## Library functions that `run` calls -/

/-- `strings.TrimPrefix(s, p)`. -/
def TrimPrefix (s p : Bytes) : Bytes :=
  if p.isPrefixOf s then s.drop p.length else s

/-- `strings.ToLower` on ASCII text: the letters `A`..`Z` become `a`..`z`; other bytes
are kept. On text that is not ASCII the library maps each rune by Unicode case: that
function is `ToLowerOf`. `run` below sorts with `ToLower`: it is the `run` of the source
on required symbols that are ASCII (`namedImportsOf_ascii`), and the order of the symbols
is stated for `ToLowerOf`, on any symbols. -/
def ToLower (s : Bytes) : Bytes :=
  s.map (fun c => if 65 ≤ c.toNat ∧ c.toNat ≤ 90 then UInt8.ofNat (c.toNat + 32) else c)

/-- `strings.Compare`: `-1`, `0` or `1` by the lexicographic order of the bytes. -/
def Compare : Bytes → Bytes → Int
  | [], [] => 0
  | [], _ :: _ => -1
  | _ :: _, [] => 1
  | x :: xs, y :: ys =>
    if x.toNat < y.toNat then -1
    else if y.toNat < x.toNat then 1
    else Compare xs ys

/-- `strings.Join(elems, sep)`. -/
def Join : List Bytes → Bytes → Bytes
  | [], _ => []
  | [a], _ => a
  | a :: b :: rest, sep => a ++ sep ++ Join (b :: rest) sep

/-- The comparison function that `run` passes to `slices.SortedFunc`. -/
def importCmp (a b : Bytes) : Int :=
  Compare (ToLower (TrimPrefix a (lit "type "))) (ToLower (TrimPrefix b (lit "type ")))

/-- `slices.SortedFunc(maps.Keys(self.vitestImports), importCmp)`: the keys, sorted.
The library runs insertion sort on a slice of up to twelve elements (each element moves
left past the elements it compares below) and a quicksort on a longer one; the
definition is that insertion sort at every length. On a longer slice the library may
leave symbols that compare equal (`Mock` and `type Mock`) in another order than here;
what is stated of the order of the symbols is stated of every sorted permutation of the
keys. -/
def namedImports (keys : List Bytes) : List Bytes :=
  keys.insertionSort (fun a b => importCmp a b ≤ 0)

/-- `strings.ToLower`. On a string whose bytes are all ASCII (below `utf8.RuneSelf`,
128) the library lowers the letters `A`..`Z` byte by byte, which is `ToLower`; on any
other string it returns `strings.Map(unicode.ToLower, s)`, computed rune by rune from the
case tables of the Unicode library: `unicodeLower` stands for that function. -/
def ToLowerOf (unicodeLower : Bytes → Bytes) (s : Bytes) : Bytes :=
  if s.all (fun c => c.toNat < 128) then ToLower s else unicodeLower s

/-- The comparison function that `run` passes to `slices.SortedFunc`, on any keys. -/
def importCmpOf (unicodeLower : Bytes → Bytes) (a b : Bytes) : Int :=
  Compare (ToLowerOf unicodeLower (TrimPrefix a (lit "type ")))
    (ToLowerOf unicodeLower (TrimPrefix b (lit "type ")))

/-- `slices.SortedFunc(maps.Keys(self.vitestImports), importCmp)` on any keys, the
library sort taken as the insertion sort it runs on up to twelve elements. It is
`namedImports` when every key is ASCII (`namedImportsOf_ascii`). -/
def namedImportsOf (unicodeLower : Bytes → Bytes) (keys : List Bytes) : List Bytes :=
  keys.insertionSort (fun a b => importCmpOf unicodeLower a b ≤ 0)

/-- The value of `importStatement` when it is pushed (lines 162-177 of `update.go`). -/
def importStatement (names : List Bytes) : Bytes :=
  let stmt := lit "import \x7b " ++ Join names (lit ", ") ++ lit " \x7d from 'vitest';"
  if stmt.length > CHARS_PER_LINE_MAX then
    lit "import \x7b" ++ lit "\n" ++ (lit "  " ++ Join names (lit ",\n  ")) ++ lit "\n"
      ++ lit "\x7d from 'vitest';"
  else
    stmt

/-- `slices.SortFunc(self.edits, func(a, b) int { return a.startByte - b.startByte })`.
The library runs insertion sort on a slice of up to twelve elements and a quicksort on a
longer one; the definition is that insertion sort at every length. The two agree on a
ledger of any length in which no two edits have one start (`sortEdits_unique`); edits
with one start may come out of the quicksort in another order than here. The difference
of two offsets is exact: they are byte offsets of a file, far from the limits of `int`. -/
def sortEdits (edits : List codeEdit) : List codeEdit :=
  edits.insertionSort (fun a b => a.startByte - b.startByte ≤ 0)

/-! ## `run`, from the end of the walk -/

/-- The chunks that `run` pushes for the consolidated import (lines 151-180). -/
def importChunks (self : vitestifyTask) : List Bytes :=
  if self.vitestImports.length > 0 then
    [importStatement (namedImports self.vitestImports), lit "\n"]
  else
    []

/-- The chunks that `run` pushes for the `__dirname`/`__filename` shim (lines 186-218). -/
def esmChunks (self : vitestifyTask) : List Bytes :=
  if self.needsEsmDirnamePatch || self.needsEsmFilenamePatch then
    [lit "import url from 'node:url';", lit "\n"]
      ++ (if self.needsEsmDirnamePatch && self.existingNodePathImport.isNone then
            [lit "import path from 'node:path';", lit "\n"]
          else [])
      ++ [lit "\n", lit "const __filename = url.fileURLToPath(import.meta.url);", lit "\n"]
      ++ (if self.needsEsmDirnamePatch then
            [lit "const __dirname = path.dirname(__filename);", lit "\n"]
          else [])
      ++ [lit "\n"]
  else
    []

/-- The edits that `run` appends for the shim (lines 187-203): the deletion of an
existing `node:url` import. The deletion of an existing `node:path` import sits under
`existingNodePathImport == nil` in the source and is never appended. -/
def esmEdits (self : vitestifyTask) : List codeEdit :=
  if self.needsEsmDirnamePatch || self.needsEsmFilenamePatch then
    match self.existingNodeUrlImport with
    | some n =>
      [{ startByte := (n.StartByte : Int), endByte := (n.EndByte : Int), replacement := [] }]
    | none => []
  else
    []

/-- The edits that `run` appends for the functions of `needsAsyncFns` (lines 220-238);
`none` is a panic (a `return_type` node with no named child, or `Content` out of
range). -/
def asyncEdits (code : Bytes) : List Node → Option (List codeEdit)
  | [] => some []
  | fnNode :: rest =>
    let marker : codeEdit :=
      { startByte := (fnNode.StartByte : Int), endByte := (fnNode.StartByte : Int),
        replacement := lit "async " }
    match fnNode.ChildByFieldName "return_type" with
    | none => (asyncEdits code rest).map (fun es => marker :: es)
    | some returnTypeAnnotation =>
      match returnTypeAnnotation.NamedChild 0 with
      | none => none
      | some returnTypeNode =>
        match returnTypeNode.Content code with
        | none => none
        | some returnType =>
          (asyncEdits code rest).map (fun es =>
            marker
              :: { startByte := (returnTypeNode.StartByte : Int),
                   endByte := (returnTypeNode.EndByte : Int),
                   replacement := lit "Promise<" ++ returnType ++ lit ">" }
              :: es)

/-- The loop over the sorted edits (lines 245-258): the chunk list and the reader after
the last edit, or the error that `run` returns. -/
def replayLoop : List codeEdit → Reader → List Bytes → Outcome (List Bytes × Reader)
  | [], reader, outputChunks => Outcome.ok (outputChunks, reader)
  | edit :: rest, reader, outputChunks =>
    match reader.ReadTo edit.startByte with
    | (Outcome.error err, _) => Outcome.error (GoError.unableToReadChunk err)
    | (Outcome.panic, _) => Outcome.panic
    | (Outcome.ok unchangedChunk, reader1) =>
      match reader1.Seek edit.endByte with
      | (some err, _) => Outcome.error (GoError.unexpectedSeek err)
      | (none, reader2) =>
        replayLoop rest reader2 (outputChunks ++ [unchangedChunk] ++ [edit.replacement])

/-- The replay of `run` (lines 240-265): sort the ledger, replay it over a new reader,
push the final chunk. The result is the chunk list. -/
def replay (code : Bytes) (edits : List codeEdit) (outputChunks : List Bytes) :
    Outcome (List Bytes) :=
  match replayLoop (sortEdits edits) (NewReader code) outputChunks with
  | Outcome.error err => Outcome.error err
  | Outcome.panic => Outcome.panic
  | Outcome.ok (chunks, reader) =>
    match reader.ReadToEnd with
    | (Outcome.error err, _) => Outcome.error (GoError.unableToReadChunk err)
    | (Outcome.panic, _) => Outcome.panic
    | (Outcome.ok finalChunk, _) => Outcome.ok (chunks ++ [finalChunk])

/-- The part of `vitestifyTask.run` after `walkNode` has returned nil (lines 144-267),
on the task state the walk left: the chunk list that `fmt.Sprint` receives. -/
def runChunks (self : vitestifyTask) : Outcome (List Bytes) :=
  if self.vitestImports.length = 0 ∧ self.edits.length = 0
      ∧ ¬ self.needsEsmDirnamePatch ∧ ¬ self.needsEsmFilenamePatch then
    Outcome.error GoError.noop
  else
    match asyncEdits self.code self.needsAsyncFns with
    | none => Outcome.panic
    | some fnEdits =>
      replay self.code (self.edits ++ esmEdits self ++ fnEdits)
        (importChunks self ++ esmChunks self)

/-- `fmt.Sprint(outputChunks...)` on chunks that are all strings: their concatenation. -/
def Sprint (outputChunks : List Bytes) : Bytes := outputChunks.flatten

/-- The result of `run` after the walk: the new text, or the error. -/
def runAfterWalk (self : vitestifyTask) : Outcome Bytes :=
  match runChunks self with
  | Outcome.ok chunks => Outcome.ok (Sprint chunks)
  | Outcome.error err => Outcome.error err
  | Outcome.panic => Outcome.panic

/-- The ledger that `run` sorts and replays: the edits of the walk, then the edits of
the shim, then the edits of the functions made asynchronous (none of the last when their
synthesis panics: `run` then returns nothing). -/
def finalLedger (self : vitestifyTask) : List codeEdit :=
  self.edits ++ esmEdits self ++ (asyncEdits self.code self.needsAsyncFns).getD []

/-! ## Constants of `main.go`, `ast/nodes.go` and `update.go` -/

/-- `ENABLE_ESM_UPDATES` of `main.go`. -/
def ENABLE_ESM_UPDATES : Bool := false

/-- `ENABLE_TESTING_LIBRARY_UPDATES` of `main.go`. -/
def ENABLE_TESTING_LIBRARY_UPDATES : Bool := false

/-- `ast.NODE_CALL_EXPRESSION`. -/
def NODE_CALL_EXPRESSION : String := "call_expression"

/-- `ast.NODE_IDENTIFIER`. -/
def NODE_IDENTIFIER : String := "identifier"

/-- `ast.NODE_IMPORT_CLAUSE`. -/
def NODE_IMPORT_CLAUSE : String := "import_clause"

/-- `ast.NODE_IMPORT_SPECIFIER`. -/
def NODE_IMPORT_SPECIFIER : String := "import_specifier"

/-- `ast.NODE_IMPORT_STATEMENT`. -/
def NODE_IMPORT_STATEMENT : String := "import_statement"

/-- `ast.NODE_NAMED_IMPORTS`. -/
def NODE_NAMED_IMPORTS : String := "named_imports"

/-- `ast.NODE_NAMESPACE_IMPORT`. -/
def NODE_NAMESPACE_IMPORT : String := "namespace_import"

/-- `ast.NODE_NESTED_TYPE_IDENTIFIER`. -/
def NODE_NESTED_TYPE_IDENTIFIER : String := "nested_type_identifier"

/-- `ast.NODE_VARIABLE_DECLARATOR`. -/
def NODE_VARIABLE_DECLARATOR : String := "variable_declarator"

/-- `ast.FIELD_FN_ARGUMENTS`. -/
def FIELD_FN_ARGUMENTS : String := "arguments"

/-- `ast.FIELD_IMPORT_EXPORT_SOURCE`. -/
def FIELD_IMPORT_EXPORT_SOURCE : String := "source"

/-- `ast.FIELD_NAME`. -/
def FIELD_NAME : String := "name"

/-- `TYPE_NAME_CUSTOM_MATCHER_RESULT`. -/
def TYPE_NAME_CUSTOM_MATCHER_RESULT : Bytes := lit "CustomMatcherResult"

/-- `TYPE_NAME_EXPECTATION_RESULT`. -/
def TYPE_NAME_EXPECTATION_RESULT : Bytes := lit "ExpectationResult"

/-- `TYPE_NAME_MOCK`. -/
def TYPE_NAME_MOCK : Bytes := lit "Mock"

/-- `TYPE_NAME_MOCK_INSTANCE`. -/
def TYPE_NAME_MOCK_INSTANCE : Bytes := lit "MockInstance"

/-- `TYPE_NAME_MOCKED`. -/
def TYPE_NAME_MOCKED : Bytes := lit "Mocked"

/-- `TYPE_NAME_MOCKED_CLASS`. -/
def TYPE_NAME_MOCKED_CLASS : Bytes := lit "MockedClass"

/-- `TYPE_NAME_MOCKED_FUNCTION`. -/
def TYPE_NAME_MOCKED_FUNCTION : Bytes := lit "MockedFunction"

/-- `TYPE_NAME_SPY_INSTANCE`. -/
def TYPE_NAME_SPY_INSTANCE : Bytes := lit "SpyInstance"

/-- `typeImports`. -/
def typeImports : List Bytes :=
  [TYPE_NAME_CUSTOM_MATCHER_RESULT, TYPE_NAME_EXPECTATION_RESULT, TYPE_NAME_MOCK,
   TYPE_NAME_MOCK_INSTANCE, TYPE_NAME_MOCKED, TYPE_NAME_MOCKED_CLASS,
   TYPE_NAME_MOCKED_FUNCTION, TYPE_NAME_SPY_INSTANCE]

/-- `FN_NAME_AFTER_ALL`. -/
def FN_NAME_AFTER_ALL : Bytes := lit "afterAll"

/-- `FN_NAME_AFTER_EACH`. -/
def FN_NAME_AFTER_EACH : Bytes := lit "afterEach"

/-- `FN_NAME_BEFORE_ALL`. -/
def FN_NAME_BEFORE_ALL : Bytes := lit "beforeAll"

/-- `FN_NAME_BEFORE_EACH`. -/
def FN_NAME_BEFORE_EACH : Bytes := lit "beforeEach"

/-- `FN_NAME_DESCRIBE`. -/
def FN_NAME_DESCRIBE : Bytes := lit "describe"

/-- `FN_NAME_EXPECT`. -/
def FN_NAME_EXPECT : Bytes := lit "expect"

/-- `FN_NAME_IT`. -/
def FN_NAME_IT : Bytes := lit "it"

/-- `FN_NAME_TEST`. -/
def FN_NAME_TEST : Bytes := lit "test"

/-! ## More library functions: substrings and the three regular expressions

The regular expressions of `update.go` are matched byte by byte. Every byte they name
is ASCII (`\s` is tab, newline, form feed, carriage return and space, `\w` is a letter,
a digit or `_`, `\b` is the ASCII word boundary), and a byte of a longer UTF-8 sequence
falls in no class they name, so matching bytes and matching runes agree. -/

/-- The string `s` with `p` removed from its front, when `p` is at its front. -/
def stripLit (p s : Bytes) : Option Bytes :=
  if p.isPrefixOf s then some (s.drop p.length) else none

/-- `strings.Contains(s, sub)`. -/
def Contains (s sub : Bytes) : Bool :=
  s.tails.any (fun t => sub.isPrefixOf t)

/-- The bytes that `\w` matches. -/
def isWordByte (c : UInt8) : Bool :=
  (48 ≤ c.toNat && c.toNat ≤ 57) || (65 ≤ c.toNat && c.toNat ≤ 90)
    || (97 ≤ c.toNat && c.toNat ≤ 122) || c.toNat = 95

/-- The alternatives `test(:?\.each)?\(` and `it(:?\.each)?\(` after the name: `(`,
`.each(` or `:.each(` (the group `(:?\.each)` is an optional colon and `.each`). -/
def eachCallAhead (s : Bytes) : Bool :=
  (lit "(").isPrefixOf s || (lit ".each(").isPrefixOf s || (lit ":.each(").isPrefixOf s

/-- The alternative `expect(?:\.\w+)?\(` after the name `expect`: `(`, or a dot, one or
more word bytes and `(`. -/
def expectCallAhead (s : Bytes) : Bool :=
  (lit "(").isPrefixOf s
    || (match stripLit (lit ".") s with
        | some rest =>
          0 < (rest.takeWhile isWordByte).length
            && (lit "(").isPrefixOf (rest.dropWhile isWordByte)
        | none => false)

/-- One of the five alternatives of `regexJestReference` matches at the front of `s`:
`jest\.\w+`, `test(:?\.each)?\(`, `it(:?\.each)?\(`, `(?:before|after)(?:Each|All)\(`,
`expect(?:\.\w+)?\(`. -/
def jestReferenceAhead (s : Bytes) : Bool :=
  (match stripLit (lit "jest.") s with
    | some (c :: _) => isWordByte c
    | _ => false)
    || (match stripLit (lit "test") s with
        | some rest => eachCallAhead rest
        | none => false)
    || (match stripLit (lit "it") s with
        | some rest => eachCallAhead rest
        | none => false)
    || (lit "beforeEach(").isPrefixOf s || (lit "beforeAll(").isPrefixOf s
    || (lit "afterEach(").isPrefixOf s || (lit "afterAll(").isPrefixOf s
    || (match stripLit (lit "expect") s with
        | some rest => expectCallAhead rest
        | none => false)

/-- The search of `regexJestReference`, `\s(?m:^[^/*]*\b(?:...))`, from some position
on. The `\s` must be followed by a line start, so it is a newline. `armed` says that a
newline lies before the position with no `/` and no `*` between it and the position
(what `\s^[^/*]*` has matched); `prevWord` says that the byte before the position is a
word byte (every alternative starts with a word byte, so `\b` asks for the opposite). -/
def scanJestReference : Bytes → Bool → Bool → Bool
  | [], _, _ => false
  | c :: rest, armed, prevWord =>
    (armed && !prevWord && jestReferenceAhead (c :: rest))
      || scanJestReference rest
          (c.toNat = 10 || (armed && c.toNat ≠ 47 && c.toNat ≠ 42)) (isWordByte c)

/-- `regexJestReference.Match(code)`. -/
def regexJestReference (code : Bytes) : Bool :=
  scanJestReference code false false

/-- `regexOldDirnameReferences.Match(code)`, for `(__dirname|__filename)`. -/
def regexOldDirnameReferences (code : Bytes) : Bool :=
  Contains code (lit "__dirname") || Contains code (lit "__filename")

/-- `strings.ReplaceAll(s, old, new)` for a non-empty `old`, from some position on;
`skip` counts the bytes of a replaced occurrence that are still to be passed over. -/
def replaceAllFrom (old new : Bytes) : Bytes → Nat → Bytes
  | [], _ => []
  | _ :: rest, skip + 1 => replaceAllFrom old new rest skip
  | c :: rest, 0 =>
    if old.isPrefixOf (c :: rest) then new ++ replaceAllFrom old new rest (old.length - 1)
    else c :: replaceAllFrom old new rest 0

/-- `strings.ReplaceAll(s, old, new)` for a non-empty `old`. -/
def ReplaceAll (s old new : Bytes) : Bytes :=
  replaceAllFrom old new s 0

/-- The end of `regexJestRequireActual`, `\(([^)]+)\)`, at the front of `s`: the number
of bytes it matches and the text of the group. -/
def requireActualArgs (s : Bytes) : Option (Nat × Bytes) :=
  match s with
  | c :: rest =>
    if c.toNat = 40 ∧ 0 < (rest.takeWhile (fun b => b.toNat ≠ 41)).length
        ∧ (lit ")").isPrefixOf (rest.dropWhile (fun b => b.toNat ≠ 41)) then
      some ((rest.takeWhile (fun b => b.toNat ≠ 41)).length + 2,
        rest.takeWhile (fun b => b.toNat ≠ 41))
    else none
  | [] => none

/-- The optional `<.+>` of `regexJestRequireActual` after its `<`: `.+` is greedy and
stays on the line, so the `>` taken is the last one of the line, not the first byte,
after which the end of the expression matches. `idx` is the number of bytes passed,
`best` the match found so far; the result counts the bytes from after the `<`. -/
def requireActualGeneric : Bytes → Nat → Option (Nat × Bytes) → Option (Nat × Bytes)
  | [], _, best => best
  | c :: rest, idx, best =>
    if c.toNat = 10 then best
    else
      requireActualGeneric rest (idx + 1)
        (if 1 ≤ idx ∧ c.toNat = 62 then
          match requireActualArgs rest with
          | some (n, g) => some (idx + 1 + n, g)
          | none => best
        else best)

/-- The match of `\bjest\.requireActual(?:<.+>)?\(([^)]+)\)` that starts at the front
of `s`, the word boundary apart: its length and the text of group 1. The optional part
is tried first. -/
def requireActualAhead (s : Bytes) : Option (Nat × Bytes) :=
  match stripLit (lit "jest.requireActual") s with
  | none => none
  | some rest =>
    match (match rest with
            | c :: more =>
              if c.toNat = 60 then requireActualGeneric more 0 none else none
            | [] => none) with
    | some (n, g) => some (18 + 1 + n, g)
    | none =>
      match requireActualArgs rest with
      | some (n, g) => some (18 + n, g)
      | none => none

/-- The bytes a `$name` of a replacement template may hold, on ASCII text: letters,
digits and `_`. -/
def isTemplateNameByte (c : UInt8) : Bool := isWordByte c

/-- The value of `$name` in `Regexp.expand` for an expression with one unnamed group:
the whole match for `0`, the group for `1`, nothing for any other name. -/
def templateValue (name whole group1 : Bytes) : Bytes :=
  if name = lit "0" then whole else if name = lit "1" then group1 else []

/-- `Regexp.expand` on a template from some position on (`skip` as in `replaceAllFrom`):
`$$` is a dollar, `$name` and `${name}` are replaced by their value, a `$` that starts
no name is kept. -/
def expandFrom (whole group1 : Bytes) : Bytes → Nat → Bytes
  | [], _ => []
  | _ :: rest, skip + 1 => expandFrom whole group1 rest skip
  | c :: rest, 0 =>
    if c.toNat ≠ 36 then c :: expandFrom whole group1 rest 0
    else
      match rest with
      | [] => [c]
      | d :: more =>
        if d.toNat = 36 then c :: expandFrom whole group1 rest 1
        else if d.toNat = 123 then
          if 0 < (more.takeWhile isTemplateNameByte).length
              ∧ (lit "\x7d").isPrefixOf (more.dropWhile isTemplateNameByte) then
            templateValue (more.takeWhile isTemplateNameByte) whole group1
              ++ expandFrom whole group1 rest
                  ((more.takeWhile isTemplateNameByte).length + 2)
          else c :: expandFrom whole group1 rest 0
        else if 0 < (rest.takeWhile isTemplateNameByte).length then
          templateValue (rest.takeWhile isTemplateNameByte) whole group1
            ++ expandFrom whole group1 rest (rest.takeWhile isTemplateNameByte).length
        else c :: expandFrom whole group1 rest 0

/-- `regexJestRequireActual.ReplaceAllString(src, repl)` from some position on; `skip`
as in `replaceAllFrom`, `prevWord` as in `scanJestReference`. -/
def replaceRequireActualFrom (repl : Bytes) : Bytes → Nat → Bool → Bytes
  | [], _, _ => []
  | c :: rest, skip + 1, _ => replaceRequireActualFrom repl rest skip (isWordByte c)
  | c :: rest, 0, prevWord =>
    match (if prevWord then none else requireActualAhead (c :: rest)) with
    | some (n, g) =>
      expandFrom ((c :: rest).take n) g repl 0
        ++ replaceRequireActualFrom repl rest (n - 1) (isWordByte c)
    | none => c :: replaceRequireActualFrom repl rest 0 (isWordByte c)

/-- `regexJestRequireActual.ReplaceAllString(src, repl)`. -/
def regexJestRequireActualReplaceAll (src repl : Bytes) : Bytes :=
  replaceRequireActualFrom repl src 0 false

/-! ## The tree walk

A nil node is `none`; calling a method on it is a panic, as is `Content` out of range. -/

/-- `newVitestifyTask`, with the source that `run` reads into `self.src`. -/
def newVitestifyTask (code : Bytes) : vitestifyTask :=
  { edits := [], existingNodePathImport := none, existingNodeUrlImport := none,
    needsAsyncFns := [], needsEsmDirnamePatch := false, needsEsmFilenamePatch := false,
    code := code, vitestImports := [], existingVitestImport := none,
    hasEsmDirnamePatch := false, hasEsmFilenamePatch := false }

/-- The keys of a Go map after `m[key] = nil`. -/
def insertKey (m : List Bytes) (key : Bytes) : List Bytes :=
  if key ∈ m then m else m ++ [key]

/-- `self.vitestImports[key] = nil`. -/
def vitestifyTask.addImport (self : vitestifyTask) (key : Bytes) : vitestifyTask :=
  { self with vitestImports := insertKey self.vitestImports key }

/-- `self.edits = append(self.edits, edit)`. -/
def vitestifyTask.addEdit (self : vitestifyTask) (edit : codeEdit) : vitestifyTask :=
  { self with edits := self.edits ++ [edit] }

/-- The edit that replaces the byte range of a node. -/
def nodeEdit (node : Node) (replacement : Bytes) : codeEdit :=
  { startByte := (node.StartByte : Int), endByte := (node.EndByte : Int),
    replacement := replacement }

/-- The loop over the children of a `named_imports` clause (lines 306-318), on the keys
of `vitestImports`; `none` is a panic (a specifier without a name). -/
def collectImportSpecifiers (code : Bytes) : List Node → List Bytes → Option (List Bytes)
  | [], imports => some imports
  | importSpecifierNode :: rest, imports =>
    if importSpecifierNode.type ≠ NODE_IMPORT_SPECIFIER then
      collectImportSpecifiers code rest imports
    else
      match importSpecifierNode.ChildByFieldName FIELD_NAME with
      | none => none
      | some nameNode =>
        match nameNode.Content code with
        | none => none
        | some vitestImport =>
          collectImportSpecifiers code rest
            (insertKey imports
              (if vitestImport ∈ typeImports then lit "type " ++ vitestImport
               else vitestImport))

/-- The loop over the children of the import clause (lines 300-319). -/
def collectImportClauses (code : Bytes) : List Node → List Bytes → Option (List Bytes)
  | [], imports => some imports
  | namedImportsClause :: rest, imports =>
    if namedImportsClause.type ≠ NODE_NAMED_IMPORTS then
      collectImportClauses code rest imports
    else
      match collectImportSpecifiers code namedImportsClause.namedChildren imports with
      | none => none
      | some imports1 => collectImportClauses code rest imports1

/-- An error whose message holds `node.Content(self.src.Code())`. -/
def errorWithContent {α : Type} (code : Bytes) (node : Node) (mk : Bytes → GoError) :
    Outcome α :=
  match node.Content code with
  | none => Outcome.panic
  | some content => Outcome.error (mk content)

/-- The case `'vitest'` of an import statement (lines 287-329). -/
def vitestImportCase (self : vitestifyTask) (node : Node) : Outcome vitestifyTask :=
  if self.existingVitestImport.isSome then
    Outcome.ok self
  else
    match node.NamedChild 0 with
    | none => Outcome.panic
    | some importClauseNode =>
      if importClauseNode.type ≠ NODE_IMPORT_CLAUSE then
        errorWithContent self.code node (GoError.missingImportClause (lit "vitest"))
      else
        match collectImportClauses self.code importClauseNode.namedChildren
            self.vitestImports with
        | none => Outcome.panic
        | some imports =>
          Outcome.ok
            { self with
              vitestImports := imports
              existingVitestImport := some node
              edits := self.edits
                ++ [{ startByte := (node.StartByte : Int),
                      endByte := (node.EndByte : Int) + 1,
                      replacement := [] }] }

/-- The cases `'node:path'` and `'node:url'` of an import statement (lines 346-374):
whether the statement is to be remembered, or the error. -/
def nodeModuleImportCase (code : Bytes) (module : Bytes) (node : Node) : Outcome Bool :=
  match node.NamedChild 0 with
  | none => Outcome.panic
  | some importClause =>
    if importClause.type ≠ NODE_IMPORT_CLAUSE then
      errorWithContent code node (GoError.missingImportClause module)
    else
      match importClause.NamedChild 0 with
      | none => Outcome.panic
      | some namespaceClause =>
        Outcome.ok
          (namespaceClause.type = NODE_NAMESPACE_IMPORT
            || namespaceClause.type = NODE_IDENTIFIER)

/-- The case `ast.NODE_IMPORT_STATEMENT` of `walkNode` (lines 276-375). -/
def importStatementCase (self : vitestifyTask) (node : Node) : Outcome vitestifyTask :=
  match node.ChildByFieldName FIELD_IMPORT_EXPORT_SOURCE with
  | none => errorWithContent self.code node GoError.unhandledImportFormat
  | some sourceNode =>
    match sourceNode.Content self.code with
    | none => Outcome.panic
    | some source =>
      if source = lit "'vitest'" then
        vitestImportCase self node
      else if source = lit "'node:path'" then
        match nodeModuleImportCase self.code (lit "node:path") node with
        | Outcome.ok true => Outcome.ok { self with existingNodePathImport := some node }
        | Outcome.ok false => Outcome.ok self
        | Outcome.error err => Outcome.error err
        | Outcome.panic => Outcome.panic
      else if source = lit "'node:url'" then
        match nodeModuleImportCase self.code (lit "node:url") node with
        | Outcome.ok true => Outcome.ok { self with existingNodeUrlImport := some node }
        | Outcome.ok false => Outcome.ok self
        | Outcome.error err => Outcome.error err
        | Outcome.panic => Outcome.panic
      else Outcome.ok self

/-- The case `ast.NODE_IDENTIFIER` of `walkNode` (lines 382-405); `parentType` is
`node.Parent().Type()`, the kind of the node whose children the loop visits. -/
def identifierCase (self : vitestifyTask) (parentType : String) (node : Node) :
    Outcome vitestifyTask :=
  match node.Content self.code with
  | none => Outcome.panic
  | some name =>
    let isVariableDeclaration : Bool := parentType = NODE_VARIABLE_DECLARATOR
    let self1 : vitestifyTask :=
      if name = lit "__dirname" ∧ ENABLE_ESM_UPDATES = true then
        if isVariableDeclaration then
          { self with hasEsmDirnamePatch := true, needsEsmDirnamePatch := false }
        else if !self.hasEsmDirnamePatch then
          { self with needsEsmDirnamePatch := true }
        else self
      else self
    let self2 : vitestifyTask :=
      if name = lit "__filename" ∧ ENABLE_ESM_UPDATES = true then
        if isVariableDeclaration then
          { self1 with hasEsmFilenamePatch := true, needsEsmFilenamePatch := false }
        else if !self1.hasEsmFilenamePatch then
          { self1 with needsEsmFilenamePatch := true }
        else self1
      else self1
    Outcome.ok self2

/-- `vitestifyTask.processJestType` (lines 707-770). -/
def processJestType (self : vitestifyTask) (node : Node) : Outcome vitestifyTask :=
  match node.ChildByFieldName "name" with
  | none => errorWithContent self.code node GoError.missingJestTypeName
  | some nameNode =>
    match nameNode.Content self.code with
    | none => Outcome.panic
    | some name =>
      if name = TYPE_NAME_CUSTOM_MATCHER_RESULT then
        Outcome.ok
          (self.addEdit
            (nodeEdit node (lit "\x7b message: () => string; pass: boolean \x7d")))
      else if name = TYPE_NAME_MOCK then
        Outcome.ok
          ((self.addImport (lit "type " ++ TYPE_NAME_MOCK)).addEdit
            (nodeEdit node TYPE_NAME_MOCK))
      else if name = TYPE_NAME_MOCKED then
        Outcome.ok
          ((self.addImport (lit "type " ++ TYPE_NAME_MOCKED)).addEdit
            (nodeEdit node TYPE_NAME_MOCKED))
      else if name = TYPE_NAME_MOCKED_CLASS then
        Outcome.ok
          ((self.addImport (lit "type " ++ TYPE_NAME_MOCKED_CLASS)).addEdit
            (nodeEdit node TYPE_NAME_MOCKED_CLASS))
      else if name = TYPE_NAME_MOCKED_FUNCTION then
        Outcome.ok
          ((self.addImport (lit "type " ++ TYPE_NAME_MOCKED_FUNCTION)).addEdit
            (nodeEdit node TYPE_NAME_MOCKED_FUNCTION))
      else if name = TYPE_NAME_SPY_INSTANCE then
        Outcome.ok
          ((self.addImport (lit "type " ++ TYPE_NAME_MOCK_INSTANCE)).addEdit
            (nodeEdit node TYPE_NAME_MOCK_INSTANCE))
      else
        Outcome.error (GoError.unhandledJestType name)

/-- The case `ast.NODE_NESTED_TYPE_IDENTIFIER` of `walkNode` (lines 407-414). -/
def nestedTypeCase (self : vitestifyTask) (node : Node) : Outcome vitestifyTask :=
  match node.Content self.code with
  | none => Outcome.panic
  | some content =>
    if !Contains content (lit "jest") then Outcome.ok self
    else processJestType self node

/-- `vitestifyTask.processJestMock` (lines 671-705). -/
def processJestMock (self : vitestifyTask) (node : Node) : Outcome vitestifyTask :=
  match node.ChildByFieldName "arguments" with
  | none => Outcome.panic
  | some argsNode =>
    match argsNode.NamedChild 0 with
    | none => Outcome.panic
    | some pathNode =>
      match pathNode.Content self.code with
      | none => Outcome.panic
      | some importPath =>
        if argsNode.NamedChildCount = 1 then
          Outcome.ok
            (self.addEdit (nodeEdit node (lit "vi.mock(" ++ importPath ++ lit ")")))
        else
          match argsNode.NamedChild 1 with
          | none => Outcome.panic
          | some factoryNode =>
            match factoryNode.ChildByFieldName "body" with
            | none => Outcome.panic
            | some bodyNode =>
              match bodyNode.Content self.code with
              | none => Outcome.panic
              | some factoryBody =>
                Outcome.ok
                  (self.addEdit
                    (nodeEdit node
                      (lit "vi.mock(" ++ importPath
                        ++ lit ", async (importActual): Promise<typeof import("
                        ++ importPath ++ lit ")> => "
                        ++ ReplaceAll
                            (regexJestRequireActualReplaceAll factoryBody
                              (lit "(await importActual<typeof import(" ++ importPath
                                ++ lit ")>())"))
                            (lit "jest.") (lit "vi.")
                        ++ lit ")")))

/-- `vitestifyTask.processJestFnCall` (lines 609-669). -/
def processJestFnCall (self : vitestifyTask) (node nameNode : Node)
    (namespaceNode : Option Node) : Outcome vitestifyTask :=
  match nameNode.ChildByFieldName "property" with
  | none => Outcome.panic
  | some propertyNode =>
    match propertyNode.Content self.code with
    | none => Outcome.panic
    | some propertyName =>
      if propertyName = lit "mock" then
        processJestMock self node
      else if propertyName = lit "requireActual" then
        match node.ChildByFieldName "arguments" with
        | none => errorWithContent self.code node GoError.missingArguments
        | some argsNode =>
          match argsNode.NamedChild 0 with
          | none => Outcome.panic
          | some pathNode =>
            match pathNode.Content self.code with
            | none => Outcome.panic
            | some importPath =>
              Outcome.ok
                (self.addEdit
                  (nodeEdit node
                    (lit "(await vi.importActual<typeof import(" ++ importPath
                      ++ lit ")>(" ++ importPath ++ lit "))")))
      else if propertyName = lit "setTimeout" then
        match node.ChildByFieldName "arguments" with
        | none => errorWithContent self.code node GoError.missingArguments
        | some argsNode =>
          match argsNode.NamedChild 0 with
          | none => Outcome.panic
          | some valueNode =>
            match valueNode.Content self.code with
            | none => Outcome.panic
            | some timeoutValue =>
              Outcome.ok
                (self.addEdit
                  (nodeEdit node
                    (lit "vi.setConfig(\x7b testTimeout: " ++ timeoutValue ++ lit " \x7d)")))
      else
        match namespaceNode with
        | none => Outcome.panic
        | some ns => Outcome.ok (self.addEdit (nodeEdit ns (lit "vi")))

/-- The argument edit of the cases `advanceTimersAndPromises` and `advanceTimers`
(lines 519-532 and 542-555): `(1000)` without arguments, the text of the first named
child of the argument list times 1000 otherwise. -/
def timerArgsEdit (self : vitestifyTask) (node : Node) : Outcome vitestifyTask :=
  match node.ChildByFieldName FIELD_FN_ARGUMENTS with
  | none => Outcome.panic
  | some args =>
    if args.NamedChildCount > 0 then
      match args.NamedChild 0 with
      | none => Outcome.panic
      | some first =>
        match first.Content self.code with
        | none => Outcome.panic
        | some text =>
          Outcome.ok (self.addEdit (nodeEdit args (lit "(" ++ text ++ lit " * 1000)")))
    else
      Outcome.ok (self.addEdit (nodeEdit args (lit "(1000)")))

/-- The second `switch` of `processCallExpression` (lines 580-604), on the property
name. -/
def propertySwitch (self : vitestifyTask) (node : Node) (propertyName : Bytes) :
    Outcome vitestifyTask :=
  if propertyName = lit "mockImplementation" then
    match node.ChildByFieldName FIELD_FN_ARGUMENTS with
    | none => Outcome.panic
    | some args =>
      if args.NamedChildCount = 0 then
        Outcome.ok (self.addEdit (nodeEdit args (lit "(() => \x7b\x7d)")))
      else Outcome.ok self
  else Outcome.ok self

/-- The first `switch` of `processCallExpression` (lines 449-578), on the name or the
namespace, for the cases that go on to the second `switch`. The body of the case
`userEvent` runs only under `ENABLE_TESTING_LIBRARY_UPDATES`, which is false: the case
does nothing. -/
def nameSwitch (self : vitestifyTask) (node nameNode : Node)
    (namespaceNode : Option Node) (nameOrNamespace : Bytes) : Outcome vitestifyTask :=
  if nameOrNamespace = lit "userEvent" then
    Outcome.ok self
  else if nameOrNamespace = lit "advanceTimersAndPromises" then
    timerArgsEdit
      ((self.addImport (lit "vi")).addEdit
        (nodeEdit nameNode (lit "vi.advanceTimersByTimeAsync")))
      node
  else if nameOrNamespace = lit "advanceTimers" then
    timerArgsEdit
      ((self.addImport (lit "vi")).addEdit
        (nodeEdit nameNode (lit "vi.advanceTimersByTime")))
      node
  else if nameOrNamespace = FN_NAME_AFTER_ALL then
    Outcome.ok (self.addImport FN_NAME_AFTER_ALL)
  else if nameOrNamespace = FN_NAME_AFTER_EACH then
    Outcome.ok (self.addImport FN_NAME_AFTER_EACH)
  else if nameOrNamespace = FN_NAME_BEFORE_ALL then
    Outcome.ok (self.addImport FN_NAME_BEFORE_ALL)
  else if nameOrNamespace = FN_NAME_BEFORE_EACH then
    Outcome.ok (self.addImport FN_NAME_BEFORE_EACH)
  else if nameOrNamespace = FN_NAME_DESCRIBE then
    Outcome.ok (self.addImport FN_NAME_DESCRIBE)
  else if nameOrNamespace = FN_NAME_EXPECT then
    Outcome.ok (self.addImport FN_NAME_EXPECT)
  else if nameOrNamespace = FN_NAME_IT then
    if namespaceNode.isNone then Outcome.ok (self.addImport FN_NAME_IT)
    else Outcome.ok self
  else if nameOrNamespace = FN_NAME_TEST then
    Outcome.ok (self.addImport FN_NAME_TEST)
  else Outcome.ok self

/-- The two `switch` statements of `processCallExpression` once the callee is read
(lines 449-604): the task afterwards, and whether the function goes on to
`return self.walkNode(node)` (it does not in the cases `vi` and `jest`). -/
def callSwitches (self : vitestifyTask) (node nameNode : Node)
    (namespaceNode : Option Node) (nameOrNamespace propertyName : Bytes) :
    Outcome (vitestifyTask × Bool) :=
  if nameOrNamespace = lit "vi" then
    Outcome.ok (self.addImport (lit "vi"), false)
  else if nameOrNamespace = lit "jest" then
    match processJestFnCall (self.addImport (lit "vi")) node nameNode namespaceNode with
    | Outcome.ok self1 => Outcome.ok (self1, false)
    | Outcome.error err => Outcome.error err
    | Outcome.panic => Outcome.panic
  else
    match nameSwitch self node nameNode namespaceNode nameOrNamespace with
    | Outcome.error err => Outcome.error err
    | Outcome.panic => Outcome.panic
    | Outcome.ok self1 =>
      match propertySwitch self1 node propertyName with
      | Outcome.ok self2 => Outcome.ok (self2, true)
      | Outcome.error err => Outcome.error err
      | Outcome.panic => Outcome.panic

/-- What `processCallExpression` does before its last statement,
`return self.walkNode(node)` (lines 429-604): it reads the callee and runs the two
`switch` statements. -/
def callExpressionCase (self : vitestifyTask) (node : Node) :
    Outcome (vitestifyTask × Bool) :=
  match node.ChildByFieldName "function" with
  | none => Outcome.panic
  | some nameNode =>
    if nameNode.type = "member_expression" then
      match nameNode.ChildByFieldName "property" with
      | none => Outcome.panic
      | some propertyNode =>
        match propertyNode.Content self.code with
        | none => Outcome.panic
        | some propertyName =>
          match nameNode.ChildByFieldName "object" with
          | none => Outcome.panic
          | some namespaceNode =>
            match namespaceNode.Content self.code with
            | none => Outcome.panic
            | some nameOrNamespace =>
              callSwitches self node nameNode (some namespaceNode) nameOrNamespace
                propertyName
    else
      match nameNode.Content self.code with
      | none => Outcome.panic
      | some nameOrNamespace =>
        callSwitches self node nameNode none nameOrNamespace []

mutual
/-- One turn of the loop of `walkNode` (lines 273-420), for the named child `node` of a
node of kind `parentType`. -/
def walkNodeStep (parentType : String) : Node → vitestifyTask → Outcome vitestifyTask
  | .mk type startByte endByte named field children, self =>
    if type = NODE_IMPORT_STATEMENT then
      importStatementCase self (.mk type startByte endByte named field children)
    else if type = NODE_CALL_EXPRESSION then
      match callExpressionCase self (.mk type startByte endByte named field children) with
      | Outcome.error err => Outcome.error err
      | Outcome.panic => Outcome.panic
      | Outcome.ok (self1, false) => Outcome.ok self1
      | Outcome.ok (self1, true) => walkNodeLoop type children self1
    else if type = NODE_IDENTIFIER then
      identifierCase self parentType (.mk type startByte endByte named field children)
    else if type = NODE_NESTED_TYPE_IDENTIFIER then
      nestedTypeCase self (.mk type startByte endByte named field children)
    else
      walkNodeLoop type children self
termination_by structural node => node
/-- The loop of `walkNode` over the children of a node of kind `parentType`; the
children that are not named are passed over, as `NamedChild(i)` never yields them. -/
def walkNodeLoop (parentType : String) : List Node → vitestifyTask → Outcome vitestifyTask
  | [], self => Outcome.ok self
  | node :: rest, self =>
    if node.isNamed then
      match walkNodeStep parentType node self with
      | Outcome.ok self1 => walkNodeLoop parentType rest self1
      | Outcome.error err => Outcome.error err
      | Outcome.panic => Outcome.panic
    else
      walkNodeLoop parentType rest self
termination_by structural nodes => nodes
end

/-- `vitestifyTask.walkNode` (lines 271-424). -/
def walkNode (self : vitestifyTask) (root : Node) : Outcome vitestifyTask :=
  walkNodeLoop root.type root.children self

/-- `vitestifyTask.processCallExpression` (lines 426-607). -/
def processCallExpression (self : vitestifyTask) (node : Node) : Outcome vitestifyTask :=
  match callExpressionCase self node with
  | Outcome.error err => Outcome.error err
  | Outcome.panic => Outcome.panic
  | Outcome.ok (self1, false) => Outcome.ok self1
  | Outcome.ok (self1, true) => walkNode self1 node

/-- `vitestifyTask.run` (lines 121-269) on the bytes of the file. The parser is the
tree-sitter library: `parse` is what `parse.ParseSrc` returns for a source, the root
node of its tree or an error. -/
def run (parse : Bytes → Outcome Node) (code : Bytes) : Outcome Bytes :=
  if !regexJestReference code
      && !(ENABLE_ESM_UPDATES && regexOldDirnameReferences code) then
    Outcome.error GoError.noop
  else
    match parse code with
    | Outcome.error err => Outcome.error err
    | Outcome.panic => Outcome.panic
    | Outcome.ok root =>
      match walkNode (newVitestifyTask code) root with
      | Outcome.error err => Outcome.error err
      | Outcome.panic => Outcome.panic
      | Outcome.ok self => runAfterWalk self

/-! ## Example sources with their syntax trees

The trees are written as the TypeScript grammar of tree-sitter lays them out: every
token is a child, the tokens of the grammar (`tok`) are not named nodes. -/

/-- A token of the grammar: a child that is not a named node. -/
def tok (kind : String) (startByte endByte : Nat) : Node :=
  Node.mk kind startByte endByte false none []

/-- A named node. -/
def nd (kind : String) (startByte endByte : Nat) (field : Option String)
    (children : List Node) : Node :=
  Node.mk kind startByte endByte true field children

/-- The scenario source: the statement is the whole file, on its first line. -/
def srcTestOnFirstLine : Bytes :=
  lit "test('x', () => \x7b expect(1).toBe(1); \x7d);"

/-- The tree of `srcTestOnFirstLine`. -/
def treeTestOnFirstLine : Node :=
  nd "program" 0 40 none [
    nd "expression_statement" 0 40 none [
      nd "call_expression" 0 39 none [
        nd "identifier" 0 4 (some "function") [],
        nd "arguments" 4 39 (some "arguments") [
          tok "(" 4 5,
          nd "string" 5 8 none [
            tok "'" 5 6,
            nd "string_fragment" 6 7 none [],
            tok "'" 7 8],
          tok "," 8 9,
          nd "arrow_function" 10 38 none [
            nd "formal_parameters" 10 12 (some "parameters") [
              tok "(" 10 11,
              tok ")" 11 12],
            tok "=>" 13 15,
            nd "statement_block" 16 38 (some "body") [
              tok "\x7b" 16 17,
              nd "expression_statement" 18 36 none [
                nd "call_expression" 18 35 none [
                  nd "member_expression" 18 32 (some "function") [
                    nd "call_expression" 18 27 (some "object") [
                      nd "identifier" 18 24 (some "function") [],
                      nd "arguments" 24 27 (some "arguments") [
                        tok "(" 24 25,
                        nd "number" 25 26 none [],
                        tok ")" 26 27]],
                    tok "." 27 28,
                    nd "property_identifier" 28 32 (some "property") []],
                  nd "arguments" 32 35 (some "arguments") [
                    tok "(" 32 33,
                    nd "number" 33 34 none [],
                    tok ")" 34 35]],
                tok ";" 35 36],
              tok "\x7d" 37 38]],
          tok ")" 38 39]],
      tok ";" 39 40]]

/-- The scenario source after a line break. -/
def srcTestAfterNewline : Bytes :=
  lit "\ntest('x', () => \x7b expect(1).toBe(1); \x7d);"

/-- The tree of `srcTestAfterNewline`. -/
def treeTestAfterNewline : Node :=
  nd "program" 1 41 none [
    nd "expression_statement" 1 41 none [
      nd "call_expression" 1 40 none [
        nd "identifier" 1 5 (some "function") [],
        nd "arguments" 5 40 (some "arguments") [
          tok "(" 5 6,
          nd "string" 6 9 none [
            tok "'" 6 7,
            nd "string_fragment" 7 8 none [],
            tok "'" 8 9],
          tok "," 9 10,
          nd "arrow_function" 11 39 none [
            nd "formal_parameters" 11 13 (some "parameters") [
              tok "(" 11 12,
              tok ")" 12 13],
            tok "=>" 14 16,
            nd "statement_block" 17 39 (some "body") [
              tok "\x7b" 17 18,
              nd "expression_statement" 19 37 none [
                nd "call_expression" 19 36 none [
                  nd "member_expression" 19 33 (some "function") [
                    nd "call_expression" 19 28 (some "object") [
                      nd "identifier" 19 25 (some "function") [],
                      nd "arguments" 25 28 (some "arguments") [
                        tok "(" 25 26,
                        nd "number" 26 27 none [],
                        tok ")" 27 28]],
                    tok "." 28 29,
                    nd "property_identifier" 29 33 (some "property") []],
                  nd "arguments" 33 36 (some "arguments") [
                    tok "(" 33 34,
                    nd "number" 34 35 none [],
                    tok ")" 35 36]],
                tok ";" 36 37],
              tok "\x7d" 38 39]],
          tok ")" 39 40]],
      tok ";" 40 41]]

/-- What `run` returns for `srcTestAfterNewline`: the consolidated import, then the source. -/
def srcTestRewritten : Bytes :=
  lit "import \x7b expect, test \x7d from 'vitest';\n\ntest('x', () => \x7b expect(1).toBe(1); \x7d);"

/-- The tree of `srcTestRewritten`. -/
def treeTestRewritten : Node :=
  nd "program" 0 80 none [
    nd "import_statement" 0 38 none [
      tok "import" 0 6,
      nd "import_clause" 7 23 none [
        nd "named_imports" 7 23 none [
          tok "\x7b" 7 8,
          nd "import_specifier" 9 15 none [
            nd "identifier" 9 15 (some "name") []],
          tok "," 15 16,
          nd "import_specifier" 17 21 none [
            nd "identifier" 17 21 (some "name") []],
          tok "\x7d" 22 23]],
      tok "from" 24 28,
      nd "string" 29 37 (some "source") [
        tok "'" 29 30,
        nd "string_fragment" 30 36 none [],
        tok "'" 36 37],
      tok ";" 37 38],
    nd "expression_statement" 40 80 none [
      nd "call_expression" 40 79 none [
        nd "identifier" 40 44 (some "function") [],
        nd "arguments" 44 79 (some "arguments") [
          tok "(" 44 45,
          nd "string" 45 48 none [
            tok "'" 45 46,
            nd "string_fragment" 46 47 none [],
            tok "'" 47 48],
          tok "," 48 49,
          nd "arrow_function" 50 78 none [
            nd "formal_parameters" 50 52 (some "parameters") [
              tok "(" 50 51,
              tok ")" 51 52],
            tok "=>" 53 55,
            nd "statement_block" 56 78 (some "body") [
              tok "\x7b" 56 57,
              nd "expression_statement" 58 76 none [
                nd "call_expression" 58 75 none [
                  nd "member_expression" 58 72 (some "function") [
                    nd "call_expression" 58 67 (some "object") [
                      nd "identifier" 58 64 (some "function") [],
                      nd "arguments" 64 67 (some "arguments") [
                        tok "(" 64 65,
                        nd "number" 65 66 none [],
                        tok ")" 66 67]],
                    tok "." 67 68,
                    nd "property_identifier" 68 72 (some "property") []],
                  nd "arguments" 72 75 (some "arguments") [
                    tok "(" 72 73,
                    nd "number" 73 74 none [],
                    tok ")" 74 75]],
                tok ";" 75 76],
              tok "\x7d" 77 78]],
          tok ")" 78 79]],
      tok ";" 79 80]]

/-- A source with two import statements from `vitest`. -/
def srcTwoImports : Bytes :=
  lit "import \x7b vi \x7d from 'vitest';\nimport \x7b expect \x7d from 'vitest';\nexpect(1);\n"

/-- The tree of `srcTwoImports`. -/
def treeTwoImports : Node :=
  nd "program" 0 73 none [
    nd "import_statement" 0 28 none [
      tok "import" 0 6,
      nd "import_clause" 7 13 none [
        nd "named_imports" 7 13 none [
          tok "\x7b" 7 8,
          nd "import_specifier" 9 11 none [
            nd "identifier" 9 11 (some "name") []],
          tok "\x7d" 12 13]],
      tok "from" 14 18,
      nd "string" 19 27 (some "source") [
        tok "'" 19 20,
        nd "string_fragment" 20 26 none [],
        tok "'" 26 27],
      tok ";" 27 28],
    nd "import_statement" 29 61 none [
      tok "import" 29 35,
      nd "import_clause" 36 46 none [
        nd "named_imports" 36 46 none [
          tok "\x7b" 36 37,
          nd "import_specifier" 38 44 none [
            nd "identifier" 38 44 (some "name") []],
          tok "\x7d" 45 46]],
      tok "from" 47 51,
      nd "string" 52 60 (some "source") [
        tok "'" 52 53,
        nd "string_fragment" 53 59 none [],
        tok "'" 59 60],
      tok ";" 60 61],
    nd "expression_statement" 62 72 none [
      nd "call_expression" 62 71 none [
        nd "identifier" 62 68 (some "function") [],
        nd "arguments" 68 71 (some "arguments") [
          tok "(" 68 69,
          nd "number" 69 70 none [],
          tok ")" 70 71]],
      tok ";" 71 72]]

/-- A source in which a statement follows the import on the same line. -/
def srcImportSameLine : Bytes :=
  lit "import \x7b expect \x7d from 'vitest';expect(1);\nexpect(2);\n"

/-- The tree of `srcImportSameLine`. -/
def treeImportSameLine : Node :=
  nd "program" 0 54 none [
    nd "import_statement" 0 32 none [
      tok "import" 0 6,
      nd "import_clause" 7 17 none [
        nd "named_imports" 7 17 none [
          tok "\x7b" 7 8,
          nd "import_specifier" 9 15 none [
            nd "identifier" 9 15 (some "name") []],
          tok "\x7d" 16 17]],
      tok "from" 18 22,
      nd "string" 23 31 (some "source") [
        tok "'" 23 24,
        nd "string_fragment" 24 30 none [],
        tok "'" 30 31],
      tok ";" 31 32],
    nd "expression_statement" 32 42 none [
      nd "call_expression" 32 41 none [
        nd "identifier" 32 38 (some "function") [],
        nd "arguments" 38 41 (some "arguments") [
          tok "(" 38 39,
          nd "number" 39 40 none [],
          tok ")" 40 41]],
      tok ";" 41 42],
    nd "expression_statement" 43 53 none [
      nd "call_expression" 43 52 none [
        nd "identifier" 43 49 (some "function") [],
        nd "arguments" 49 52 (some "arguments") [
          tok "(" 49 50,
          nd "number" 50 51 none [],
          tok ")" 51 52]],
      tok ";" 52 53]]

/-- A source that ends with the import statement, with no newline after it. -/
def srcImportAtEnd : Bytes :=
  lit "\nexpect(1);\nimport \x7b expect \x7d from 'vitest';"

/-- The tree of `srcImportAtEnd`. -/
def treeImportAtEnd : Node :=
  nd "program" 1 44 none [
    nd "expression_statement" 1 11 none [
      nd "call_expression" 1 10 none [
        nd "identifier" 1 7 (some "function") [],
        nd "arguments" 7 10 (some "arguments") [
          tok "(" 7 8,
          nd "number" 8 9 none [],
          tok ")" 9 10]],
      tok ";" 10 11],
    nd "import_statement" 12 44 none [
      tok "import" 12 18,
      nd "import_clause" 19 29 none [
        nd "named_imports" 19 29 none [
          tok "\x7b" 19 20,
          nd "import_specifier" 21 27 none [
            nd "identifier" 21 27 (some "name") []],
          tok "\x7d" 28 29]],
      tok "from" 30 34,
      nd "string" 35 43 (some "source") [
        tok "'" 35 36,
        nd "string_fragment" 36 42 none [],
        tok "'" 42 43],
      tok ";" 43 44]]

/-- A source with a type of the `jest` namespace that no rule handles. -/
def srcUnknownType : Bytes :=
  lit "\nlet a: jest.Foo;\n"

/-- The tree of `srcUnknownType`. -/
def treeUnknownType : Node :=
  nd "program" 1 18 none [
    nd "lexical_declaration" 1 17 none [
      tok "let" 1 4,
      nd "variable_declarator" 5 16 none [
        nd "identifier" 5 6 (some "name") [],
        nd "type_annotation" 6 16 (some "type") [
          tok ":" 6 7,
          nd "nested_type_identifier" 8 16 none [
            nd "identifier" 8 12 (some "module") [],
            tok "." 12 13,
            nd "type_identifier" 13 16 (some "name") []]]],
      tok ";" 16 17]]

/-- A source with the type `jest.ExpectationResult`. -/
def srcExpectationResult : Bytes :=
  lit "\nlet a: jest.ExpectationResult;\n"

/-- The tree of `srcExpectationResult`. -/
def treeExpectationResult : Node :=
  nd "program" 1 32 none [
    nd "lexical_declaration" 1 31 none [
      tok "let" 1 4,
      nd "variable_declarator" 5 30 none [
        nd "identifier" 5 6 (some "name") [],
        nd "type_annotation" 6 30 (some "type") [
          tok ":" 6 7,
          nd "nested_type_identifier" 8 30 none [
            nd "identifier" 8 12 (some "module") [],
            tok "." 12 13,
            nd "type_identifier" 13 30 (some "name") []]]],
      tok ";" 30 31]]

/-- A source with the type `jest.SpyInstance`. -/
def srcSpyInstance : Bytes :=
  lit "\nlet a: jest.SpyInstance;\n"

/-- The tree of `srcSpyInstance`. -/
def treeSpyInstance : Node :=
  nd "program" 1 26 none [
    nd "lexical_declaration" 1 25 none [
      tok "let" 1 4,
      nd "variable_declarator" 5 24 none [
        nd "identifier" 5 6 (some "name") [],
        nd "type_annotation" 6 24 (some "type") [
          tok ":" 6 7,
          nd "nested_type_identifier" 8 24 none [
            nd "identifier" 8 12 (some "module") [],
            tok "." 12 13,
            nd "type_identifier" 13 24 (some "name") []]]],
      tok ";" 24 25]]

/-- A source with the two timer calls, one without and one with an argument. -/
def srcTimers : Bytes :=
  lit "\nadvanceTimersAndPromises();\nadvanceTimers(5);\n"

/-- The tree of `srcTimers`. -/
def treeTimers : Node :=
  nd "program" 1 47 none [
    nd "expression_statement" 1 28 none [
      nd "call_expression" 1 27 none [
        nd "identifier" 1 25 (some "function") [],
        nd "arguments" 25 27 (some "arguments") [
          tok "(" 25 26,
          tok ")" 26 27]],
      tok ";" 27 28],
    nd "expression_statement" 29 46 none [
      nd "call_expression" 29 45 none [
        nd "identifier" 29 42 (some "function") [],
        nd "arguments" 42 45 (some "arguments") [
          tok "(" 42 43,
          nd "number" 43 44 none [],
          tok ")" 44 45]],
      tok ";" 45 46]]

/-- A source with calls of `mockImplementation` without arguments on `spy`, `vi` and `expect`, and a call on `it`. -/
def srcMockImplementation : Bytes :=
  lit "\nspy.mockImplementation();\nvi.mockImplementation();\nexpect.mockImplementation();\nit.each();\n"

/-- The tree of `srcMockImplementation`. -/
def treeMockImplementation : Node :=
  nd "program" 1 92 none [
    nd "expression_statement" 1 26 none [
      nd "call_expression" 1 25 none [
        nd "member_expression" 1 23 (some "function") [
          nd "identifier" 1 4 (some "object") [],
          tok "." 4 5,
          nd "property_identifier" 5 23 (some "property") []],
        nd "arguments" 23 25 (some "arguments") [
          tok "(" 23 24,
          tok ")" 24 25]],
      tok ";" 25 26],
    nd "expression_statement" 27 51 none [
      nd "call_expression" 27 50 none [
        nd "member_expression" 27 48 (some "function") [
          nd "identifier" 27 29 (some "object") [],
          tok "." 29 30,
          nd "property_identifier" 30 48 (some "property") []],
        nd "arguments" 48 50 (some "arguments") [
          tok "(" 48 49,
          tok ")" 49 50]],
      tok ";" 50 51],
    nd "expression_statement" 52 80 none [
      nd "call_expression" 52 79 none [
        nd "member_expression" 52 77 (some "function") [
          nd "identifier" 52 58 (some "object") [],
          tok "." 58 59,
          nd "property_identifier" 59 77 (some "property") []],
        nd "arguments" 77 79 (some "arguments") [
          tok "(" 77 78,
          tok ")" 78 79]],
      tok ";" 79 80],
    nd "expression_statement" 81 91 none [
      nd "call_expression" 81 90 none [
        nd "member_expression" 81 88 (some "function") [
          nd "identifier" 81 83 (some "object") [],
          tok "." 83 84,
          nd "property_identifier" 84 88 (some "property") []],
        nd "arguments" 88 90 (some "arguments") [
          tok "(" 88 89,
          tok ")" 89 90]],
      tok ";" 90 91]]


/-- The call `spy.mockImplementation()` of `srcMockImplementation`. -/
def callSpyMockImplementation : Node :=
  nd "call_expression" 1 25 none [
    nd "member_expression" 1 23 (some "function") [
      nd "identifier" 1 4 (some "object") [],
      tok "." 4 5,
      nd "property_identifier" 5 23 (some "property") []],
    nd "arguments" 23 25 (some "arguments") [
      tok "(" 23 24,
      tok ")" 24 25]]

/-- The call `vi.mockImplementation()` of `srcMockImplementation`. -/
def callViMockImplementation : Node :=
  nd "call_expression" 27 50 none [
    nd "member_expression" 27 48 (some "function") [
      nd "identifier" 27 29 (some "object") [],
      tok "." 29 30,
      nd "property_identifier" 30 48 (some "property") []],
    nd "arguments" 48 50 (some "arguments") [
      tok "(" 48 49,
      tok ")" 49 50]]

/-- The call `expect.mockImplementation()` of `srcMockImplementation`. -/
def callExpectMockImplementation : Node :=
  nd "call_expression" 52 79 none [
    nd "member_expression" 52 77 (some "function") [
      nd "identifier" 52 58 (some "object") [],
      tok "." 58 59,
      nd "property_identifier" 59 77 (some "property") []],
    nd "arguments" 77 79 (some "arguments") [
      tok "(" 77 78,
      tok ")" 78 79]]

/-- The call `it.each()` of `srcMockImplementation`. -/
def callItEach : Node :=
  nd "call_expression" 81 90 none [
    nd "member_expression" 81 88 (some "function") [
      nd "identifier" 81 83 (some "object") [],
      tok "." 83 84,
      nd "property_identifier" 84 88 (some "property") []],
    nd "arguments" 88 90 (some "arguments") [
      tok "(" 88 89,
      tok ")" 89 90]]

/-- The call `advanceTimersAndPromises()` of `srcTimers`. -/
def callAdvanceTimersAndPromises : Node :=
  nd "call_expression" 1 27 none [
    nd "identifier" 1 25 (some "function") [],
    nd "arguments" 25 27 (some "arguments") [
      tok "(" 25 26,
      tok ")" 26 27]]

/-- The call `advanceTimers(5)` of `srcTimers`. -/
def callAdvanceTimers : Node :=
  nd "call_expression" 29 45 none [
    nd "identifier" 29 42 (some "function") [],
    nd "arguments" 42 45 (some "arguments") [
      tok "(" 42 43,
      nd "number" 43 44 none [],
      tok ")" 44 45]]

/-- The type `jest.Foo` of `srcUnknownType`. -/
def typeJestFoo : Node :=
  nd "nested_type_identifier" 8 16 none [
    nd "identifier" 8 12 (some "module") [],
    tok "." 12 13,
    nd "type_identifier" 13 16 (some "name") []]

/-- The type `jest.ExpectationResult` of `srcExpectationResult`. -/
def typeJestExpectationResult : Node :=
  nd "nested_type_identifier" 8 30 none [
    nd "identifier" 8 12 (some "module") [],
    tok "." 12 13,
    nd "type_identifier" 13 30 (some "name") []]

/-- The type `jest.SpyInstance` of `srcSpyInstance`. -/
def typeJestSpyInstance : Node :=
  nd "nested_type_identifier" 8 24 none [
    nd "identifier" 8 12 (some "module") [],
    tok "." 12 13,
    nd "type_identifier" 13 24 (some "name") []]

/-- The call `expect(1)` of `srcTestAfterNewline`. -/
def callExpectOne : Node :=
  nd "call_expression" 19 28 (some "object") [
    nd "identifier" 19 25 (some "function") [],
    nd "arguments" 25 28 (some "arguments") [
      tok "(" 25 26,
      nd "number" 26 27 none [],
      tok ")" 27 28]]

/-- The first import statement of `srcTwoImports`. -/
def importVi : Node :=
  nd "import_statement" 0 28 none [
    tok "import" 0 6,
    nd "import_clause" 7 13 none [
      nd "named_imports" 7 13 none [
        tok "\x7b" 7 8,
        nd "import_specifier" 9 11 none [
          nd "identifier" 9 11 (some "name") []],
        tok "\x7d" 12 13]],
    tok "from" 14 18,
    nd "string" 19 27 (some "source") [
      tok "'" 19 20,
      nd "string_fragment" 20 26 none [],
      tok "'" 26 27],
    tok ";" 27 28]

/-- The second import statement of `srcTwoImports`. -/
def importExpect : Node :=
  nd "import_statement" 29 61 none [
    tok "import" 29 35,
    nd "import_clause" 36 46 none [
      nd "named_imports" 36 46 none [
        tok "\x7b" 36 37,
        nd "import_specifier" 38 44 none [
          nd "identifier" 38 44 (some "name") []],
        tok "\x7d" 45 46]],
    tok "from" 47 51,
    nd "string" 52 60 (some "source") [
      tok "'" 52 53,
      nd "string_fragment" 53 59 none [],
      tok "'" 59 60],
    tok ";" 60 61]


/-- The import statement of `srcImportSameLine`. -/
def importExpectSameLine : Node :=
  nd "import_statement" 0 32 none [
    tok "import" 0 6,
    nd "import_clause" 7 17 none [
      nd "named_imports" 7 17 none [
        tok "\x7b" 7 8,
        nd "import_specifier" 9 15 none [
          nd "identifier" 9 15 (some "name") []],
        tok "\x7d" 16 17]],
    tok "from" 18 22,
    nd "string" 23 31 (some "source") [
      tok "'" 23 24,
      nd "string_fragment" 24 30 none [],
      tok "'" 30 31],
    tok ";" 31 32]


/-- A parser for the example sources of the scenario: the tree of the source after a
line break and the tree of what `run` returns for it; it is asked for no other
source. -/
def parseExamples (code : Bytes) : Outcome Node :=
  if code = srcTestAfterNewline then Outcome.ok treeTestAfterNewline
  else if code = srcTestRewritten then Outcome.ok treeTestRewritten
  else Outcome.panic

/-- What a turn of the walk keeps of the task it starts from: when it returns, the
ledger it leaves begins with the ledger it found, the required imports it found are
still required and the source is the same; when it fails, the error is not the noop
sentinel. -/
def Keeps (self : vitestifyTask) : Outcome vitestifyTask → Prop
  | Outcome.ok t =>
    self.edits <+: t.edits ∧ (∀ k ∈ self.vitestImports, k ∈ t.vitestImports)
      ∧ t.code = self.code
  | Outcome.error err => err ≠ GoError.noop
  | Outcome.panic => True

/-- A source with two import statements from `vitest`, the second of a symbol that the
rest of the source does not use. -/
def srcSecondImportKept : Bytes :=
  lit "import \x7b vi \x7d from 'vitest';\nimport \x7b describe \x7d from 'vitest';\nexpect(1);\n"

/-- The tree of `srcSecondImportKept`. -/
def treeSecondImportKept : Node :=
  nd "program" 0 75 none [
    nd "import_statement" 0 28 none [
      tok "import" 0 6,
      nd "import_clause" 7 13 none [
        nd "named_imports" 7 13 none [
          tok "\x7b" 7 8,
          nd "import_specifier" 9 11 none [
            nd "identifier" 9 11 (some "name") []],
          tok "\x7d" 12 13]],
      tok "from" 14 18,
      nd "string" 19 27 (some "source") [
        tok "'" 19 20,
        nd "string_fragment" 20 26 none [],
        tok "'" 26 27],
      tok ";" 27 28],
    nd "import_statement" 29 63 none [
      tok "import" 29 35,
      nd "import_clause" 36 48 none [
        nd "named_imports" 36 48 none [
          tok "\x7b" 36 37,
          nd "import_specifier" 38 46 none [
            nd "identifier" 38 46 (some "name") []],
          tok "\x7d" 47 48]],
      tok "from" 49 53,
      nd "string" 54 62 (some "source") [
        tok "'" 54 55,
        nd "string_fragment" 55 61 none [],
        tok "'" 61 62],
      tok ";" 62 63],
    nd "expression_statement" 64 74 none [
      nd "call_expression" 64 73 none [
        nd "identifier" 64 70 (some "function") [],
        nd "arguments" 70 73 (some "arguments") [
          tok "(" 70 71,
          nd "number" 71 72 none [],
          tok ")" 72 73]],
      tok ";" 73 74]]

/-- The task after the first import statement of `srcTwoImports`. -/
def taskAfterImportVi : vitestifyTask :=
  { newVitestifyTask srcTwoImports with
    vitestImports := [lit "vi"]
    existingVitestImport := some importVi
    edits := [{ startByte := 0, endByte := 29, replacement := [] }] }

/-- A source in which `jest.x` stands in a string: `regexJestReference` matches it and
the walk finds nothing to rewrite. -/
def srcJestInString : Bytes :=
  lit "\nlet a = 'jest.x';\n"

/-- The tree of `srcJestInString`. -/
def treeJestInString : Node :=
  nd "program" 1 19 none [
    nd "lexical_declaration" 1 18 none [
      tok "let" 1 4,
      nd "variable_declarator" 5 17 none [
        nd "identifier" 5 6 (some "name") [],
        tok "=" 7 8,
        nd "string" 9 17 (some "value") [
          tok "'" 9 10,
          nd "string_fragment" 10 16 none [],
          tok "'" 16 17]],
      tok ";" 17 18]]

/-! ## Sequences of calls on a reader -/

/-- A call of one of the four methods of `parse.Reader` that move the position. -/
inductive ReaderOp where
  | readTo (newPos : Int)
  | readToEnd
  | seek (newPos : Int)
  | maybeConsumeTrailingNewline
  deriving DecidableEq, Repr

/-- The argument of the call, if it has one, is not negative. -/
def ReaderOp.argNonneg : ReaderOp → Bool
  | .readTo newPos => decide (0 ≤ newPos)
  | .seek newPos => decide (0 ≤ newPos)
  | _ => true

/-- The reader after one call, whether the call succeeded or failed; `none` is the
panic of `MaybeConsumeTrailingNewline` on a negative index, which leaves no reader to
call. A `ReadTo` whose slice panics has already moved the position: that reader is
kept. -/
def Reader.call (self : Reader) : ReaderOp → Option Reader
  | .readTo newPos => some (self.ReadTo newPos).2
  | .readToEnd => some self.ReadToEnd.2
  | .seek newPos => some (self.Seek newPos).2
  | .maybeConsumeTrailingNewline => self.MaybeConsumeTrailingNewline

/-- The reader after a sequence of calls. -/
def Reader.calls : Reader → List ReaderOp → Option Reader
  | self, [] => some self
  | self, op :: rest =>
    match self.call op with
    | some next => next.calls rest
    | none => none

/-! ## Well-formed trees and edits that lie apart -/

mutual
/-- A well-formed syntax tree: the byte range of the node is not reversed, the byte range
of each child lies inside it, and the ranges of the children are disjoint and in the
order of the children. -/
def Node.wellFormed : Node → Bool
  | .mk _ startByte endByte _ _ children =>
    decide (startByte ≤ endByte) && wellFormedList startByte endByte children
termination_by structural node => node
/-- The children of a well-formed node from `lo` on, inside a parent that ends at `hi`:
each starts at or after the end of the child before it. -/
def wellFormedList (lo hi : Nat) : List Node → Bool
  | [] => true
  | child :: rest =>
    decide (lo ≤ child.StartByte) && decide (child.EndByte ≤ hi) && child.wellFormed
      && wellFormedList child.EndByte hi rest
termination_by structural nodes => nodes
end

mutual
/-- The nodes of a tree: the node and the nodes of its children. -/
def Node.subnodes : Node → List Node
  | .mk type startByte endByte named field children =>
    .mk type startByte endByte named field children :: subnodesList children
termination_by structural node => node
/-- The nodes of the trees of a list. -/
def subnodesList : List Node → List Node
  | [] => []
  | child :: rest => child.subnodes ++ subnodesList rest
termination_by structural nodes => nodes
end

/-- Two edits lie apart: one ends where the other starts, or before. -/
def codeEdit.apart (a b : codeEdit) : Prop :=
  a.endByte ≤ b.startByte ∨ b.endByte ≤ a.startByte

/-- An edit lies inside the byte range of a node. -/
def codeEdit.inside (e : codeEdit) (node : Node) : Prop :=
  (node.StartByte : Int) ≤ e.startByte ∧ e.startByte ≤ e.endByte
    ∧ e.endByte ≤ (node.EndByte : Int)

/-- A source with a callback passed to `jest.fn` and a callback passed to another
function. -/
def srcJestFn : Bytes :=
  lit "\njest.fn(() => expect(1));\nspy(() => expect(2));\n"

/-- The tree of `srcJestFn`. -/
def treeJestFn : Node :=
  nd "program" 1 49 none [
    nd "expression_statement" 1 26 none [
      nd "call_expression" 1 25 none [
        nd "member_expression" 1 8 (some "function") [
          nd "identifier" 1 5 (some "object") [],
          tok "." 5 6,
          nd "property_identifier" 6 8 (some "property") []],
        nd "arguments" 8 25 (some "arguments") [
          tok "(" 8 9,
          nd "arrow_function" 9 24 none [
            nd "formal_parameters" 9 11 (some "parameters") [
              tok "(" 9 10,
              tok ")" 10 11],
            tok "=>" 12 14,
            nd "call_expression" 15 24 (some "body") [
              nd "identifier" 15 21 (some "function") [],
              nd "arguments" 21 24 (some "arguments") [
                tok "(" 21 22,
                nd "number" 22 23 none [],
                tok ")" 23 24]]],
          tok ")" 24 25]],
      tok ";" 25 26],
    nd "expression_statement" 27 48 none [
      nd "call_expression" 27 47 none [
        nd "identifier" 27 30 (some "function") [],
        nd "arguments" 30 47 (some "arguments") [
          tok "(" 30 31,
          nd "arrow_function" 31 46 none [
            nd "formal_parameters" 31 33 (some "parameters") [
              tok "(" 31 32,
              tok ")" 32 33],
            tok "=>" 34 36,
            nd "call_expression" 37 46 (some "body") [
              nd "identifier" 37 43 (some "function") [],
              nd "arguments" 43 46 (some "arguments") [
                tok "(" 43 44,
                nd "number" 44 45 none [],
                tok ")" 45 46]]],
          tok ")" 46 47]],
      tok ";" 47 48]]

/-- The call `jest.fn(() => expect(1))` of `srcJestFn`. -/
def callJestFn : Node :=
  nd "call_expression" 1 25 none [
    nd "member_expression" 1 8 (some "function") [
      nd "identifier" 1 5 (some "object") [],
      tok "." 5 6,
      nd "property_identifier" 6 8 (some "property") []],
    nd "arguments" 8 25 (some "arguments") [
      tok "(" 8 9,
      nd "arrow_function" 9 24 none [
        nd "formal_parameters" 9 11 (some "parameters") [
          tok "(" 9 10,
          tok ")" 10 11],
        tok "=>" 12 14,
        nd "call_expression" 15 24 (some "body") [
          nd "identifier" 15 21 (some "function") [],
          nd "arguments" 21 24 (some "arguments") [
            tok "(" 21 22,
            nd "number" 22 23 none [],
            tok ")" 23 24]]],
      tok ")" 24 25]]

/-- The call `spy(() => expect(2))` of `srcJestFn`. -/
def callSpy : Node :=
  nd "call_expression" 27 47 none [
    nd "identifier" 27 30 (some "function") [],
    nd "arguments" 30 47 (some "arguments") [
      tok "(" 30 31,
      nd "arrow_function" 31 46 none [
        nd "formal_parameters" 31 33 (some "parameters") [
          tok "(" 31 32,
          tok ")" 32 33],
        tok "=>" 34 36,
        nd "call_expression" 37 46 (some "body") [
          nd "identifier" 37 43 (some "function") [],
          nd "arguments" 43 46 (some "arguments") [
            tok "(" 43 44,
            nd "number" 44 45 none [],
            tok ")" 45 46]]],
      tok ")" 46 47]]

/-- A source with four calls of `jest.mock`: a path, a path and a factory, a path and
the name of a factory, and no argument. -/
def srcJestMock : Bytes :=
  lit "\njest.mock('./a');\njest.mock('./b', () => (jest.requireActual('./b')));\njest.mock('./c', f);\njest.mock();\n"

/-- The tree of `srcJestMock`. -/
def treeJestMock : Node :=
  nd "program" 1 106 none [
    nd "expression_statement" 1 18 none [
      nd "call_expression" 1 17 none [
        nd "member_expression" 1 10 (some "function") [
          nd "identifier" 1 5 (some "object") [],
          tok "." 5 6,
          nd "property_identifier" 6 10 (some "property") []],
        nd "arguments" 10 17 (some "arguments") [
          tok "(" 10 11,
          nd "string" 11 16 none [
            tok "'" 11 12,
            nd "string_fragment" 12 15 none [],
            tok "'" 15 16],
          tok ")" 16 17]],
      tok ";" 17 18],
    nd "expression_statement" 19 71 none [
      nd "call_expression" 19 70 none [
        nd "member_expression" 19 28 (some "function") [
          nd "identifier" 19 23 (some "object") [],
          tok "." 23 24,
          nd "property_identifier" 24 28 (some "property") []],
        nd "arguments" 28 70 (some "arguments") [
          tok "(" 28 29,
          nd "string" 29 34 none [
            tok "'" 29 30,
            nd "string_fragment" 30 33 none [],
            tok "'" 33 34],
          tok "," 34 35,
          nd "arrow_function" 36 69 none [
            nd "formal_parameters" 36 38 (some "parameters") [
              tok "(" 36 37,
              tok ")" 37 38],
            tok "=>" 39 41,
            nd "parenthesized_expression" 42 69 (some "body") [
              tok "(" 42 43,
              nd "call_expression" 43 68 none [
                nd "member_expression" 43 61 (some "function") [
                  nd "identifier" 43 47 (some "object") [],
                  tok "." 47 48,
                  nd "property_identifier" 48 61 (some "property") []],
                nd "arguments" 61 68 (some "arguments") [
                  tok "(" 61 62,
                  nd "string" 62 67 none [
                    tok "'" 62 63,
                    nd "string_fragment" 63 66 none [],
                    tok "'" 66 67],
                  tok ")" 67 68]],
              tok ")" 68 69]],
          tok ")" 69 70]],
      tok ";" 70 71],
    nd "expression_statement" 72 92 none [
      nd "call_expression" 72 91 none [
        nd "member_expression" 72 81 (some "function") [
          nd "identifier" 72 76 (some "object") [],
          tok "." 76 77,
          nd "property_identifier" 77 81 (some "property") []],
        nd "arguments" 81 91 (some "arguments") [
          tok "(" 81 82,
          nd "string" 82 87 none [
            tok "'" 82 83,
            nd "string_fragment" 83 86 none [],
            tok "'" 86 87],
          tok "," 87 88,
          nd "identifier" 89 90 none [],
          tok ")" 90 91]],
      tok ";" 91 92],
    nd "expression_statement" 93 105 none [
      nd "call_expression" 93 104 none [
        nd "member_expression" 93 102 (some "function") [
          nd "identifier" 93 97 (some "object") [],
          tok "." 97 98,
          nd "property_identifier" 98 102 (some "property") []],
        nd "arguments" 102 104 (some "arguments") [
          tok "(" 102 103,
          tok ")" 103 104]],
      tok ";" 104 105]]

/-- The call `jest.mock('./a')` of `srcJestMock`. -/
def callJestMockPath : Node :=
  nd "call_expression" 1 17 none [
    nd "member_expression" 1 10 (some "function") [
      nd "identifier" 1 5 (some "object") [],
      tok "." 5 6,
      nd "property_identifier" 6 10 (some "property") []],
    nd "arguments" 10 17 (some "arguments") [
      tok "(" 10 11,
      nd "string" 11 16 none [
        tok "'" 11 12,
        nd "string_fragment" 12 15 none [],
        tok "'" 15 16],
      tok ")" 16 17]]

/-- The call of `jest.mock` with a factory, of `srcJestMock`. -/
def callJestMockFactory : Node :=
  nd "call_expression" 19 70 none [
    nd "member_expression" 19 28 (some "function") [
      nd "identifier" 19 23 (some "object") [],
      tok "." 23 24,
      nd "property_identifier" 24 28 (some "property") []],
    nd "arguments" 28 70 (some "arguments") [
      tok "(" 28 29,
      nd "string" 29 34 none [
        tok "'" 29 30,
        nd "string_fragment" 30 33 none [],
        tok "'" 33 34],
      tok "," 34 35,
      nd "arrow_function" 36 69 none [
        nd "formal_parameters" 36 38 (some "parameters") [
          tok "(" 36 37,
          tok ")" 37 38],
        tok "=>" 39 41,
        nd "parenthesized_expression" 42 69 (some "body") [
          tok "(" 42 43,
          nd "call_expression" 43 68 none [
            nd "member_expression" 43 61 (some "function") [
              nd "identifier" 43 47 (some "object") [],
              tok "." 47 48,
              nd "property_identifier" 48 61 (some "property") []],
            nd "arguments" 61 68 (some "arguments") [
              tok "(" 61 62,
              nd "string" 62 67 none [
                tok "'" 62 63,
                nd "string_fragment" 63 66 none [],
                tok "'" 66 67],
              tok ")" 67 68]],
          tok ")" 68 69]],
      tok ")" 69 70]]

/-- The call `jest.mock('./c', f)` of `srcJestMock`. -/
def callJestMockNamedFactory : Node :=
  nd "call_expression" 72 91 none [
    nd "member_expression" 72 81 (some "function") [
      nd "identifier" 72 76 (some "object") [],
      tok "." 76 77,
      nd "property_identifier" 77 81 (some "property") []],
    nd "arguments" 81 91 (some "arguments") [
      tok "(" 81 82,
      nd "string" 82 87 none [
        tok "'" 82 83,
        nd "string_fragment" 83 86 none [],
        tok "'" 86 87],
      tok "," 87 88,
      nd "identifier" 89 90 none [],
      tok ")" 90 91]]

/-- The call `jest.mock()` of `srcJestMock`. -/
def callJestMockEmpty : Node :=
  nd "call_expression" 93 104 none [
    nd "member_expression" 93 102 (some "function") [
      nd "identifier" 93 97 (some "object") [],
      tok "." 97 98,
      nd "property_identifier" 98 102 (some "property") []],
    nd "arguments" 102 104 (some "arguments") [
      tok "(" 102 103,
      tok ")" 103 104]]

/-- The walk records no edit in the child `c` of a node of kind `parentType`, whatever
the task over the source `code` it starts from. -/
def recordsNoEdit (code : Bytes) (parentType : String) (c : Node) : Prop :=
  ∀ self t : vitestifyTask, self.code = code →
    walkNodeLoop parentType [c] self = Outcome.ok t → t.edits = self.edits

/-- The edits that `processCallExpression` records itself on a call, before it walks the
children of the call, lie apart from each other and apart from every child of the call
in which the walk records an edit. -/
def callEditsApart (code : Bytes) (node : Node) : Prop :=
  ∀ (self st : vitestifyTask) (own : List codeEdit), self.code = code →
    callExpressionCase self node = Outcome.ok (st, true) →
    st.edits = self.edits ++ own →
      own.Pairwise codeEdit.apart
        ∧ ∀ e ∈ own, ∀ c ∈ node.children, ¬ recordsNoEdit code node.type c →
            e.endByte ≤ (c.StartByte : Int) ∨ (c.EndByte : Int) ≤ e.startByte

/-- The node is not an import statement from `'vitest'`. -/
def notVitestImport (code : Bytes) (node : Node) : Prop :=
  node.type = NODE_IMPORT_STATEMENT →
    ∀ sourceNode, node.ChildByFieldName FIELD_IMPORT_EXPORT_SOURCE = some sourceNode →
      sourceNode.Content code ≠ some (lit "'vitest'")

/-- No node of the tree is of a kind on which the walk records an edit: an import
statement, a call expression or a nested type identifier. -/
def Node.plain (node : Node) : Bool :=
  node.subnodes.all (fun n =>
    decide (n.type ≠ NODE_IMPORT_STATEMENT) && decide (n.type ≠ NODE_CALL_EXPRESSION)
      && decide (n.type ≠ NODE_NESTED_TYPE_IDENTIFIER))

/-- The callee of a call as `processCallExpression` reads it (lines 429-447): the
callee node, the namespace node of a member access, the name or the namespace, and the
property name; `none` is the panic of a method call on a nil node or of `Content` out of
range. -/
def calleeOf (code : Bytes) (node : Node) :
    Option (Node × Option Node × Bytes × Bytes) :=
  match node.ChildByFieldName "function" with
  | none => none
  | some nameNode =>
    if nameNode.type = "member_expression" then
      match nameNode.ChildByFieldName "property" with
      | none => none
      | some propertyNode =>
        match propertyNode.Content code with
        | none => none
        | some propertyName =>
          match nameNode.ChildByFieldName "object" with
          | none => none
          | some namespaceNode =>
            match namespaceNode.Content code with
            | none => none
            | some nameOrNamespace =>
              some (nameNode, some namespaceNode, nameOrNamespace, propertyName)
    else
      match nameNode.Content code with
      | none => none
      | some nameOrNamespace => some (nameNode, none, nameOrNamespace, [])

/-- A check on a call that is enough for `callEditsApart`: the call is on `vi` or on
`jest`; or it is a timer call without the property `mockImplementation` whose children
are plain; or it is another call, and when its property is `mockImplementation` its
argument list has an argument or is plain. -/
def callSafe (code : Bytes) (node : Node) : Bool :=
  match calleeOf code node with
  | none => true
  | some (_, _, name, propertyName) =>
    if name = lit "vi" ∨ name = lit "jest" then true
    else if name = lit "advanceTimersAndPromises" ∨ name = lit "advanceTimers" then
      decide (propertyName ≠ lit "mockImplementation") && node.children.all Node.plain
    else if propertyName = lit "mockImplementation" then
      match node.ChildByFieldName FIELD_FN_ARGUMENTS with
      | none => true
      | some args => decide (args.NamedChildCount ≠ 0) || args.plain
    else true

/-- A check on a tree that is enough for the hypotheses on its nodes: no import
statement is from `'vitest'`, and every call expression passes `callSafe`. -/
def Node.editsKeptApart (code : Bytes) (root : Node) : Bool :=
  root.subnodes.all (fun n =>
    (decide (n.type ≠ NODE_IMPORT_STATEMENT)
      || (match n.ChildByFieldName FIELD_IMPORT_EXPORT_SOURCE with
          | none => true
          | some sourceNode => decide (sourceNode.Content code ≠ some (lit "'vitest'"))))
    && (decide (n.type ≠ NODE_CALL_EXPRESSION) || callSafe code n))

/-- A source with a call on `jest` in the argument of a timer call. -/
def srcTimerNested : Bytes :=
  lit "\nadvanceTimers(jest.now());\n"

/-- The tree of `srcTimerNested`. -/
def treeTimerNested : Node :=
  nd "program" 1 28 none [
    nd "expression_statement" 1 27 none [
      nd "call_expression" 1 26 none [
        nd "identifier" 1 14 (some "function") [],
        nd "arguments" 14 26 (some "arguments") [
          tok "(" 14 15,
          nd "call_expression" 15 25 none [
            nd "member_expression" 15 23 (some "function") [
              nd "identifier" 15 19 (some "object") [],
              tok "." 19 20,
              nd "property_identifier" 20 23 (some "property") []],
            nd "arguments" 23 25 (some "arguments") [
              tok "(" 23 24,
              tok ")" 24 25]],
          tok ")" 25 26]],
      tok ";" 26 27]]

/-- A source with a timer call, a call of `mockImplementation` without arguments on
the result of a call on `jest`, and a type of the `jest` namespace. -/
def srcEditsApart : Bytes :=
  lit "\nadvanceTimers(5);\njest.fn().mockImplementation();\nlet a: jest.Mock;\n"

/-- The tree of `srcEditsApart`. -/
def treeEditsApart : Node :=
  nd "program" 1 69 none [
    nd "expression_statement" 1 18 none [
      nd "call_expression" 1 17 none [
        nd "identifier" 1 14 (some "function") [],
        nd "arguments" 14 17 (some "arguments") [
          tok "(" 14 15,
          nd "number" 15 16 none [],
          tok ")" 16 17]],
      tok ";" 17 18],
    nd "expression_statement" 19 50 none [
      nd "call_expression" 19 49 none [
        nd "member_expression" 19 47 (some "function") [
          nd "call_expression" 19 28 (some "object") [
            nd "member_expression" 19 26 (some "function") [
              nd "identifier" 19 23 (some "object") [],
              tok "." 23 24,
              nd "property_identifier" 24 26 (some "property") []],
            nd "arguments" 26 28 (some "arguments") [
              tok "(" 26 27,
              tok ")" 27 28]],
          tok "." 28 29,
          nd "property_identifier" 29 47 (some "property") []],
        nd "arguments" 47 49 (some "arguments") [
          tok "(" 47 48,
          tok ")" 48 49]],
      tok ";" 49 50],
    nd "lexical_declaration" 51 68 none [
      tok "let" 51 54,
      nd "variable_declarator" 55 67 none [
        nd "identifier" 55 56 (some "name") [],
        nd "type_annotation" 56 67 (some "type") [
          tok ":" 56 57,
          nd "nested_type_identifier" 58 67 none [
            nd "identifier" 58 62 (some "module") [],
            tok "." 62 63,
            nd "type_identifier" 63 67 (some "name") []]]],
      tok ";" 67 68]]

/-- A source in which a type of the `jest` namespace that no rule handles stands among
the type arguments of a call on `jest`. -/
def srcTypeInJestCall : Bytes :=
  lit "\nconst f = jest.fn<jest.Foo>();\n"

/-- The tree of `srcTypeInJestCall`. -/
def treeTypeInJestCall : Node :=
  nd "program" 1 32 none [
    nd "lexical_declaration" 1 31 none [
      tok "const" 1 6,
      nd "variable_declarator" 7 30 none [
        nd "identifier" 7 8 (some "name") [],
        tok "=" 9 10,
        nd "call_expression" 11 30 (some "value") [
          nd "member_expression" 11 18 (some "function") [
            nd "identifier" 11 15 (some "object") [],
            tok "." 15 16,
            nd "property_identifier" 16 18 (some "property") []],
          nd "type_arguments" 18 28 (some "type_arguments") [
            tok "<" 18 19,
            nd "nested_type_identifier" 19 27 none [
              nd "identifier" 19 23 (some "module") [],
              tok "." 23 24,
              nd "type_identifier" 24 27 (some "name") []],
            tok ">" 27 28],
          nd "arguments" 28 30 (some "arguments") [
            tok "(" 28 29,
            tok ")" 29 30]]],
      tok ";" 30 31]]

/-- The type `jest.Foo` of `srcTypeInJestCall`. -/
def typeJestFooInCall : Node :=
  nd "nested_type_identifier" 19 27 none [
    nd "identifier" 19 23 (some "module") [],
    tok "." 23 24,
    nd "type_identifier" 24 27 (some "name") []]

/-- The statement of `srcUnknownType` as the first line of the file. -/
def srcUnknownTypeFirstLine : Bytes :=
  lit "let a: jest.Foo;\n"

/-- The tree of `srcUnknownTypeFirstLine`. -/
def treeUnknownTypeFirstLine : Node :=
  nd "program" 0 17 none [
    nd "lexical_declaration" 0 16 none [
      tok "let" 0 3,
      nd "variable_declarator" 4 15 none [
        nd "identifier" 4 5 (some "name") [],
        nd "type_annotation" 5 15 (some "type") [
          tok ":" 5 6,
          nd "nested_type_identifier" 7 15 none [
            nd "identifier" 7 11 (some "module") [],
            tok "." 11 12,
            nd "type_identifier" 12 15 (some "name") []]]],
      tok ";" 15 16]]

/-- A source in which a type of the `jest` namespace that no rule handles stands in a
callback passed to a function that is neither on `jest` nor on `vi`. -/
def srcUnknownTypeInCallback : Bytes :=
  lit "\nspy((a: jest.Foo) => a);\n"

/-- The tree of `srcUnknownTypeInCallback`. -/
def treeUnknownTypeInCallback : Node :=
  nd "program" 1 26 none [
    nd "expression_statement" 1 25 none [
      nd "call_expression" 1 24 none [
        nd "identifier" 1 4 (some "function") [],
        nd "arguments" 4 24 (some "arguments") [
          tok "(" 4 5,
          nd "arrow_function" 5 23 none [
            nd "formal_parameters" 5 18 (some "parameters") [
              tok "(" 5 6,
              nd "required_parameter" 6 17 none [
                nd "identifier" 6 7 (some "pattern") [],
                nd "type_annotation" 7 17 (some "type") [
                  tok ":" 7 8,
                  nd "nested_type_identifier" 9 17 none [
                    nd "identifier" 9 13 (some "module") [],
                    tok "." 13 14,
                    nd "type_identifier" 14 17 (some "name") []]]],
              tok ")" 17 18],
            tok "=>" 19 21,
            nd "identifier" 22 23 (some "body") []],
          tok ")" 23 24]],
      tok ";" 24 25]]

/-- The type `jest.Foo` of `srcUnknownTypeInCallback`. -/
def typeJestFooInCallback : Node :=
  nd "nested_type_identifier" 9 17 none [
    nd "identifier" 9 13 (some "module") [],
    tok "." 13 14,
    nd "type_identifier" 14 17 (some "name") []]

/-- The walk comes to a node: the loop of `walkNode` over the children `nodes` of a node
of kind `parentType`, started on the task `self`, arrives at the turn for `target`, a
child of a node of kind `targetParent`, and the task is `found` at that moment. The loop
passes over a child that is not named, goes on after a turn that returns, and the turn
for a child descends into the children of that child when the child is a call expression
whose two `switch` statements go on to `return self.walkNode(node)` or a node of a kind
that the `switch` of `walkNode` leaves to `default`. The walk does not come to what
stands in an import statement, an identifier, a nested type identifier or a call on `vi`
or `jest`, nor to what comes after a turn that fails. -/
inductive WalkReaches (target : Node) (targetParent : String) (found : vitestifyTask) :
    String → List Node → vitestifyTask → Prop
  /-- The next turn of the loop is the turn for the node. -/
  | here (rest : List Node) (hnamed : target.isNamed = true) :
    WalkReaches target targetParent found targetParent (target :: rest) found
  /-- A child that is not named is passed over. -/
  | unnamed (parentType : String) (node : Node) (rest : List Node) (self : vitestifyTask)
      (hnode : node.isNamed = false)
      (hrest : WalkReaches target targetParent found parentType rest self) :
    WalkReaches target targetParent found parentType (node :: rest) self
  /-- The turn for a named child returns and the loop goes on with the next child. -/
  | after (parentType : String) (node : Node) (rest : List Node)
      (self self1 : vitestifyTask)
      (hnode : node.isNamed = true)
      (hstep : walkNodeStep parentType node self = Outcome.ok self1)
      (hrest : WalkReaches target targetParent found parentType rest self1) :
    WalkReaches target targetParent found parentType (node :: rest) self
  /-- The turn for a call expression that is walked descends into the call. -/
  | intoCall (parentType : String) (node : Node) (rest : List Node)
      (self self1 : vitestifyTask)
      (hnode : node.isNamed = true)
      (hcall : node.type = NODE_CALL_EXPRESSION)
      (hcase : callExpressionCase self node = Outcome.ok (self1, true))
      (hin : WalkReaches target targetParent found node.type node.children self1) :
    WalkReaches target targetParent found parentType (node :: rest) self
  /-- The turn for a node of a kind left to the default case descends into the node. -/
  | into (parentType : String) (node : Node) (rest : List Node) (self : vitestifyTask)
      (hnode : node.isNamed = true)
      (h1 : node.type ≠ NODE_IMPORT_STATEMENT) (h2 : node.type ≠ NODE_CALL_EXPRESSION)
      (h3 : node.type ≠ NODE_IDENTIFIER) (h4 : node.type ≠ NODE_NESTED_TYPE_IDENTIFIER)
      (hin : WalkReaches target targetParent found node.type node.children self) :
    WalkReaches target targetParent found parentType (node :: rest) self

/-- A source in which a call on `jest` follows an import statement from `vitest` on the
same line. -/
def srcImportThenJest : Bytes :=
  lit "import \x7b vi \x7d from 'vitest';jest.fn();\njest.fn();\n"

/-- The tree of `srcImportThenJest`. -/
def treeImportThenJest : Node :=
  nd "program" 0 50 none [
    nd "import_statement" 0 28 none [
      tok "import" 0 6,
      nd "import_clause" 7 13 none [
        nd "named_imports" 7 13 none [
          tok "\x7b" 7 8,
          nd "import_specifier" 9 11 none [
            nd "identifier" 9 11 (some "name") []],
          tok "\x7d" 12 13]],
      tok "from" 14 18,
      nd "string" 19 27 (some "source") [
        tok "'" 19 20,
        nd "string_fragment" 20 26 none [],
        tok "'" 26 27],
      tok ";" 27 28],
    nd "expression_statement" 28 38 none [
      nd "call_expression" 28 37 none [
        nd "member_expression" 28 35 (some "function") [
          nd "identifier" 28 32 (some "object") [],
          tok "." 32 33,
          nd "property_identifier" 33 35 (some "property") []],
        nd "arguments" 35 37 (some "arguments") [
          tok "(" 35 36,
          tok ")" 36 37]],
      tok ";" 37 38],
    nd "expression_statement" 39 49 none [
      nd "call_expression" 39 48 none [
        nd "member_expression" 39 46 (some "function") [
          nd "identifier" 39 43 (some "object") [],
          tok "." 43 44,
          nd "property_identifier" 44 46 (some "property") []],
        nd "arguments" 46 48 (some "arguments") [
          tok "(" 46 47,
          tok ")" 47 48]],
      tok ";" 48 49]]

/-- The task after the walk of `treeTwoImports`. -/
def taskAfterTwoImports : vitestifyTask :=
  { newVitestifyTask srcTwoImports with
    vitestImports := [lit "vi", lit "expect"]
    existingVitestImport := some importVi
    edits := [{ startByte := 0, endByte := 29, replacement := [] }] }

/-- A source whose import statement from `vitest` is a namespace import. -/
def srcNamespaceImport : Bytes :=
  lit "import * as V from 'vitest';\nexpect(1);\n"

/-- The tree of `srcNamespaceImport`. -/
def treeNamespaceImport : Node :=
  nd "program" 0 40 none [
    nd "import_statement" 0 28 none [
      tok "import" 0 6,
      nd "import_clause" 7 13 none [
        nd "namespace_import" 7 13 none [
          tok "*" 7 8,
          tok "as" 9 11,
          nd "identifier" 12 13 none []]],
      tok "from" 14 18,
      nd "string" 19 27 (some "source") [
        tok "'" 19 20,
        nd "string_fragment" 20 26 none [],
        tok "'" 26 27],
      tok ";" 27 28],
    nd "expression_statement" 29 39 none [
      nd "call_expression" 29 38 none [
        nd "identifier" 29 35 (some "function") [],
        nd "arguments" 35 38 (some "arguments") [
          tok "(" 35 36,
          nd "number" 36 37 none [],
          tok ")" 37 38]],
      tok ";" 38 39]]

/-- A stand-in for `strings.Map(unicode.ToLower, s)` in the examples: it lowers the
letters `A`..`Z` and the capital letters of the Latin-1 supplement (`U+00C0`..`U+00DE`
without the multiplication sign `U+00D7`, in UTF-8 the byte `c3` and a byte from `80` to
`9e`, whose lower case is the byte `c3` and that byte plus `20`), and keeps every other
byte. -/
def latin1Lower : Bytes → Bytes
  | [] => []
  | [c] => ToLower [c]
  | c :: d :: rest =>
    if c.toNat = 195 ∧ 128 ≤ d.toNat ∧ d.toNat ≤ 158 ∧ d.toNat ≠ 151 then
      c :: UInt8.ofNat (d.toNat + 32) :: latin1Lower rest
    else
      ToLower [c] ++ latin1Lower (d :: rest)

/-- An example task state after a walk: a six-byte source, two edits found out of
order, one required symbol. -/
def exampleTask : vitestifyTask :=
  { edits := [{ startByte := 4, endByte := 5, replacement := lit "YY" },
              { startByte := 1, endByte := 2, replacement := lit "X" }],
    existingNodePathImport := none, existingNodeUrlImport := none,
    needsAsyncFns := [], needsEsmDirnamePatch := false, needsEsmFilenamePatch := false,
    code := lit "abcdef", vitestImports := [lit "vi"] }

/-! ## What the specification says of the output -/

/-- The replayed text as the specification writes it, from position `pos` on:
`buffer[pos:start_1] ++ repl_1 ++ buffer[end_1:start_2] ++ repl_2 ++ ... ++ repl_n ++
buffer[end_n:len(buffer)]`, the rest of the buffer when no edit is left. -/
def expectedText (code : Bytes) : Int → List codeEdit → Bytes
  | pos, [] => code.drop pos.toNat
  | pos, e :: rest =>
    (code.drop pos.toNat).take (e.startByte - pos).toNat ++ e.replacement
      ++ expectedText code e.endByte rest

/-- The single-line form of the consolidated import as the specification writes it:
`import { s_1, ..., s_k } from 'vitest';`. -/
def singleLineImport (names : List Bytes) : Bytes :=
  lit "import \x7b " ++ (lit ", ").intercalate names ++ lit " \x7d from 'vitest';"

/-- The multi-line form as the specification writes it: `import {`, a newline, each
symbol on its own line indented by two spaces, the lines separated by `,`, a newline,
`} from 'vitest';`. -/
def multiLineImport (names : List Bytes) : Bytes :=
  lit "import \x7b" ++ lit "\n"
    ++ (lit ",\n").intercalate (names.map (fun s => lit "  " ++ s))
    ++ lit "\n" ++ lit "\x7d from 'vitest';"

/-! ## What the specification says of the order of the symbols -/

/-- The bare name of a required symbol as the specification has it: the symbol without
a leading `type ` tag (the bytes `t`, `y`, `p`, `e` and a space). -/
def bareName : Bytes → Bytes
  | 116 :: 121 :: 112 :: 101 :: 32 :: name => name
  | symbol => symbol

/-- The lower-cased name as the specification has it: on an ASCII name every byte is
replaced by its lower case (`Char.toLower`), on any other name the lower case is that of
Unicode (`unicodeLower`). -/
def lowerCased (unicodeLower : Bytes → Bytes) (name : Bytes) : Bytes :=
  if ∀ c ∈ name, c.toNat < 128 then
    name.map (fun c => UInt8.ofNat (Char.ofNat c.toNat).toLower.toNat)
  else unicodeLower name

/-- The name by which the specification orders a required symbol: the lower-cased bare
name. -/
def sortName (unicodeLower : Bytes → Bytes) (symbol : Bytes) : Bytes :=
  lowerCased unicodeLower (bareName symbol)

/-- Ascending order of two names: they are equal, or the first comes before the second
in the lexicographic order of the bytes. -/
def ascending (a b : Bytes) : Prop :=
  a = b ∨ List.Lex (fun x y : UInt8 => x.toNat < y.toNat) a b

/-! ## What the specification says of the rules -/

/-- The replacement that the specification gives for a type `jest.<name>`: the bare name
for `Mock`, `Mocked`, `MockedClass` and `MockedFunction`, `MockInstance` for
`SpyInstance`; for `CustomMatcherResult` the object type that the rule writes out. -/
def claimedTypeReplacement (name : Bytes) : Bytes :=
  if name = lit "SpyInstance" then lit "MockInstance"
  else if name = lit "CustomMatcherResult" then
    lit "\x7b message: () => string; pass: boolean \x7d"
  else name

/-- The symbol that the specification registers for a type `jest.<name>`: `type <name>`
for `Mock`, `Mocked`, `MockedClass` and `MockedFunction`, `type MockInstance` for
`SpyInstance`, none for `CustomMatcherResult`. -/
def claimedTypeImport (name : Bytes) : Option Bytes :=
  if name = lit "SpyInstance" then some (lit "type MockInstance")
  else if name = lit "CustomMatcherResult" then none
  else some (lit "type " ++ name)

/-- The names of the test-lifecycle functions that the specification lists. -/
def lifecycleNames : List Bytes :=
  [lit "afterAll", lit "afterEach", lit "beforeAll", lit "beforeEach", lit "describe",
   lit "expect", lit "it", lit "test"]

/-! ## The text cursor -/

/-- Inside the buffer and not at its end, `ReadTo` succeeds with the slice and moves
the position. -/
theorem readTo_ok_of_bounds (r : Reader) (n : Int)
    (h0 : 0 ≤ r.pos) (h1 : r.pos < (r.code.length : Int))
    (h2 : r.pos ≤ n) (h3 : n ≤ (r.code.length : Int)) :
    r.ReadTo n
      = (Outcome.ok ((r.code.drop r.pos.toNat).take (n - r.pos).toNat),
          { r with pos := n }) := by
  unfold Reader.ReadTo
  rw [if_neg (by omega)]
  by_cases hn : n = r.pos
  · subst hn
    rw [if_pos rfl]
    have hz : (r.pos - r.pos).toNat = 0 := by omega
    rw [hz]
    rfl
  · rw [if_neg hn]
    have hs : r.Seek n = (none, { r with pos := n }) := by
      unfold Reader.Seek
      rw [if_neg (by omega)]
    simp only [hs]
    have hsl : sliceBytes r.code r.pos n
        = some ((r.code.drop r.pos.toNat).take (n - r.pos).toNat) := by
      unfold sliceBytes
      rw [if_pos ⟨h0, h2, h3⟩]
    simp only [hsl]

/-- From inside the buffer `ReadToEnd` returns the rest of it. -/
theorem readToEnd_ok_of_bounds (r : Reader)
    (h0 : 0 ≤ r.pos) (h : r.pos ≤ (r.code.length : Int)) :
    r.ReadToEnd
      = (Outcome.ok (r.code.drop r.pos.toNat), { r with pos := (r.code.length : Int) }) := by
  unfold Reader.ReadToEnd
  by_cases he : r.pos ≥ (r.code.length : Int)
  · rw [if_pos he]
    have hp : r.pos = (r.code.length : Int) := by omega
    have hd : r.code.drop r.pos.toNat = [] := by
      apply List.drop_eq_nil_of_le
      omega
    rw [hd, ← hp]
  · rw [if_neg he]
    have hr := readTo_ok_of_bounds r (r.code.length : Int) h0 (by omega) h (le_refl _)
    rw [hr]
    have ht : (r.code.drop r.pos.toNat).take ((r.code.length : Int) - r.pos).toNat
        = r.code.drop r.pos.toNat := by
      apply List.take_of_length_le
      rw [List.length_drop]
      omega
    rw [ht]

/-- C4 (amended): for a reader with `0 ≤ pos < len(buffer)` and `pos ≤ n ≤ len(buffer)`,
`ReadTo(n)` returns exactly the bytes `buffer[pos:n]` (the `n - pos` bytes that follow
the first `pos`), without error, and leaves the position equal to `n`. -/
theorem ReadTo_in_range (r : Reader) (n : Int)
    (h0 : 0 ≤ r.pos) (h1 : r.pos < (r.code.length : Int))
    (h2 : r.pos ≤ n) (h3 : n ≤ (r.code.length : Int)) :
    r.ReadTo n
        = (Outcome.ok ((r.code.drop r.pos.toNat).take (n - r.pos).toNat),
            { r with pos := n })
      ∧ (((r.code.drop r.pos.toNat).take (n - r.pos).toNat).length : Int) = n - r.pos := by
  refine ⟨readTo_ok_of_bounds r n h0 h1 h2 h3, ?_⟩
  rw [List.length_take, List.length_drop]
  omega

/-- C4, witness: reading `[1, 3)` of a four-byte buffer. -/
theorem ReadTo_in_range_witness :
    (Reader.mk (lit "abcd") 1).ReadTo 3
        = (Outcome.ok (((lit "abcd").drop (1 : Int).toNat).take ((3 : Int) - 1).toNat),
            { (Reader.mk (lit "abcd") 1) with pos := 3 })
      ∧ ((((lit "abcd").drop (1 : Int).toNat).take ((3 : Int) - 1).toNat).length : Int)
          = 3 - 1 :=
  ReadTo_in_range (Reader.mk (lit "abcd") 1) 3 (by decide) (by decide) (by decide) (by decide)

/-- C4, counterexample: with `pos = n = len(buffer) = 2` the bounds `pos ≤ n ≤ len(buffer)`
hold, yet `ReadTo(2)` returns the read-past-end error instead of the empty `buffer[2:2]`. -/
theorem ReadTo_in_range_fails_at_end :
    (Reader.mk (lit "ab") 2).pos ≤ 2
      ∧ (2 : Int) ≤ ((Reader.mk (lit "ab") 2).code.length : Int)
      ∧ (Reader.mk (lit "ab") 2).ReadTo 2
          = (Outcome.error GoError.readPastEnd, Reader.mk (lit "ab") 2)
      ∧ ((Reader.mk (lit "ab") 2).ReadTo 2).1 ≠ Outcome.ok [] := by
  decide

/-- C5 (amended): for every reader state and every `n` (every `n ≥ pos` among them),
`ReadTo(n)` returns an error if and only if the position is at end-of-buffer (whatever
`n` is, `n = pos` included) or `n > len(buffer)`. -/
theorem ReadTo_error_iff (r : Reader) (n : Int) :
    (r.ReadTo n).1.isError = true
      ↔ ((r.code.length : Int) ≤ r.pos ∨ (r.code.length : Int) < n) := by
  unfold Reader.ReadTo
  by_cases he : r.pos ≥ (r.code.length : Int)
  · rw [if_pos he]
    simp only [Outcome.isError, true_iff]
    exact Or.inl he
  · rw [if_neg he]
    by_cases hn : n = r.pos
    · rw [if_pos hn]
      simp only [Outcome.isError]
      constructor
      · intro hf
        cases hf
      · intro hor
        omega
    · rw [if_neg hn]
      by_cases hg : n > (r.code.length : Int)
      · have hs : r.Seek n = (some (GoError.seekPastEnd r.pos), r) := by
          unfold Reader.Seek
          rw [if_pos hg]
        simp only [hs, Outcome.isError, true_iff]
        exact Or.inr hg
      · have hs : r.Seek n = (none, { r with pos := n }) := by
          unfold Reader.Seek
          rw [if_neg hg]
        simp only [hs]
        have hno : ¬ ((r.code.length : Int) ≤ r.pos ∨ (r.code.length : Int) < n) := by
          omega
        cases hsl : sliceBytes r.code r.pos n with
        | none => simp [Outcome.isError, hno]
        | some s => simp [Outcome.isError, hno]

/-- C5, counterexample: over the empty buffer, `ReadTo(0)` at position 0 returns an
error although `n = pos` and `n` does not exceed the buffer length. -/
theorem ReadTo_error_iff_fails_at_end :
    (Reader.mk [] 0).pos ≤ 0
      ∧ ((Reader.mk [] 0).ReadTo 0).1.isError = true
      ∧ ¬ ((((Reader.mk [] 0).code.length : Int) ≤ (Reader.mk [] 0).pos
              ∧ (0 : Int) ≠ (Reader.mk [] 0).pos)
            ∨ (0 : Int) > ((Reader.mk [] 0).code.length : Int)) := by
  decide

/-- C6 (amended): `ReadTo(pos)` with `n` equal to the current position returns the empty
string with no error and leaves the reader unchanged when `pos < len(buffer)`; at
end-of-buffer (an empty buffer included) it returns the read-past-end error, the
position still unchanged. -/
theorem ReadTo_same_pos (r : Reader) :
    r.ReadTo r.pos
      = if r.pos < (r.code.length : Int) then (Outcome.ok [], r)
        else (Outcome.error GoError.readPastEnd, r) := by
  unfold Reader.ReadTo
  by_cases he : r.pos ≥ (r.code.length : Int)
  · rw [if_pos he, if_neg (by omega)]
  · rw [if_neg he, if_pos rfl, if_pos (by omega)]

/-- C6, counterexample: a reader at the end of a one-byte buffer; `ReadTo(1)` with
`n = pos = 1` is an error, not the empty string. -/
theorem ReadTo_same_pos_fails_at_end :
    (Reader.mk (lit "x") 1).ReadTo (Reader.mk (lit "x") 1).pos
        = (Outcome.error GoError.readPastEnd, Reader.mk (lit "x") 1)
      ∧ ((Reader.mk (lit "x") 1).ReadTo (Reader.mk (lit "x") 1).pos).1 ≠ Outcome.ok [] := by
  decide

/-- C7 (amended): for every reader state with `0 ≤ pos ≤ len(buffer)`, `ReadToEnd`
returns the rest of the buffer, `buffer[pos:]`, without error and leaves the position at
`len(buffer)` (the empty string when already at the end); `ReadTo(len(buffer))` returns
the same string, error status and final position when `pos < len(buffer)`, and returns
an error when the reader is already at the end. -/
theorem ReadToEnd_vs_ReadTo (r : Reader)
    (h0 : 0 ≤ r.pos) (h : r.pos ≤ (r.code.length : Int)) :
    r.ReadToEnd
        = (Outcome.ok (r.code.drop r.pos.toNat), { r with pos := (r.code.length : Int) })
      ∧ (r.pos < (r.code.length : Int) → r.ReadTo (r.code.length : Int) = r.ReadToEnd)
      ∧ (r.pos = (r.code.length : Int) →
          r.ReadTo (r.code.length : Int) = (Outcome.error GoError.readPastEnd, r)) := by
  refine ⟨readToEnd_ok_of_bounds r h0 h, ?_, ?_⟩
  · intro hlt
    unfold Reader.ReadToEnd
    rw [if_neg (by omega)]
  · intro heq
    unfold Reader.ReadTo
    rw [if_pos (by omega)]

/-- C7, witness: a reader in the middle of a three-byte buffer. -/
theorem ReadToEnd_vs_ReadTo_witness :
    (Reader.mk (lit "abc") 1).ReadToEnd
        = (Outcome.ok ((Reader.mk (lit "abc") 1).code.drop (Reader.mk (lit "abc") 1).pos.toNat),
            { (Reader.mk (lit "abc") 1) with
                pos := ((Reader.mk (lit "abc") 1).code.length : Int) })
      ∧ ((Reader.mk (lit "abc") 1).pos < ((Reader.mk (lit "abc") 1).code.length : Int) →
          (Reader.mk (lit "abc") 1).ReadTo ((Reader.mk (lit "abc") 1).code.length : Int)
            = (Reader.mk (lit "abc") 1).ReadToEnd)
      ∧ ((Reader.mk (lit "abc") 1).pos = ((Reader.mk (lit "abc") 1).code.length : Int) →
          (Reader.mk (lit "abc") 1).ReadTo ((Reader.mk (lit "abc") 1).code.length : Int)
            = (Outcome.error GoError.readPastEnd, Reader.mk (lit "abc") 1)) :=
  ReadToEnd_vs_ReadTo (Reader.mk (lit "abc") 1) (by decide) (by decide)

/-- C7, counterexample: at the end of a two-byte buffer `pos ≤ len(buffer)` holds,
`ReadToEnd` returns the empty string with no error and `ReadTo(len(buffer))` returns an
error: the two differ in error status. -/
theorem ReadToEnd_differs_at_end :
    (Reader.mk (lit "ab") 2).pos ≤ ((Reader.mk (lit "ab") 2).code.length : Int)
      ∧ (Reader.mk (lit "ab") 2).ReadToEnd = (Outcome.ok [], Reader.mk (lit "ab") 2)
      ∧ (Reader.mk (lit "ab") 2).ReadTo ((Reader.mk (lit "ab") 2).code.length : Int)
          = (Outcome.error GoError.readPastEnd, Reader.mk (lit "ab") 2)
      ∧ (Reader.mk (lit "ab") 2).ReadToEnd
          ≠ (Reader.mk (lit "ab") 2).ReadTo ((Reader.mk (lit "ab") 2).code.length : Int) := by
  decide

/-- C8: for every reader and every `n`, `Seek(n)` fails if and only if `n > len(buffer)`;
on success the position becomes `n` (the buffer untouched), and on failure the reader is
unchanged. -/
theorem Seek_spec (r : Reader) (n : Int) :
    ((r.Seek n).1.isSome = true ↔ n > (r.code.length : Int))
      ∧ ((r.Seek n).1 = none → (r.Seek n).2 = { r with pos := n })
      ∧ ((r.Seek n).1.isSome = true → (r.Seek n).2 = r) := by
  unfold Reader.Seek
  by_cases hg : n > (r.code.length : Int)
  · rw [if_pos hg]
    simp [hg]
  · rw [if_neg hg]
    simp [hg]

/-! ## The replay -/

/-- What a successful `ReadTo` tells: the reader was not at the end, the buffer is kept,
the position is the target, the text has the length of the span, and the span was a
forward one inside the buffer unless it was empty. -/
theorem readTo_ok_inv (r r1 : Reader) (n : Int) (s : Bytes)
    (h : r.ReadTo n = (Outcome.ok s, r1)) :
    r.pos < (r.code.length : Int) ∧ r1.code = r.code ∧ r1.pos = n
      ∧ (s.length : Int) = n - r.pos ∧ r.pos ≤ n ∧ n ≤ (r.code.length : Int) := by
  unfold Reader.ReadTo at h
  by_cases he : r.pos ≥ (r.code.length : Int)
  · rw [if_pos he] at h
    simp at h
  · rw [if_neg he] at h
    by_cases hn : n = r.pos
    · rw [if_pos hn] at h
      simp only [Prod.mk.injEq, Outcome.ok.injEq] at h
      obtain ⟨hs, hr⟩ := h
      subst hs
      subst hr
      refine ⟨by omega, rfl, hn.symm, ?_, by omega, by omega⟩
      simp [hn]
    · rw [if_neg hn] at h
      by_cases hg : n > (r.code.length : Int)
      · have hs : r.Seek n = (some (GoError.seekPastEnd r.pos), r) := by
          unfold Reader.Seek
          rw [if_pos hg]
        simp [hs] at h
      · have hs : r.Seek n = (none, { r with pos := n }) := by
          unfold Reader.Seek
          rw [if_neg hg]
        simp only [hs] at h
        unfold sliceBytes at h
        by_cases hb : 0 ≤ r.pos ∧ r.pos ≤ n ∧ n ≤ (r.code.length : Int)
        · rw [if_pos hb] at h
          simp only [Prod.mk.injEq, Outcome.ok.injEq] at h
          obtain ⟨hs2, hr⟩ := h
          subst hs2
          subst hr
          refine ⟨by omega, rfl, rfl, ?_, hb.2.1, hb.2.2⟩
          rw [List.length_take, List.length_drop]
          omega
        · rw [if_neg hb] at h
          simp at h

/-- What a successful `Seek` tells. -/
theorem seek_ok_inv (r r1 : Reader) (n : Int) (h : r.Seek n = (none, r1)) :
    n ≤ (r.code.length : Int) ∧ r1 = { r with pos := n } := by
  unfold Reader.Seek at h
  by_cases hg : n > (r.code.length : Int)
  · rw [if_pos hg] at h
    simp at h
  · rw [if_neg hg] at h
    simp only [Prod.mk.injEq, true_and] at h
    exact ⟨by omega, h.symm⟩

/-- One step of the loop that succeeds: the read and the seek both succeeded and the
loop goes on from the end of the edit. -/
theorem replayLoop_cons_ok (e : codeEdit) (rest : List codeEdit) (r : Reader)
    (chunks : List Bytes) (res : List Bytes × Reader)
    (h : replayLoop (e :: rest) r chunks = Outcome.ok res) :
    ∃ (u : Bytes) (r1 : Reader),
      r.ReadTo e.startByte = (Outcome.ok u, r1)
        ∧ e.endByte ≤ (r.code.length : Int)
        ∧ replayLoop rest { r1 with pos := e.endByte }
            (chunks ++ [u] ++ [e.replacement]) = Outcome.ok res := by
  unfold replayLoop at h
  rcases hrd : r.ReadTo e.startByte with ⟨o, r1⟩
  rw [hrd] at h
  cases o with
  | error err => simp at h
  | panic => simp at h
  | ok u =>
    simp only at h
    rcases hsk : r1.Seek e.endByte with ⟨oe, r2⟩
    rw [hsk] at h
    cases oe with
    | some err => simp at h
    | none =>
      simp only at h
      obtain ⟨hle, hr2⟩ := seek_ok_inv r1 r2 e.endByte hsk
      have hcode := (readTo_ok_inv r r1 e.startByte u hrd).2.1
      refine ⟨u, r1, rfl, ?_, ?_⟩
      · rw [← hcode]
        exact hle
      · rw [← hr2]
        exact h

/-- A loop that succeeds never went backwards: it found the first edit at or after the
reader, and every next edit at or after the end of the edit before it. -/
theorem replayLoop_ok_chain :
    ∀ (es : List codeEdit) (r : Reader) (chunks : List Bytes) (res : List Bytes × Reader),
      replayLoop es r chunks = Outcome.ok res →
        (∀ e, es.head? = some e → r.pos ≤ e.startByte)
          ∧ List.Chain' (fun a b : codeEdit => a.endByte ≤ b.startByte) es := by
  intro es
  induction es with
  | nil =>
    intro r chunks res _
    exact ⟨by simp, List.chain'_nil⟩
  | cons e rest ih =>
    intro r chunks res h
    obtain ⟨u, r1, hrd, _, hrest⟩ := replayLoop_cons_ok e rest r chunks res h
    have hinv := readTo_ok_inv r r1 e.startByte u hrd
    obtain ⟨hhead, hch⟩ := ih _ _ res hrest
    refine ⟨?_, ?_⟩
    · intro e1 he1
      simp only [List.head?_cons, Option.some.injEq] at he1
      subst he1
      exact hinv.2.2.2.2.1
    · cases rest with
      | nil => exact List.chain'_singleton e
      | cons b l =>
        refine List.chain'_cons.2 ⟨?_, hch⟩
        exact hhead b rfl

/-- The length of what a successful loop pushed, counted with the bytes still to read:
the bytes that were still to read before, less the spans of the edits, plus their
replacements. The chunks already pushed are kept in front. -/
theorem replayLoop_ok_length :
    ∀ (es : List codeEdit) (r r1 : Reader) (chunks out : List Bytes),
      replayLoop es r chunks = Outcome.ok (out, r1) →
      r.pos ≤ (r.code.length : Int) →
        r1.code = r.code ∧ r1.pos ≤ (r.code.length : Int)
          ∧ ∃ app, out = chunks ++ app
              ∧ ((Sprint app).length : Int) + ((r.code.length : Int) - r1.pos)
                  = ((r.code.length : Int) - r.pos)
                      - (es.map (fun e => e.endByte - e.startByte)).sum
                      + (es.map (fun e => (e.replacement.length : Int))).sum := by
  intro es
  induction es with
  | nil =>
    intro r r1 chunks out h hpos
    unfold replayLoop at h
    simp only [Outcome.ok.injEq, Prod.mk.injEq] at h
    obtain ⟨h1, h2⟩ := h
    subst h1
    subst h2
    refine ⟨rfl, hpos, [], by simp, ?_⟩
    simp [Sprint]
  | cons e rest ih =>
    intro r r1 chunks out h hpos
    obtain ⟨u, r2, hrd, hle, hrest⟩ := replayLoop_cons_ok e rest r chunks (out, r1) h
    obtain ⟨_, hcode, _, hlen, _, _⟩ := readTo_ok_inv r r2 e.startByte u hrd
    have hih := ih { r2 with pos := e.endByte } r1 (chunks ++ [u] ++ [e.replacement]) out
      hrest (by simpa [hcode] using hle)
    simp only [hcode] at hih
    obtain ⟨hc1, hp1, app, happ, hsum⟩ := hih
    refine ⟨hc1, hp1, [u] ++ [e.replacement] ++ app, ?_, ?_⟩
    · rw [happ]
      simp
    · simp only [Sprint, List.flatten_append, List.length_append, List.flatten_cons,
        List.flatten_nil, List.append_nil, List.map_cons, List.sum_cons, Nat.cast_add] at hsum ⊢
      omega

/-- A loop over edits that lie in order inside the buffer, none of them reached with the
reader at the end of the buffer, succeeds and pushes the text of the specification. -/
theorem replayLoop_ok_of_ordered :
    ∀ (es : List codeEdit) (r : Reader) (chunks : List Bytes),
      0 ≤ r.pos → r.pos ≤ (r.code.length : Int) →
      (es ≠ [] → r.pos < (r.code.length : Int)) →
      (∀ e, es.head? = some e → r.pos ≤ e.startByte) →
      (∀ e ∈ es, e.startByte ≤ e.endByte ∧ e.endByte ≤ (r.code.length : Int)) →
      List.Chain' (fun a b : codeEdit => a.endByte ≤ b.startByte) es →
      List.Chain' (fun a _ : codeEdit => a.endByte < (r.code.length : Int)) es →
        ∃ (app : List Bytes) (r1 : Reader),
          replayLoop es r chunks = Outcome.ok (chunks ++ app, r1)
            ∧ r1.code = r.code ∧ 0 ≤ r1.pos ∧ r1.pos ≤ (r.code.length : Int)
            ∧ Sprint app ++ r.code.drop r1.pos.toNat = expectedText r.code r.pos es := by
  intro es
  induction es with
  | nil =>
    intro r chunks h0 hle _ _ _ _ _
    refine ⟨[], r, ?_, rfl, h0, hle, ?_⟩
    · simp [replayLoop]
    · simp [Sprint, expectedText]
  | cons e rest ih =>
    intro r chunks h0 hle hne hhead hwf hch hend
    have hlt : r.pos < (r.code.length : Int) := hne (by simp)
    have hst : r.pos ≤ e.startByte := hhead e rfl
    obtain ⟨hse, hel⟩ := hwf e (by simp)
    have hrd := readTo_ok_of_bounds r e.startByte h0 hlt hst (by omega)
    have hsk : ({ r with pos := e.startByte } : Reader).Seek e.endByte
        = (none, { r with pos := e.endByte }) := by
      unfold Reader.Seek
      rw [if_neg (by simpa using hel)]
    have hih := ih { r with pos := e.endByte }
      (chunks ++ [(r.code.drop r.pos.toNat).take (e.startByte - r.pos).toNat]
        ++ [e.replacement])
      (by simp only; omega) (by simpa using hel)
      (by
        intro hr
        cases rest with
        | nil => exact absurd rfl hr
        | cons b l => exact (List.chain'_cons.1 hend).1)
      (by
        intro b hb
        cases rest with
        | nil => simp at hb
        | cons b1 l =>
          simp only [List.head?_cons, Option.some.injEq] at hb
          subst hb
          exact (List.chain'_cons.1 hch).1)
      (by
        intro b hb
        exact hwf b (List.mem_cons_of_mem e hb))
      hch.tail hend.tail
    obtain ⟨app, r1, hloop, hc1, hp0, hp1, htxt⟩ := hih
    refine ⟨[(r.code.drop r.pos.toNat).take (e.startByte - r.pos).toNat]
        ++ [e.replacement] ++ app, r1, ?_, hc1, hp0, hp1, ?_⟩
    · unfold replayLoop
      simp only [hrd, hsk]
      rw [hloop]
      simp
    · simp only at htxt
      simp only [expectedText, ← htxt, Sprint]
      simp

/-- What a successful `ReadToEnd` returns has the length of the rest of the buffer. -/
theorem readToEnd_ok_length (r r1 : Reader) (s : Bytes)
    (h : r.ReadToEnd = (Outcome.ok s, r1)) (hle : r.pos ≤ (r.code.length : Int)) :
    (s.length : Int) = (r.code.length : Int) - r.pos := by
  unfold Reader.ReadToEnd at h
  by_cases he : r.pos ≥ (r.code.length : Int)
  · rw [if_pos he] at h
    simp only [Prod.mk.injEq, Outcome.ok.injEq] at h
    rw [← h.1]
    simp only [List.length_nil, Nat.cast_zero]
    omega
  · rw [if_neg he] at h
    exact (readTo_ok_inv r r1 _ s h).2.2.2.1

/-- A replay that succeeds is a loop that succeeded followed by a final read that
succeeded. -/
theorem replay_ok_inv (code : Bytes) (edits : List codeEdit) (chunks out : List Bytes)
    (h : replay code edits chunks = Outcome.ok out) :
    ∃ (cs : List Bytes) (r1 r2 : Reader) (fin : Bytes),
      replayLoop (sortEdits edits) (NewReader code) chunks = Outcome.ok (cs, r1)
        ∧ r1.ReadToEnd = (Outcome.ok fin, r2) ∧ out = cs ++ [fin] := by
  unfold replay at h
  cases hl : replayLoop (sortEdits edits) (NewReader code) chunks with
  | error err => simp [hl] at h
  | panic => simp [hl] at h
  | ok res =>
    obtain ⟨cs, r1⟩ := res
    simp only [hl] at h
    rcases hre : r1.ReadToEnd with ⟨o, r2⟩
    rw [hre] at h
    cases o with
    | error err => simp at h
    | panic => simp at h
    | ok fin =>
      simp only [Outcome.ok.injEq] at h
      exact ⟨cs, r1, r2, fin, rfl, hre, h.symm⟩

/-- When `run` returns chunks, they are the chunks of the replay of the final ledger
over the chunks of the consolidated import and of the shim. -/
theorem runChunks_ok_inv (t : vitestifyTask) (chunks : List Bytes)
    (h : runChunks t = Outcome.ok chunks) :
    replay t.code (finalLedger t) (importChunks t ++ esmChunks t) = Outcome.ok chunks := by
  unfold runChunks at h
  split at h
  · simp at h
  · cases ha : asyncEdits t.code t.needsAsyncFns with
    | none => simp [ha] at h
    | some fnEdits =>
      simp only [ha] at h
      simpa [finalLedger, ha] using h

/-- When `run` returns text, it is the concatenation of the chunks it returned. -/
theorem runAfterWalk_ok_inv (t : vitestifyTask) (out : Bytes)
    (h : runAfterWalk t = Outcome.ok out) :
    ∃ chunks, runChunks t = Outcome.ok chunks ∧ out = Sprint chunks := by
  unfold runAfterWalk at h
  cases hc : runChunks t with
  | error err => simp [hc] at h
  | panic => simp [hc] at h
  | ok chunks =>
    simp only [hc, Outcome.ok.injEq] at h
    exact ⟨chunks, rfl, h.symm⟩

/-- C1 (amended): for every source buffer and every ledger whose edits, once sorted by
start, satisfy `0 ≤ start_i ≤ end_i ≤ start_{i+1}` and `end_i ≤ len(buffer)`, and in which
no edit is reached with the reader at end-of-buffer (the buffer is not empty when the
ledger is not, and `end_i < len(buffer)` for every edit that has a successor), the replay
of `run` succeeds, keeps the chunks pushed before it, and the text it appends equals
`buffer[0:start_1] ++ repl_1 ++ buffer[end_1:start_2] ++ ... ++ repl_n ++
buffer[end_n:len(buffer)]` (the whole buffer when the ledger is empty). -/
theorem replay_of_ordered_ledger (code : Bytes) (edits : List codeEdit)
    (chunks : List Bytes)
    (hwf : ∀ e ∈ sortEdits edits,
      0 ≤ e.startByte ∧ e.startByte ≤ e.endByte ∧ e.endByte ≤ (code.length : Int))
    (hch : List.Chain' (fun a b : codeEdit => a.endByte ≤ b.startByte) (sortEdits edits))
    (hne : edits ≠ [] → 0 < code.length)
    (hend : List.Chain' (fun a _ : codeEdit => a.endByte < (code.length : Int))
      (sortEdits edits)) :
    ∃ app : List Bytes,
      replay code edits chunks = Outcome.ok (chunks ++ app)
        ∧ Sprint app = expectedText code 0 (sortEdits edits) := by
  have hloop := replayLoop_ok_of_ordered (sortEdits edits) (NewReader code) chunks
    (le_refl _) (by simp [NewReader])
    (by
      intro hs
      have he : edits ≠ [] := by
        intro hnil
        apply hs
        rw [hnil]
        rfl
      have := hne he
      simp only [NewReader]
      omega)
    (by
      intro e he
      have hm : e ∈ sortEdits edits := List.mem_of_mem_head? he
      exact (hwf e hm).1)
    (by
      intro e he
      exact (hwf e he).2)
    hch hend
  obtain ⟨app, r1, hl, hc1, hp0, hp1, htxt⟩ := hloop
  have hle : r1.pos ≤ (r1.code.length : Int) := by
    rw [hc1]
    exact hp1
  have hfin := readToEnd_ok_of_bounds r1 hp0 hle
  refine ⟨app ++ [r1.code.drop r1.pos.toNat], ?_, ?_⟩
  · unfold replay
    simp only [hl, hfin]
    simp
  · simp only [NewReader] at htxt hc1
    rw [← htxt, hc1]
    simp [Sprint]

/-- C1, witness: two edits found out of order over a six-byte buffer; the replay keeps
the chunk pushed before it and appends `a`, `X`, `cd`, `Y`, `f`. -/
theorem replay_of_ordered_ledger_witness :
    (∃ app : List Bytes,
      replay (lit "abcdef")
          [{ startByte := 4, endByte := 5, replacement := lit "Y" },
           { startByte := 1, endByte := 2, replacement := lit "X" }]
          [lit "import;"]
        = Outcome.ok ([lit "import;"] ++ app)
        ∧ Sprint app
            = expectedText (lit "abcdef") 0
                (sortEdits
                  [{ startByte := 4, endByte := 5, replacement := lit "Y" },
                   { startByte := 1, endByte := 2, replacement := lit "X" }]))
      ∧ replay (lit "abcdef")
          [{ startByte := 4, endByte := 5, replacement := lit "Y" },
           { startByte := 1, endByte := 2, replacement := lit "X" }]
          [lit "import;"]
        = Outcome.ok [lit "import;", lit "a", lit "X", lit "cd", lit "Y", lit "f"] :=
  ⟨replay_of_ordered_ledger (lit "abcdef")
      [{ startByte := 4, endByte := 5, replacement := lit "Y" },
       { startByte := 1, endByte := 2, replacement := lit "X" }]
      [lit "import;"] (by decide)
      (show List.Chain' (fun a b : codeEdit => a.endByte ≤ b.startByte)
          [{ startByte := 1, endByte := 2, replacement := lit "X" },
           { startByte := 4, endByte := 5, replacement := lit "Y" }] from
        List.chain'_cons.2 ⟨by decide, List.chain'_singleton _⟩)
      (by decide)
      (show List.Chain' (fun a _ : codeEdit => a.endByte < ((lit "abcdef").length : Int))
          [{ startByte := 1, endByte := 2, replacement := lit "X" },
           { startByte := 4, endByte := 5, replacement := lit "Y" }] from
        List.chain'_cons.2 ⟨by decide, List.chain'_singleton _⟩),
    by decide⟩

/-- C1, counterexample: over the buffer `ab` the ledger `[0,2) -> x`, `[2,2) -> y` is
sorted by start and satisfies `0 ≤ start_i ≤ end_i ≤ start_{i+1}` and `end_i ≤ len(buffer)`,
yet the replay fails: the second edit is reached with the reader at the end of the
buffer, where `ReadTo` returns an error. -/
theorem replay_fails_at_end_of_buffer :
    (∀ e ∈ sortEdits
          [{ startByte := 0, endByte := 2, replacement := lit "x" },
           { startByte := 2, endByte := 2, replacement := lit "y" }],
        0 ≤ e.startByte ∧ e.startByte ≤ e.endByte ∧ e.endByte ≤ ((lit "ab").length : Int))
      ∧ List.Chain' (fun a b : codeEdit => a.endByte ≤ b.startByte)
          (sortEdits
            [{ startByte := 0, endByte := 2, replacement := lit "x" },
             { startByte := 2, endByte := 2, replacement := lit "y" }])
      ∧ replay (lit "ab")
          [{ startByte := 0, endByte := 2, replacement := lit "x" },
           { startByte := 2, endByte := 2, replacement := lit "y" }] []
        = Outcome.error (GoError.unableToReadChunk GoError.readPastEnd) :=
  ⟨by decide,
    show List.Chain' (fun a b : codeEdit => a.endByte ≤ b.startByte)
        [{ startByte := 0, endByte := 2, replacement := lit "x" },
         { startByte := 2, endByte := 2, replacement := lit "y" }] from
      List.chain'_cons.2 ⟨by decide, List.chain'_singleton _⟩,
    by decide⟩

/-- C2: for every ledger in which, after sorting by start offset, some adjacent pair of
edits overlaps (`end_i > start_{i+1}`), the replay never returns output text, whatever
the buffer and the chunks pushed before it; so `run` on a task with that ledger returns
no text either (it returns an error or panics). -/
theorem replay_overlap_never_ok (code : Bytes) (edits : List codeEdit)
    (chunks : List Bytes) (i : Nat) (a b : codeEdit)
    (ha : (sortEdits edits)[i]? = some a) (hb : (sortEdits edits)[i + 1]? = some b)
    (hov : a.endByte > b.startByte) :
    (replay code edits chunks).isOk = false
      ∧ ∀ t : vitestifyTask, t.code = code → finalLedger t = edits →
          (runAfterWalk t).isOk = false := by
  have hno : ∀ cs out, replay code edits cs ≠ Outcome.ok out := by
    intro cs out hok
    obtain ⟨cs1, r1, r2, fin, hl, _, _⟩ := replay_ok_inv code edits cs out hok
    have hchain := (replayLoop_ok_chain _ _ _ _ hl).2
    obtain ⟨hi, hai⟩ := List.getElem?_eq_some.1 ha
    obtain ⟨hi1, hbi⟩ := List.getElem?_eq_some.1 hb
    have hget := List.chain'_iff_get.1 hchain i (by omega)
    simp only [List.get_eq_getElem] at hget
    rw [hai, hbi] at hget
    omega
  constructor
  · cases hr : replay code edits chunks with
    | ok out => exact absurd hr (hno chunks out)
    | error err => rfl
    | panic => rfl
  · intro t hcode hled
    cases hr : runAfterWalk t with
    | error err => rfl
    | panic => rfl
    | ok out =>
      obtain ⟨cs, hcs, _⟩ := runAfterWalk_ok_inv t out hr
      have := runChunks_ok_inv t cs hcs
      rw [hcode, hled] at this
      exact absurd this (hno _ cs)

/-- C2, witness: the edits `[1,4)` and `[2,3)` over a six-byte buffer overlap; the replay
panics on the backward slice and returns no text. -/
theorem replay_overlap_never_ok_witness :
    ((replay (lit "abcdef")
          [{ startByte := 2, endByte := 3, replacement := lit "Y" },
           { startByte := 1, endByte := 4, replacement := lit "X" }] []).isOk = false
      ∧ ∀ t : vitestifyTask, t.code = lit "abcdef" →
          finalLedger t
            = [{ startByte := 2, endByte := 3, replacement := lit "Y" },
               { startByte := 1, endByte := 4, replacement := lit "X" }] →
          (runAfterWalk t).isOk = false)
      ∧ replay (lit "abcdef")
          [{ startByte := 2, endByte := 3, replacement := lit "Y" },
           { startByte := 1, endByte := 4, replacement := lit "X" }] []
        = Outcome.panic :=
  ⟨replay_overlap_never_ok (lit "abcdef")
      [{ startByte := 2, endByte := 3, replacement := lit "Y" },
       { startByte := 1, endByte := 4, replacement := lit "X" }] [] 0
      { startByte := 1, endByte := 4, replacement := lit "X" }
      { startByte := 2, endByte := 3, replacement := lit "Y" }
      (by decide) (by decide) (by decide),
    by decide⟩

/-- C3: whenever `run` returns rewritten text, the text is the chunks of the
consolidated import and of the shim followed by the part produced by the replay, and
that part has length `len(original) - Σ (end - start) + Σ len(replacement)`, the sums
taken over the edits of the final ledger. -/
theorem run_output_length (t : vitestifyTask) (out : Bytes)
    (h : runAfterWalk t = Outcome.ok out) :
    ∃ body : Bytes,
      out = Sprint (importChunks t ++ esmChunks t) ++ body
        ∧ (body.length : Int)
            = (t.code.length : Int)
                - ((finalLedger t).map (fun e => e.endByte - e.startByte)).sum
                + ((finalLedger t).map (fun e => (e.replacement.length : Int))).sum := by
  obtain ⟨chunks, hcs, hout⟩ := runAfterWalk_ok_inv t out h
  have hrep := runChunks_ok_inv t chunks hcs
  obtain ⟨cs, r1, r2, fin, hl, hfin, hchunks⟩ := replay_ok_inv _ _ _ _ hrep
  obtain ⟨hc1, hp1, app, happ, hsum⟩ :=
    replayLoop_ok_length _ _ _ _ _ hl (by simp [NewReader])
  simp only [NewReader] at hc1 hp1 hsum
  have hfl := readToEnd_ok_length r1 r2 fin hfin (by rw [hc1]; exact hp1)
  rw [hc1] at hfl
  have hperm : (sortEdits (finalLedger t)).Perm (finalLedger t) :=
    List.perm_insertionSort _ _
  have hs1 := (hperm.map (fun e : codeEdit => e.endByte - e.startByte)).sum_eq
  have hs2 := (hperm.map (fun e : codeEdit => (e.replacement.length : Int))).sum_eq
  rw [hs1, hs2] at hsum
  refine ⟨Sprint app ++ fin, ?_, ?_⟩
  · rw [hout, hchunks, happ]
    simp [Sprint]
  · rw [List.length_append]
    push_cast
    omega

/-- C3, witness: on the example task `run` returns the import line and `aXcdYYf`, whose
length is `6 - 2 + 3`. -/
theorem run_output_length_witness :
    ∃ body : Bytes,
      lit "import \x7b vi \x7d from 'vitest';\naXcdYYf"
          = Sprint (importChunks exampleTask ++ esmChunks exampleTask) ++ body
        ∧ (body.length : Int)
            = (exampleTask.code.length : Int)
                - ((finalLedger exampleTask).map (fun e => e.endByte - e.startByte)).sum
                + ((finalLedger exampleTask).map
                    (fun e => (e.replacement.length : Int))).sum :=
  run_output_length exampleTask (lit "import \x7b vi \x7d from 'vitest';\naXcdYYf") (by decide)

/-! ## The consolidated import -/

/-- `strings.Compare` is total: of two strings one is not above the other. -/
theorem compare_total : ∀ a b : Bytes, Compare a b ≤ 0 ∨ Compare b a ≤ 0 := by
  intro a
  induction a with
  | nil =>
    intro b
    cases b with
    | nil => simp [Compare]
    | cons y ys => simp [Compare]
  | cons x xs ih =>
    intro b
    cases b with
    | nil => simp [Compare]
    | cons y ys =>
      simp only [Compare]
      by_cases h1 : x.toNat < y.toNat
      · simp [h1]
      · by_cases h2 : y.toNat < x.toNat
        · simp [h1, h2]
        · simp only [h1, h2, if_false]
          exact ih ys

/-- `strings.Compare` is transitive. -/
theorem compare_trans :
    ∀ a b c : Bytes, Compare a b ≤ 0 → Compare b c ≤ 0 → Compare a c ≤ 0 := by
  intro a
  induction a with
  | nil =>
    intro b c _ _
    cases c with
    | nil => simp [Compare]
    | cons z zs => simp [Compare]
  | cons x xs ih =>
    intro b c hab hbc
    cases b with
    | nil => simp [Compare] at hab
    | cons y ys =>
      cases c with
      | nil => simp [Compare] at hbc
      | cons z zs =>
        simp only [Compare] at hab hbc ⊢
        by_cases h1 : x.toNat < y.toNat
        · by_cases h3 : y.toNat < z.toNat
          · have : x.toNat < z.toNat := by omega
            simp [this]
          · by_cases h4 : z.toNat < y.toNat
            · simp [h3, h4] at hbc
            · have : x.toNat < z.toNat := by omega
              simp [this]
        · by_cases h2 : y.toNat < x.toNat
          · simp [h1, h2] at hab
          · simp only [h1, h2, if_false] at hab
            by_cases h3 : y.toNat < z.toNat
            · have : x.toNat < z.toNat := by omega
              simp [this]
            · by_cases h4 : z.toNat < y.toNat
              · simp [h3, h4] at hbc
              · simp only [h3, h4, if_false] at hbc
                have h5 : ¬ x.toNat < z.toNat := by omega
                have h6 : ¬ z.toNat < x.toNat := by omega
                simp only [h5, h6, if_false]
                exact ih ys zs hab hbc

/-- `strings.TrimPrefix(s, "type ")` is the bare name of the specification. -/
theorem trimPrefix_type_eq_bareName (s : Bytes) :
    TrimPrefix s (lit "type ") = bareName s := by
  unfold TrimPrefix
  by_cases h : (lit "type ").isPrefixOf s = true
  · rw [if_pos h]
    obtain ⟨t, rfl⟩ := List.isPrefixOf_iff_prefix.1 h
    rfl
  · rw [if_neg h]
    unfold bareName
    split
    · rename_i name
      exact absurd (List.isPrefixOf_iff_prefix.2 ⟨name, rfl⟩) h
    · rfl

/-- The lower case of one ASCII byte, as `strings.ToLower` and as `Char.toLower` have
it. -/
theorem lower_byte_eq :
    ∀ n, n < 128 →
      (if 65 ≤ (UInt8.ofNat n).toNat ∧ (UInt8.ofNat n).toNat ≤ 90 then
          UInt8.ofNat ((UInt8.ofNat n).toNat + 32)
        else UInt8.ofNat n)
        = UInt8.ofNat (Char.ofNat (UInt8.ofNat n).toNat).toLower.toNat := by
  decide

/-- A byte is the byte of its value. -/
theorem uint8_ofNat_toNat (c : UInt8) : UInt8.ofNat c.toNat = c := by
  apply UInt8.ext
  have hlt : c.toNat < 256 := c.toBitVec.isLt
  simp only [UInt8.ofNat, UInt8.toNat, BitVec.toNat_ofNat]
  exact Nat.mod_eq_of_lt hlt

/-- `strings.ToLower` is the lower-casing of the specification. -/
theorem toLowerOf_eq_lowerCased (unicodeLower : Bytes → Bytes) (s : Bytes) :
    ToLowerOf unicodeLower s = lowerCased unicodeLower s := by
  unfold ToLowerOf lowerCased
  by_cases h : ∀ c ∈ s, c.toNat < 128
  · have hall : s.all (fun c => decide (c.toNat < 128)) = true :=
      List.all_eq_true.2 (fun c hc => decide_eq_true (h c hc))
    rw [if_pos hall, if_pos h]
    unfold ToLower
    apply List.map_congr_left
    intro c hc
    have hb := lower_byte_eq c.toNat (h c hc)
    rw [uint8_ofNat_toNat] at hb
    exact hb
  · have hall : ¬ s.all (fun c => decide (c.toNat < 128)) = true := by
      intro hall
      exact h (fun c hc => of_decide_eq_true (List.all_eq_true.1 hall c hc))
    rw [if_neg hall, if_neg h]

/-- `strings.Compare` is not positive exactly on two strings in ascending order. -/
theorem compare_le_iff_ascending :
    ∀ a b : Bytes, Compare a b ≤ 0 ↔ ascending a b := by
  intro a
  induction a with
  | nil =>
    intro b
    cases b with
    | nil => simp [Compare, ascending]
    | cons y ys =>
      simp only [Compare, ascending]
      constructor
      · intro _
        exact Or.inr List.Lex.nil
      · intro _
        decide
  | cons x xs ih =>
    intro b
    cases b with
    | nil =>
      simp only [Compare, ascending]
      constructor
      · intro h
        exact absurd h (by decide)
      · intro h
        rcases h with h | h
        · cases h
        · cases h
    | cons y ys =>
      simp only [Compare, ascending]
      by_cases h1 : x.toNat < y.toNat
      · rw [if_pos h1]
        constructor
        · intro _
          exact Or.inr (List.Lex.rel h1)
        · intro _
          decide
      · rw [if_neg h1]
        by_cases h2 : y.toNat < x.toNat
        · rw [if_pos h2]
          constructor
          · intro h
            exact absurd h (by decide)
          · intro h
            rcases h with h | h
            · cases h
              omega
            · cases h with
              | cons _ => omega
              | rel hr => exact absurd hr h1
        · rw [if_neg h2]
          have hxy : x = y := UInt8.ext (by omega)
          subst hxy
          rw [ih ys]
          unfold ascending
          constructor
          · intro h
            rcases h with h | h
            · exact Or.inl (by rw [h])
            · exact Or.inr (List.Lex.cons h)
          · intro h
            rcases h with h | h
            · exact Or.inl (List.cons.inj h).2
            · cases h with
              | cons hl => exact Or.inr hl
              | rel hr => exact absurd hr h1

/-- The comparison that `run` sorts by is not positive exactly on two symbols whose
names, as the specification orders them, are in ascending order. -/
theorem importCmpOf_le_iff (unicodeLower : Bytes → Bytes) (a b : Bytes) :
    importCmpOf unicodeLower a b ≤ 0
      ↔ ascending (sortName unicodeLower a) (sortName unicodeLower b) := by
  unfold importCmpOf sortName
  rw [trimPrefix_type_eq_bareName, trimPrefix_type_eq_bareName, toLowerOf_eq_lowerCased,
    toLowerOf_eq_lowerCased]
  exact compare_le_iff_ascending _ _

/-- An insertion into a sorted list depends on the relation between the element and the
elements of the list only. -/
theorem orderedInsert_congr {α : Type} (r s : α → α → Prop) [DecidableRel r]
    [DecidableRel s] (a : α) :
    ∀ l : List α, (∀ b ∈ l, r a b ↔ s a b) →
      List.orderedInsert r a l = List.orderedInsert s a l := by
  intro l
  induction l with
  | nil =>
    intro _
    rfl
  | cons b l ih =>
    intro h
    simp only [List.orderedInsert]
    have hb := h b (List.mem_cons_self _ _)
    by_cases hr : r a b
    · rw [if_pos hr, if_pos (hb.1 hr)]
    · rw [if_neg hr, if_neg (fun hs => hr (hb.2 hs)),
        ih (fun c hc => h c (List.mem_cons_of_mem _ hc))]

/-- An insertion sort depends on the relation between the elements of the list only. -/
theorem insertionSort_congr {α : Type} (r s : α → α → Prop) [DecidableRel r]
    [DecidableRel s] :
    ∀ l : List α, (∀ a ∈ l, ∀ b ∈ l, r a b ↔ s a b) →
      List.insertionSort r l = List.insertionSort s l := by
  intro l
  induction l with
  | nil =>
    intro _
    rfl
  | cons a l ih =>
    intro h
    simp only [List.insertionSort]
    rw [ih (fun x hx y hy => h x (List.mem_cons_of_mem _ hx) y (List.mem_cons_of_mem _ hy))]
    apply orderedInsert_congr
    intro b hb
    exact h a (List.mem_cons_self _ _) b
      (List.mem_cons_of_mem _ ((List.perm_insertionSort s l).mem_iff.1 hb))

/-- What `strings.TrimPrefix` leaves of an ASCII string is ASCII. -/
theorem trimPrefix_ascii (s p : Bytes) (h : ∀ c ∈ s, c.toNat < 128) :
    ∀ c ∈ TrimPrefix s p, c.toNat < 128 := by
  intro c hc
  unfold TrimPrefix at hc
  by_cases hp : p.isPrefixOf s = true
  · rw [if_pos hp] at hc
    exact h c (List.mem_of_mem_drop hc)
  · rw [if_neg hp] at hc
    exact h c hc

/-- On ASCII text `strings.ToLower` lowers the letters `A`..`Z` and no more. -/
theorem toLowerOf_ascii (unicodeLower : Bytes → Bytes) (s : Bytes)
    (h : ∀ c ∈ s, c.toNat < 128) : ToLowerOf unicodeLower s = ToLower s := by
  unfold ToLowerOf
  rw [if_pos (List.all_eq_true.2 (fun c hc => decide_eq_true (h c hc)))]

/-- On ASCII keys the sorted list that `run` renders is the list sorted with
`strings.ToLower`, whatever the lower case of other text is. -/
theorem namedImportsOf_ascii (unicodeLower : Bytes → Bytes) (keys : List Bytes)
    (h : ∀ k ∈ keys, ∀ c ∈ k, c.toNat < 128) :
    namedImportsOf unicodeLower keys = namedImports keys := by
  unfold namedImportsOf namedImports
  apply insertionSort_congr
  intro a ha b hb
  have hcmp : importCmpOf unicodeLower a b = importCmp a b := by
    unfold importCmpOf importCmp
    rw [toLowerOf_ascii unicodeLower _ (trimPrefix_ascii a _ (h a ha)),
      toLowerOf_ascii unicodeLower _ (trimPrefix_ascii b _ (h b hb))]
  rw [hcmp]

/-- C9: for every set of required symbols (its keys distinct, in whatever order the map
yields them) and whatever the lower case of text that is not ASCII is, the symbol list
rendered in the consolidated import contains each required symbol and nothing else,
contains no symbol twice, and is ordered ascending by the lower-cased name with a leading `type `
tag stripped (the name is that of the specification, `sortName`). The same holds of
every permutation of the keys that is sorted by the comparison function of the source,
as the library sort returns one on a slice of any length. On ASCII keys the list is the
one that `importChunks` renders. -/
theorem namedImports_sorted_once (unicodeLower : Bytes → Bytes) (keys : List Bytes)
    (hnd : keys.Nodup) :
    ((∀ s, s ∈ namedImportsOf unicodeLower keys ↔ s ∈ keys)
        ∧ (namedImportsOf unicodeLower keys).Nodup
        ∧ List.Sorted
            (fun a b => ascending (sortName unicodeLower a) (sortName unicodeLower b))
            (namedImportsOf unicodeLower keys))
      ∧ (∀ out : List Bytes, out.Perm keys →
          List.Sorted (fun a b => importCmpOf unicodeLower a b ≤ 0) out →
          (∀ s, s ∈ out ↔ s ∈ keys)
            ∧ out.Nodup
            ∧ List.Sorted
                (fun a b => ascending (sortName unicodeLower a) (sortName unicodeLower b))
                out)
      ∧ ((∀ k ∈ keys, ∀ c ∈ k, c.toNat < 128) →
          namedImports keys = namedImportsOf unicodeLower keys
            ∧ ∀ t : vitestifyTask, t.vitestImports = keys → keys ≠ [] →
                importChunks t
                  = [importStatement (namedImportsOf unicodeLower keys), lit "\n"]) := by
  have hany : ∀ out : List Bytes, out.Perm keys →
      List.Sorted (fun a b => importCmpOf unicodeLower a b ≤ 0) out →
      (∀ s, s ∈ out ↔ s ∈ keys)
        ∧ out.Nodup
        ∧ List.Sorted
            (fun a b => ascending (sortName unicodeLower a) (sortName unicodeLower b))
            out := by
    intro out hperm hsorted
    refine ⟨?_, ?_, ?_⟩
    · intro s
      exact hperm.mem_iff
    · exact hperm.nodup_iff.2 hnd
    · exact List.Pairwise.imp (fun hab => (importCmpOf_le_iff unicodeLower _ _).1 hab)
        hsorted
  have hsorted : List.Sorted (fun a b => importCmpOf unicodeLower a b ≤ 0)
      (namedImportsOf unicodeLower keys) := by
    haveI : IsTotal Bytes (fun a b => importCmpOf unicodeLower a b ≤ 0) :=
      ⟨fun a b => compare_total _ _⟩
    haveI : IsTrans Bytes (fun a b => importCmpOf unicodeLower a b ≤ 0) :=
      ⟨fun a b c => compare_trans _ _ _⟩
    exact List.sorted_insertionSort (fun a b => importCmpOf unicodeLower a b ≤ 0) keys
  refine ⟨hany _ (List.perm_insertionSort _ _) hsorted, hany, ?_⟩
  intro hascii
  have heq := namedImportsOf_ascii unicodeLower keys hascii
  refine ⟨heq.symm, ?_⟩
  intro t ht hne
  unfold importChunks
  rw [if_pos (by rw [ht]; exact List.length_pos.2 hne), ht, heq]

/-- C9, witness: `type Mock` sorts as `mock`, between `expect` and `test`, not under
`t` after `test` and not, as `Mock`, before `expect`; and with the lower case of the
Latin-1 letters, `à` comes before `É`, which sorts as `é`. -/
theorem namedImports_sorted_once_witness :
    List.Sorted
        (fun a b => ascending (sortName latin1Lower a) (sortName latin1Lower b))
        (namedImportsOf latin1Lower [lit "vi", lit "type Mock", lit "test", lit "expect"])
      ∧ namedImportsOf latin1Lower [lit "vi", lit "type Mock", lit "test", lit "expect"]
          = [lit "expect", lit "type Mock", lit "test", lit "vi"]
      ∧ namedImports [lit "vi", lit "type Mock", lit "test", lit "expect"]
          = [lit "expect", lit "type Mock", lit "test", lit "vi"]
      ∧ sortName latin1Lower (lit "type Mock") = lit "mock"
      ∧ List.Sorted
          (fun a b => ascending (sortName latin1Lower a) (sortName latin1Lower b))
          (namedImportsOf latin1Lower [lit "expect", [195, 137], [195, 160]])
      ∧ namedImportsOf latin1Lower [lit "expect", [195, 137], [195, 160]]
          = [lit "expect", [195, 160], [195, 137]]
      ∧ sortName latin1Lower [195, 137] = [195, 169] :=
  ⟨(namedImports_sorted_once latin1Lower
      [lit "vi", lit "type Mock", lit "test", lit "expect"] (by decide)).1.2.2,
    by decide, by decide, by decide,
    (namedImports_sorted_once latin1Lower
      [lit "expect", [195, 137], [195, 160]] (by decide)).1.2.2,
    by decide, by decide⟩

/-- `strings.Join` is the concatenation of the elements with the separator between
them. -/
theorem join_eq_intercalate (sep : Bytes) :
    ∀ names : List Bytes, Join names sep = sep.intercalate names := by
  intro names
  induction names with
  | nil => rfl
  | cons a rest ih =>
    cases rest with
    | nil => simp [Join, List.intercalate]
    | cons b l =>
      simp only [Join, ih, List.intercalate, List.intersperse_cons₂, List.flatten_cons,
        List.append_assoc]

/-- The indented body of the multi-line form: two spaces before the list joined with a
comma, a newline and two spaces is each symbol indented, the lines joined with a comma
and a newline. -/
theorem join_indented :
    ∀ names : List Bytes, names ≠ [] →
      lit "  " ++ Join names (lit ",\n  ")
        = (lit ",\n").intercalate (names.map (fun s => lit "  " ++ s)) := by
  intro names
  induction names with
  | nil =>
    intro h
    exact absurd rfl h
  | cons a rest ih =>
    intro _
    cases rest with
    | nil => simp [Join, List.intercalate]
    | cons b l =>
      have ih1 := ih (by simp)
      have hsep : lit ",\n  " = lit ",\n" ++ lit "  " := by decide
      simp only [List.intercalate, List.map_cons, List.intersperse_cons₂,
        List.flatten_cons] at ih1 ⊢
      rw [← ih1]
      simp only [Join, hsep, List.append_assoc]

/-- The two forms of the consolidated import differ: the ninth byte is a space in the
single-line form and a newline in the multi-line form. -/
theorem singleLine_ne_multiLine (names : List Bytes) :
    singleLineImport names ≠ multiLineImport names := by
  intro h
  have h8 := congrArg (fun l : Bytes => l.get? 8) h
  have hs : (singleLineImport names).get? 8 = some 32 := rfl
  have hm : (multiLineImport names).get? 8 = some 10 := rfl
  simp only [hs, hm] at h8
  exact absurd h8 (by decide)

/-- The value of `importStatement` in terms of the two forms of the specification. -/
theorem importStatement_eq_forms (names : List Bytes) (hne : names ≠ []) :
    importStatement names
      = if (singleLineImport names).length ≤ CHARS_PER_LINE_MAX then singleLineImport names
        else multiLineImport names := by
  unfold importStatement
  simp only [join_indented names hne]
  simp only [join_eq_intercalate]
  by_cases hlen : (singleLineImport names).length ≤ CHARS_PER_LINE_MAX
  · rw [if_pos hlen]
    unfold singleLineImport at hlen ⊢
    rw [if_neg (by omega)]
  · rw [if_neg hlen]
    unfold singleLineImport at hlen
    rw [if_pos (by omega)]
    unfold multiLineImport
    simp only [List.append_assoc]

/-- C10: for every non-empty symbol list `s_1..s_k`, the consolidated import is rendered
as the single line `import { s_1, ..., s_k } from 'vitest';` if and only if that line is
at most `CHARS_PER_LINE_MAX` (80) bytes long; otherwise it is rendered as `import {`,
newline, each symbol on its own line indented by two spaces, the lines separated by `,`,
newline, `} from 'vitest';`. Whenever `run` returns chunks for a task whose sorted
symbols are that list, the rendered import is the first chunk and the chunk after it is
one newline. -/
theorem consolidated_import_layout (names : List Bytes) (hne : names ≠ []) :
    (importStatement names = singleLineImport names
        ↔ (singleLineImport names).length ≤ CHARS_PER_LINE_MAX)
      ∧ (¬ (singleLineImport names).length ≤ CHARS_PER_LINE_MAX →
          importStatement names = multiLineImport names)
      ∧ (∀ t : vitestifyTask, namedImports t.vitestImports = names →
          ∀ chunks, runChunks t = Outcome.ok chunks →
            ∃ rest, chunks = importStatement names :: lit "\n" :: rest) := by
  have hform := importStatement_eq_forms names hne
  refine ⟨?_, ?_, ?_⟩
  · constructor
    · intro heq
      by_contra hlen
      rw [hform, if_neg hlen] at heq
      exact singleLine_ne_multiLine names heq.symm
    · intro hlen
      rw [hform, if_pos hlen]
  · intro hlen
    rw [hform, if_neg hlen]
  · intro t hnames chunks hrun
    have hkeys : t.vitestImports.length > 0 := by
      cases hk : t.vitestImports with
      | nil =>
        rw [hk] at hnames
        exact absurd hnames.symm hne
      | cons k ks => simp
    have himp : importChunks t = [importStatement names, lit "\n"] := by
      unfold importChunks
      rw [if_pos hkeys, hnames]
    have hrep := runChunks_ok_inv t chunks hrun
    obtain ⟨cs, r1, r2, fin, hl, _, hchunks⟩ := replay_ok_inv _ _ _ _ hrep
    obtain ⟨_, _, app, happ, _⟩ :=
      replayLoop_ok_length _ _ _ _ _ hl (by simp [NewReader])
    refine ⟨esmChunks t ++ app ++ [fin], ?_⟩
    rw [hchunks, happ, himp]
    simp

/-- C10, witness: one symbol fits on one line, and `run` on the example task starts with
the rendered import followed by a newline; eight symbols take the multi-line form; a line
of exactly 80 bytes stays on one line and a line of 81 bytes does not. -/
theorem consolidated_import_layout_witness :
    ((importStatement [lit "vi"] = singleLineImport [lit "vi"]
        ↔ (singleLineImport [lit "vi"]).length ≤ CHARS_PER_LINE_MAX)
      ∧ (¬ (singleLineImport [lit "vi"]).length ≤ CHARS_PER_LINE_MAX →
          importStatement [lit "vi"] = multiLineImport [lit "vi"])
      ∧ (∀ t : vitestifyTask, namedImports t.vitestImports = [lit "vi"] →
          ∀ chunks, runChunks t = Outcome.ok chunks →
            ∃ rest, chunks = importStatement [lit "vi"] :: lit "\n" :: rest))
      ∧ importStatement [lit "vi"] = lit "import \x7b vi \x7d from 'vitest';"
      ∧ runChunks exampleTask
          = Outcome.ok [lit "import \x7b vi \x7d from 'vitest';", lit "\n",
              lit "a", lit "X", lit "cd", lit "YY", lit "f"]
      ∧ importStatement
            [lit "afterAll", lit "afterEach", lit "beforeAll", lit "beforeEach",
             lit "describe", lit "expect", lit "test", lit "vi"]
          = lit ("import \x7b\n  afterAll,\n  afterEach,\n  beforeAll,\n  beforeEach,\n"
              ++ "  describe,\n  expect,\n  test,\n  vi\n\x7d from 'vitest';")
      ∧ (importStatement [List.replicate 54 97]).length = 80
      ∧ importStatement [List.replicate 54 97] = singleLineImport [List.replicate 54 97]
      ∧ (singleLineImport [List.replicate 55 97]).length = 81
      ∧ importStatement [List.replicate 55 97] = multiLineImport [List.replicate 55 97] :=
  ⟨consolidated_import_layout [lit "vi"] (by decide), by decide, by decide, by decide,
    by decide, by decide, by decide, by decide⟩

/-! ## The rules of the walk -/

/-- A call whose callee is not a member access: the name is the text of the callee, and
there is neither a namespace node nor a property name. -/
theorem callExpressionCase_bare (self : vitestifyTask) (node nameNode : Node)
    (name : Bytes)
    (hfn : node.ChildByFieldName "function" = some nameNode)
    (hty : nameNode.type ≠ "member_expression")
    (hname : nameNode.Content self.code = some name) :
    callExpressionCase self node = callSwitches self node nameNode none name [] := by
  unfold callExpressionCase
  simp only [hfn, if_neg hty, hname]

/-- A call whose callee is a member access: the name is the text of the object, and the
property name is the text of the property. -/
theorem callExpressionCase_member (self : vitestifyTask)
    (node nameNode propertyNode namespaceNode : Node) (name propertyName : Bytes)
    (hfn : node.ChildByFieldName "function" = some nameNode)
    (hty : nameNode.type = "member_expression")
    (hp : nameNode.ChildByFieldName "property" = some propertyNode)
    (hpc : propertyNode.Content self.code = some propertyName)
    (ho : nameNode.ChildByFieldName "object" = some namespaceNode)
    (hoc : namespaceNode.Content self.code = some name) :
    callExpressionCase self node
      = callSwitches self node nameNode (some namespaceNode) name propertyName := by
  unfold callExpressionCase
  simp only [hfn, if_pos hty, hp, hpc, ho, hoc]

/-- The last statement of `processCallExpression`: after the two `switch` statements it
walks the children of the call, unless it returned from the cases `vi` and `jest`. -/
theorem processCallExpression_of_case (self st : vitestifyTask) (node : Node)
    (descend : Bool) (h : callExpressionCase self node = Outcome.ok (st, descend)) :
    processCallExpression self node
      = if descend then walkNode st node else Outcome.ok st := by
  unfold processCallExpression
  rw [h]
  cases descend <;> rfl

/-- A node has a first named child exactly when it has named children. -/
theorem namedChild_zero_iff (args : Node) :
    args.NamedChildCount > 0 ↔ ∃ first, args.NamedChild 0 = some first := by
  unfold Node.NamedChildCount Node.NamedChild Node.namedChildren
  cases List.filter Node.isNamed args.children with
  | nil => simp
  | cons a l => simp

/-- The second `switch` does nothing for a property name other than
`mockImplementation`. -/
theorem propertySwitch_of_ne (self : vitestifyTask) (node : Node) (propertyName : Bytes)
    (h : propertyName ≠ lit "mockImplementation") :
    propertySwitch self node propertyName = Outcome.ok self := by
  unfold propertySwitch
  rw [if_neg h]

/-- Two edits appended one after the other. -/
theorem addEdit_addEdit (self : vitestifyTask) (e1 e2 : codeEdit) :
    (self.addEdit e1).addEdit e2 = { self with edits := self.edits ++ [e1, e2] } := by
  simp [vitestifyTask.addEdit]

/-- C15: for every call whose callee is the bare name `advanceTimersAndPromises` (resp.
`advanceTimers`), `processCallExpression`, before it walks the children of the call,
registers `vi` as required, records an edit replacing the byte range of the callee with
`vi.advanceTimersByTimeAsync` (resp. `vi.advanceTimersByTime`), and records an edit
replacing the byte range of the argument list with `(1000)` when the call has no
arguments and with `(<text of the first argument> * 1000)` otherwise (the first argument
is the first named child of the argument list). -/
theorem timer_call_rewritten (self : vitestifyTask) (node nameNode args : Node)
    (name target : Bytes)
    (hpair : (name = lit "advanceTimersAndPromises"
                ∧ target = lit "vi.advanceTimersByTimeAsync")
              ∨ (name = lit "advanceTimers" ∧ target = lit "vi.advanceTimersByTime"))
    (hfn : node.ChildByFieldName "function" = some nameNode)
    (hty : nameNode.type ≠ "member_expression")
    (hname : nameNode.Content self.code = some name)
    (hargs : node.ChildByFieldName FIELD_FN_ARGUMENTS = some args) :
    (args.NamedChildCount = 0 →
        callExpressionCase self node
            = Outcome.ok
                ({ self with
                    vitestImports := insertKey self.vitestImports (lit "vi")
                    edits := self.edits
                      ++ [nodeEdit nameNode target, nodeEdit args (lit "(1000)")] },
                  true)
          ∧ processCallExpression self node
              = walkNode
                  { self with
                    vitestImports := insertKey self.vitestImports (lit "vi")
                    edits := self.edits
                      ++ [nodeEdit nameNode target, nodeEdit args (lit "(1000)")] }
                  node)
      ∧ (∀ first text, args.NamedChild 0 = some first →
          first.Content self.code = some text →
          callExpressionCase self node
              = Outcome.ok
                  ({ self with
                      vitestImports := insertKey self.vitestImports (lit "vi")
                      edits := self.edits
                        ++ [nodeEdit nameNode target,
                            nodeEdit args (lit "(" ++ text ++ lit " * 1000)")] },
                    true)
            ∧ processCallExpression self node
                = walkNode
                    { self with
                      vitestImports := insertKey self.vitestImports (lit "vi")
                      edits := self.edits
                        ++ [nodeEdit nameNode target,
                            nodeEdit args (lit "(" ++ text ++ lit " * 1000)")] }
                    node) := by
  have hcase := callExpressionCase_bare self node nameNode name hfn hty hname
  have hsw : ∀ st : vitestifyTask,
      timerArgsEdit
          ((self.addImport (lit "vi")).addEdit (nodeEdit nameNode target)) node
        = Outcome.ok st →
      callExpressionCase self node = Outcome.ok (st, true) := by
    intro st hst
    rw [hcase]
    rcases hpair with ⟨hn, ht⟩ | ⟨hn, ht⟩
    · subst hn
      subst ht
      unfold callSwitches
      rw [if_neg (by decide), if_neg (by decide)]
      unfold nameSwitch
      rw [if_neg (by decide), if_pos rfl, hst]
      simp only [propertySwitch_of_ne _ _ _ (show ([] : Bytes) ≠ lit "mockImplementation"
        from by decide)]
    · subst hn
      subst ht
      unfold callSwitches
      rw [if_neg (by decide), if_neg (by decide)]
      unfold nameSwitch
      rw [if_neg (by decide), if_neg (by decide), if_pos rfl, hst]
      simp only [propertySwitch_of_ne _ _ _ (show ([] : Bytes) ≠ lit "mockImplementation"
        from by decide)]
  constructor
  · intro hzero
    have hst := hsw
      { self with
        vitestImports := insertKey self.vitestImports (lit "vi")
        edits := self.edits ++ [nodeEdit nameNode target, nodeEdit args (lit "(1000)")] }
      (by
        unfold timerArgsEdit
        simp only [hargs]
        rw [if_neg (by omega), addEdit_addEdit]
        rfl)
    exact ⟨hst, by rw [processCallExpression_of_case _ _ _ _ hst]; rfl⟩
  · intro first text hfirst htext
    have hpos : args.NamedChildCount > 0 := (namedChild_zero_iff args).2 ⟨first, hfirst⟩
    have hcode : ((self.addImport (lit "vi")).addEdit (nodeEdit nameNode target)).code
        = self.code := rfl
    have hst := hsw
      { self with
        vitestImports := insertKey self.vitestImports (lit "vi")
        edits := self.edits
          ++ [nodeEdit nameNode target,
              nodeEdit args (lit "(" ++ text ++ lit " * 1000)")] }
      (by
        unfold timerArgsEdit
        simp only [hargs]
        rw [if_pos hpos]
        simp only [hfirst, hcode, htext]
        rw [addEdit_addEdit]
        rfl)
    exact ⟨hst, by rw [processCallExpression_of_case _ _ _ _ hst]; rfl⟩

/-- C15, witness: `advanceTimers(5)` and `advanceTimersAndPromises()` of `srcTimers`. -/
theorem timer_call_rewritten_witness :
    (callExpressionCase (newVitestifyTask srcTimers) callAdvanceTimers).map
        (fun p => (p.1.vitestImports, p.1.edits, p.2))
      = Outcome.ok
          ([lit "vi"],
            [{ startByte := 29, endByte := 42, replacement := lit "vi.advanceTimersByTime" },
             { startByte := 42, endByte := 45, replacement := lit "(5 * 1000)" }],
            true)
      ∧ (callExpressionCase (newVitestifyTask srcTimers) callAdvanceTimersAndPromises).map
          (fun p => (p.1.vitestImports, p.1.edits, p.2))
        = Outcome.ok
            ([lit "vi"],
              [{ startByte := 1, endByte := 25,
                 replacement := lit "vi.advanceTimersByTimeAsync" },
               { startByte := 25, endByte := 27, replacement := lit "(1000)" }],
              true) := by
  constructor
  · rw [((timer_call_rewritten (newVitestifyTask srcTimers) callAdvanceTimers
        (nd "identifier" 29 42 (some "function") [])
        (nd "arguments" 42 45 (some "arguments")
          [tok "(" 42 43, nd "number" 43 44 none [], tok ")" 44 45])
        (lit "advanceTimers") (lit "vi.advanceTimersByTime")
        (Or.inr ⟨rfl, rfl⟩) rfl (by decide) (by decide) rfl).2
        (nd "number" 43 44 none []) (lit "5") rfl (by decide)).1]
    decide
  · rw [((timer_call_rewritten (newVitestifyTask srcTimers) callAdvanceTimersAndPromises
        (nd "identifier" 1 25 (some "function") [])
        (nd "arguments" 25 27 (some "arguments") [tok "(" 25 26, tok ")" 26 27])
        (lit "advanceTimersAndPromises") (lit "vi.advanceTimersByTimeAsync")
        (Or.inl ⟨rfl, rfl⟩) rfl (by decide) (by decide) rfl).1
        (by decide)).1]
    decide

/-- The first `switch` records no edit and returns no error for a name other than the
two timer functions. -/
theorem nameSwitch_edits (self : vitestifyTask) (node nameNode : Node)
    (namespaceNode : Option Node) (name : Bytes)
    (h1 : name ≠ lit "advanceTimersAndPromises") (h2 : name ≠ lit "advanceTimers") :
    ∃ st, nameSwitch self node nameNode namespaceNode name = Outcome.ok st
      ∧ st.edits = self.edits ∧ st.code = self.code := by
  unfold nameSwitch
  by_cases h0 : name = lit "userEvent"
  · rw [if_pos h0]
    exact ⟨_, rfl, rfl, rfl⟩
  · rw [if_neg h0, if_neg h1, if_neg h2]
    split_ifs <;> exact ⟨_, rfl, rfl, rfl⟩

/-- The first `switch` for a lifecycle name: the name is registered, except `it` with a
namespace node. -/
theorem nameSwitch_lifecycle (self : vitestifyTask) (node nameNode : Node)
    (namespaceNode : Option Node) (name : Bytes) (hmem : name ∈ lifecycleNames) :
    nameSwitch self node nameNode namespaceNode name
      = Outcome.ok
          (if name = lit "it" ∧ namespaceNode.isSome = true then self
            else self.addImport name) := by
  simp only [lifecycleNames, List.mem_cons, List.mem_singleton, List.not_mem_nil,
    or_false] at hmem
  rcases hmem with h | h | h | h | h | h | h | h <;> subst h
  · rfl
  · rfl
  · rfl
  · rfl
  · rfl
  · rfl
  · cases namespaceNode <;> rfl
  · rfl

/-- The two `switch` statements for a lifecycle name and a property name other than
`mockImplementation`. -/
theorem callSwitches_lifecycle (self : vitestifyTask) (node nameNode : Node)
    (namespaceNode : Option Node) (name propertyName : Bytes)
    (hmem : name ∈ lifecycleNames) (hprop : propertyName ≠ lit "mockImplementation") :
    callSwitches self node nameNode namespaceNode name propertyName
      = Outcome.ok
          (if name = lit "it" ∧ namespaceNode.isSome = true then self
            else self.addImport name, true) := by
  have hvi : name ≠ lit "vi" := by
    intro h
    subst h
    exact absurd hmem (by decide)
  have hjest : name ≠ lit "jest" := by
    intro h
    subst h
    exact absurd hmem (by decide)
  unfold callSwitches
  rw [if_neg hvi, if_neg hjest, nameSwitch_lifecycle _ _ _ _ _ hmem]
  simp only [propertySwitch_of_ne _ _ _ hprop]

/-- C17 (amended): for every call expression whose callee is a bare name in `afterAll`,
`afterEach`, `beforeAll`, `beforeEach`, `describe`, `expect`, `it`, `test`, or a member
access whose object text is one of those names other than `it` and whose property is
not `mockImplementation`, `processCallExpression`, before it walks the children of the
call, adds exactly that name to the required-import set and records no edit; a member
access on `it` (such as `it.next()`) registers nothing. -/
theorem lifecycle_call_registered (self : vitestifyTask) (node nameNode : Node)
    (name : Bytes)
    (hfn : node.ChildByFieldName "function" = some nameNode)
    (hmem : name ∈ lifecycleNames) :
    (nameNode.type ≠ "member_expression" → nameNode.Content self.code = some name →
        callExpressionCase self node
            = Outcome.ok
                ({ self with vitestImports := insertKey self.vitestImports name }, true)
          ∧ processCallExpression self node
              = walkNode { self with vitestImports := insertKey self.vitestImports name }
                  node)
      ∧ (∀ (propertyNode namespaceNode : Node) (propertyName : Bytes),
          nameNode.type = "member_expression" →
          nameNode.ChildByFieldName "property" = some propertyNode →
          propertyNode.Content self.code = some propertyName →
          nameNode.ChildByFieldName "object" = some namespaceNode →
          namespaceNode.Content self.code = some name →
          propertyName ≠ lit "mockImplementation" →
          callExpressionCase self node
              = Outcome.ok
                  (if name = lit "it" then self
                    else { self with vitestImports := insertKey self.vitestImports name },
                    true)
            ∧ processCallExpression self node
                = walkNode
                    (if name = lit "it" then self
                      else { self with vitestImports := insertKey self.vitestImports name })
                    node) := by
  constructor
  · intro hty hname
    have hcase : callExpressionCase self node
        = Outcome.ok
            ({ self with vitestImports := insertKey self.vitestImports name }, true) := by
      rw [callExpressionCase_bare self node nameNode name hfn hty hname,
        callSwitches_lifecycle _ _ _ _ _ _ hmem (by decide)]
      simp [vitestifyTask.addImport]
    exact ⟨hcase, by rw [processCallExpression_of_case _ _ _ _ hcase]; rfl⟩
  · intro propertyNode namespaceNode propertyName hty hp hpc ho hoc hprop
    have hcase : callExpressionCase self node
        = Outcome.ok
            (if name = lit "it" then self
              else { self with vitestImports := insertKey self.vitestImports name },
              true) := by
      rw [callExpressionCase_member self node nameNode propertyNode namespaceNode name
          propertyName hfn hty hp hpc ho hoc,
        callSwitches_lifecycle _ _ _ _ _ _ hmem hprop]
      simp [vitestifyTask.addImport]
    exact ⟨hcase, by rw [processCallExpression_of_case _ _ _ _ hcase]; rfl⟩

/-- C17, witness: the bare call `expect(1)` registers `expect`; the member call
`it.each()` registers nothing. -/
theorem lifecycle_call_registered_witness :
    (callExpressionCase (newVitestifyTask srcTestAfterNewline) callExpectOne).map
        (fun p => (p.1.vitestImports, p.1.edits, p.2))
      = Outcome.ok ([lit "expect"], [], true)
      ∧ (callExpressionCase (newVitestifyTask srcMockImplementation) callItEach).map
          (fun p => (p.1.vitestImports, p.1.edits, p.2))
        = Outcome.ok ([], [], true) := by
  constructor
  · rw [((lifecycle_call_registered (newVitestifyTask srcTestAfterNewline) callExpectOne
        (nd "identifier" 19 25 (some "function") []) (lit "expect") rfl (by decide)).1
        (by decide) (by decide)).1]
    decide
  · rw [((lifecycle_call_registered (newVitestifyTask srcMockImplementation) callItEach
        (nd "member_expression" 81 88 (some "function")
          [nd "identifier" 81 83 (some "object") [], tok "." 83 84,
           nd "property_identifier" 84 88 (some "property") []])
        (lit "it") rfl (by decide)).2
        (nd "property_identifier" 84 88 (some "property") [])
        (nd "identifier" 81 83 (some "object") []) (lit "each")
        (by decide) rfl (by decide) rfl (by decide) (by decide)).1]
    decide

/-- C17, counterexample: the callee of `expect.mockImplementation()` is a member access
whose object text is `expect`; the name is registered, and an edit is recorded for the
call: its empty argument list is replaced. -/
theorem lifecycle_member_call_records_edit :
    lit "expect" ∈ lifecycleNames
      ∧ (callExpressionCase (newVitestifyTask srcMockImplementation)
            callExpectMockImplementation).map
          (fun p => (p.1.vitestImports, p.1.edits, p.2))
        = Outcome.ok
            ([lit "expect"],
              [{ startByte := 77, endByte := 79, replacement := lit "(() => \x7b\x7d)" }],
              true) := by
  decide

/-- C16 (amended): for every call expression whose callee is a member access with
property name `mockImplementation` and whose object text is none of `vi`, `jest`,
`advanceTimersAndPromises` and `advanceTimers`: if the argument list has zero arguments,
exactly one edit is recorded for the call, replacing the byte range of the argument list
with `(() => {})`; if it has at least one argument, no edit is recorded. When the object
text is `vi`, `processCallExpression` returns from the first `switch` and records no
edit at all. -/
theorem mockImplementation_default (self : vitestifyTask)
    (node nameNode propertyNode namespaceNode args : Node) (name : Bytes)
    (hfn : node.ChildByFieldName "function" = some nameNode)
    (hty : nameNode.type = "member_expression")
    (hp : nameNode.ChildByFieldName "property" = some propertyNode)
    (hpc : propertyNode.Content self.code = some (lit "mockImplementation"))
    (ho : nameNode.ChildByFieldName "object" = some namespaceNode)
    (hoc : namespaceNode.Content self.code = some name)
    (hargs : node.ChildByFieldName FIELD_FN_ARGUMENTS = some args) :
    (name ≠ lit "vi" → name ≠ lit "jest" → name ≠ lit "advanceTimersAndPromises" →
        name ≠ lit "advanceTimers" →
        ∃ st, callExpressionCase self node = Outcome.ok (st, true)
          ∧ st.edits
              = self.edits
                  ++ (if args.NamedChildCount = 0 then
                        [nodeEdit args (lit "(() => \x7b\x7d)")]
                      else []))
      ∧ (name = lit "vi" →
          callExpressionCase self node
            = Outcome.ok
                ({ self with vitestImports := insertKey self.vitestImports (lit "vi") },
                  false)) := by
  have hcase := callExpressionCase_member self node nameNode propertyNode namespaceNode
    name (lit "mockImplementation") hfn hty hp hpc ho hoc
  constructor
  · intro hvi hjest h1 h2
    obtain ⟨st, hst, hedits, _⟩ :=
      nameSwitch_edits self node nameNode (some namespaceNode) name h1 h2
    rw [hcase]
    unfold callSwitches
    rw [if_neg hvi, if_neg hjest, hst]
    unfold propertySwitch
    simp only [if_true, hargs]
    by_cases hzero : args.NamedChildCount = 0
    · rw [if_pos hzero, if_pos hzero]
      exact ⟨_, rfl, by simp [vitestifyTask.addEdit, hedits]⟩
    · rw [if_neg hzero, if_neg hzero]
      exact ⟨_, rfl, by simp [hedits]⟩
  · intro hvi
    rw [hcase]
    unfold callSwitches
    rw [if_pos hvi]
    rfl

/-- C16, witness: `spy.mockImplementation()` gets the default argument. -/
theorem mockImplementation_default_witness :
    ∃ st, callExpressionCase (newVitestifyTask srcMockImplementation)
              callSpyMockImplementation
            = Outcome.ok (st, true)
      ∧ st.edits = [{ startByte := 23, endByte := 25, replacement := lit "(() => \x7b\x7d)" }] :=
  (mockImplementation_default (newVitestifyTask srcMockImplementation)
      callSpyMockImplementation
      (nd "member_expression" 1 23 (some "function")
        [nd "identifier" 1 4 (some "object") [], tok "." 4 5,
         nd "property_identifier" 5 23 (some "property") []])
      (nd "property_identifier" 5 23 (some "property") [])
      (nd "identifier" 1 4 (some "object") [])
      (nd "arguments" 23 25 (some "arguments") [tok "(" 23 24, tok ")" 24 25])
      (lit "spy") rfl (by decide) rfl (by decide) rfl (by decide) rfl).1
    (by decide) (by decide) (by decide) (by decide)

/-- C16, counterexample: the callee of `vi.mockImplementation()` is a member access with
property name `mockImplementation` and the argument list is empty, yet no edit is
recorded: the case `vi` returns before the property is looked at. -/
theorem mockImplementation_on_vi_records_no_edit :
    (callExpressionCase (newVitestifyTask srcMockImplementation)
          callViMockImplementation).map
        (fun p => (p.1.vitestImports, p.1.edits, p.2))
      = Outcome.ok ([lit "vi"], [], false)
      ∧ (processCallExpression (newVitestifyTask srcMockImplementation)
            callViMockImplementation).map
          (fun t => t.edits)
        = Outcome.ok [] := by
  decide

/-! ## The loop of the walk -/

/-- The loop over no children. -/
theorem walkNodeLoop_nil (parentType : String) (self : vitestifyTask) :
    walkNodeLoop parentType [] self = Outcome.ok self := by
  rw [walkNodeLoop]

/-- One turn of the loop. -/
theorem walkNodeLoop_cons (parentType : String) (node : Node) (rest : List Node)
    (self : vitestifyTask) :
    walkNodeLoop parentType (node :: rest) self
      = if node.isNamed then
          match walkNodeStep parentType node self with
          | Outcome.ok self1 => walkNodeLoop parentType rest self1
          | Outcome.error err => Outcome.error err
          | Outcome.panic => Outcome.panic
        else walkNodeLoop parentType rest self := by
  rw [walkNodeLoop]

/-- The turn of the loop for an import statement. -/
theorem walkNodeStep_import (parentType : String) (node : Node) (self : vitestifyTask)
    (h : node.type = NODE_IMPORT_STATEMENT) :
    walkNodeStep parentType node self = importStatementCase self node := by
  cases node with
  | mk type startByte endByte named field children =>
    simp only [Node.type] at h
    rw [walkNodeStep, if_pos h]

/-- The turn of the loop for a call expression: `processCallExpression`. -/
theorem walkNodeStep_call (parentType : String) (node : Node) (self : vitestifyTask)
    (h : node.type = NODE_CALL_EXPRESSION) :
    walkNodeStep parentType node self = processCallExpression self node := by
  cases node with
  | mk type startByte endByte named field children =>
    simp only [Node.type] at h
    subst h
    rw [walkNodeStep, if_neg (by decide), if_pos rfl]
    rfl

/-- The turn of the loop for an identifier. -/
theorem walkNodeStep_identifier (parentType : String) (node : Node)
    (self : vitestifyTask) (h : node.type = NODE_IDENTIFIER) :
    walkNodeStep parentType node self = identifierCase self parentType node := by
  cases node with
  | mk type startByte endByte named field children =>
    simp only [Node.type] at h
    subst h
    rw [walkNodeStep, if_neg (by decide), if_neg (by decide), if_pos rfl]

/-- The turn of the loop for a nested type identifier. -/
theorem walkNodeStep_nestedType (parentType : String) (node : Node)
    (self : vitestifyTask) (h : node.type = NODE_NESTED_TYPE_IDENTIFIER) :
    walkNodeStep parentType node self = nestedTypeCase self node := by
  cases node with
  | mk type startByte endByte named field children =>
    simp only [Node.type] at h
    subst h
    rw [walkNodeStep, if_neg (by decide), if_neg (by decide), if_neg (by decide),
      if_pos rfl]

/-- The turn of the loop for a node of any other kind: the walk of its children. -/
theorem walkNodeStep_default (parentType : String) (node : Node) (self : vitestifyTask)
    (h1 : node.type ≠ NODE_IMPORT_STATEMENT) (h2 : node.type ≠ NODE_CALL_EXPRESSION)
    (h3 : node.type ≠ NODE_IDENTIFIER) (h4 : node.type ≠ NODE_NESTED_TYPE_IDENTIFIER) :
    walkNodeStep parentType node self = walkNode self node := by
  cases node with
  | mk type startByte endByte named field children =>
    simp only [Node.type] at h1 h2 h3 h4
    rw [walkNodeStep, if_neg h1, if_neg h2, if_neg h3, if_neg h4]
    rfl

/-- The loop over a list of children in two parts. -/
theorem walkNodeLoop_append (parentType : String) :
    ∀ (pre rest : List Node) (self : vitestifyTask),
      walkNodeLoop parentType (pre ++ rest) self
        = match walkNodeLoop parentType pre self with
          | Outcome.ok self1 => walkNodeLoop parentType rest self1
          | Outcome.error err => Outcome.error err
          | Outcome.panic => Outcome.panic := by
  intro pre
  induction pre with
  | nil =>
    intro rest self
    simp [walkNodeLoop_nil]
  | cons node pre ih =>
    intro rest self
    rw [List.cons_append, walkNodeLoop_cons, walkNodeLoop_cons]
    by_cases hn : node.isNamed = true
    · rw [if_pos hn, if_pos hn]
      cases walkNodeStep parentType node self with
      | ok self1 => exact ih rest self1
      | error err => rfl
      | panic => rfl
    · rw [if_neg hn, if_neg hn]
      exact ih rest self

/-- An error of one turn is the error of the loop: the children after it are not
visited. -/
theorem walkNodeLoop_error_of_step (parentType : String) (pre post : List Node)
    (node : Node) (self0 self : vitestifyTask) (err : GoError)
    (hnamed : node.isNamed = true)
    (hpre : walkNodeLoop parentType pre self0 = Outcome.ok self)
    (hstep : walkNodeStep parentType node self = Outcome.error err) :
    walkNodeLoop parentType (pre ++ node :: post) self0 = Outcome.error err := by
  rw [walkNodeLoop_append, hpre]
  simp only
  rw [walkNodeLoop_cons, if_pos hnamed, hstep]

/-! ## `run` as a whole -/

/-- A source that `regexJestReference` does not match is not parsed: `run` returns the
noop sentinel. -/
theorem run_noop_of_no_match (parse : Bytes → Outcome Node) (code : Bytes)
    (h : regexJestReference code = false) :
    run parse code = Outcome.error GoError.noop := by
  unfold run
  rw [h]
  rfl

/-- A source that `regexJestReference` matches is parsed and walked, and `run` goes on
from the task that the walk leaves. -/
theorem run_of_match (parse : Bytes → Outcome Node) (code : Bytes)
    (h : regexJestReference code = true) :
    run parse code
      = match parse code with
        | Outcome.error err => Outcome.error err
        | Outcome.panic => Outcome.panic
        | Outcome.ok root =>
          match walkNode (newVitestifyTask code) root with
          | Outcome.error err => Outcome.error err
          | Outcome.panic => Outcome.panic
          | Outcome.ok self => runAfterWalk self := by
  unfold run
  rw [h]
  rfl

/-! ## Types of the `jest` namespace -/

/-- An error of the turn for a node that the walk comes to is the error of the loop, of
every loop around it and of the walk: nothing is visited after it. -/
theorem walkNodeLoop_error_of_reached (target : Node) (targetParent : String)
    (found : vitestifyTask) (err : GoError)
    (hstep : walkNodeStep targetParent target found = Outcome.error err) :
    ∀ (parentType : String) (nodes : List Node) (self : vitestifyTask),
      WalkReaches target targetParent found parentType nodes self →
      walkNodeLoop parentType nodes self = Outcome.error err := by
  intro parentType nodes self h
  induction h with
  | here rest hnamed =>
    rw [walkNodeLoop_cons, if_pos hnamed, hstep]
  | unnamed parentType node rest self hnode _ ih =>
    rw [walkNodeLoop_cons, if_neg (by simp [hnode])]
    exact ih
  | after parentType node rest self self1 hnode hturn _ ih =>
    rw [walkNodeLoop_cons, if_pos hnode, hturn]
    exact ih
  | intoCall parentType node rest self self1 hnode hcall hcase _ ih =>
    have hturn : walkNodeStep parentType node self = Outcome.error err := by
      rw [walkNodeStep_call parentType node self hcall,
        processCallExpression_of_case self self1 node true hcase, if_pos rfl]
      exact ih
    rw [walkNodeLoop_cons, if_pos hnode, hturn]
  | into parentType node rest self hnode h1 h2 h3 h4 _ ih =>
    have hturn : walkNodeStep parentType node self = Outcome.error err := by
      rw [walkNodeStep_default parentType node self h1 h2 h3 h4]
      exact ih
    rw [walkNodeLoop_cons, if_pos hnode, hturn]

/-- C13 (amended): for every qualified type reference under the `jest` namespace whose
member name is not in the catalogue `typeImports`, `processJestType` returns an error
whose message is `unhandled jest type: jest.<name>`. When the walk comes to the
reference (a nested type identifier whose text holds `jest`), the turn of the loop of
`walkNode` for it returns that error, so do the loop it stands in, every loop around it
and `walkNode` on the root; and `run` returns that error and no text when
`regexJestReference` matches the source. -/
theorem unknown_jest_type_fails (self : vitestifyTask) (node nameNode : Node)
    (name : Bytes)
    (hname : node.ChildByFieldName "name" = some nameNode)
    (hcontent : nameNode.Content self.code = some name)
    (hunknown : name ∉ typeImports) :
    processJestType self node = Outcome.error (GoError.unhandledJestType name)
      ∧ (∀ file rootPath : Bytes,
          (GoError.unhandledJestType name).Error file rootPath
            = lit "unhandled jest type: jest." ++ name)
      ∧ (∀ (targetParent : String) (text : Bytes),
          node.type = NODE_NESTED_TYPE_IDENTIFIER →
          node.Content self.code = some text → Contains text (lit "jest") = true →
          walkNodeStep targetParent node self
              = Outcome.error (GoError.unhandledJestType name)
            ∧ (∀ (parentType : String) (nodes : List Node) (self0 : vitestifyTask),
                WalkReaches node targetParent self parentType nodes self0 →
                walkNodeLoop parentType nodes self0
                  = Outcome.error (GoError.unhandledJestType name))
            ∧ (∀ (root : Node) (self0 : vitestifyTask),
                WalkReaches node targetParent self root.type root.children self0 →
                walkNode self0 root = Outcome.error (GoError.unhandledJestType name))
            ∧ (∀ (parse : Bytes → Outcome Node) (code : Bytes) (root : Node),
                regexJestReference code = true → parse code = Outcome.ok root →
                WalkReaches node targetParent self root.type root.children
                  (newVitestifyTask code) →
                run parse code = Outcome.error (GoError.unhandledJestType name))) := by
  have hjt : processJestType self node = Outcome.error (GoError.unhandledJestType name) := by
    simp only [typeImports, List.mem_cons, List.mem_singleton, List.not_mem_nil, or_false,
      not_or] at hunknown
    obtain ⟨h1, _, h3, _, h5, h6, h7, h8⟩ := hunknown
    unfold processJestType
    simp only [hname, hcontent]
    rw [if_neg h1, if_neg h3, if_neg h5, if_neg h6, if_neg h7, if_neg h8]
  refine ⟨hjt, ?_, ?_⟩
  · intro file rootPath
    rfl
  · intro targetParent text hty htext hjest
    have hstep : walkNodeStep targetParent node self
        = Outcome.error (GoError.unhandledJestType name) := by
      rw [walkNodeStep_nestedType targetParent node self hty]
      unfold nestedTypeCase
      simp only [htext, hjest]
      exact hjt
    have hloop := walkNodeLoop_error_of_reached node targetParent self _ hstep
    refine ⟨hstep, hloop, ?_, ?_⟩
    · intro root self0 hreach
      exact hloop root.type root.children self0 hreach
    · intro parse code root hre hparse hreach
      have hwalk : walkNode (newVitestifyTask code) root
          = Outcome.error (GoError.unhandledJestType name) :=
        hloop root.type root.children (newVitestifyTask code) hreach
      rw [run_of_match parse code hre, hparse]
      simp only [hwalk]

/-- The walk of `treeUnknownType` comes to the type `jest.Foo` with the task it started
on: through the declaration and the declarator, after the turn for the name `a`, through
the type annotation. -/
theorem reaches_typeJestFoo :
    WalkReaches typeJestFoo "type_annotation" (newVitestifyTask srcUnknownType)
      treeUnknownType.type treeUnknownType.children (newVitestifyTask srcUnknownType) :=
  WalkReaches.into _ _ _ _ rfl (by decide) (by decide) (by decide) (by decide)
    (WalkReaches.unnamed _ _ _ _ rfl
      (WalkReaches.into _ _ _ _ rfl (by decide) (by decide) (by decide) (by decide)
        (WalkReaches.after _ _ _ _ (newVitestifyTask srcUnknownType) rfl rfl
          (WalkReaches.into _ _ _ _ rfl (by decide) (by decide) (by decide) (by decide)
            (WalkReaches.unnamed _ _ _ _ rfl
              (WalkReaches.here _ rfl))))))

/-- The walk of `treeUnknownTypeInCallback` comes to the type `jest.Foo` after the turn
for the parameter `a`: through the statement, the call of `spy` (which is walked), its
arguments, the arrow function, its parameters, the parameter and the type annotation. -/
theorem reaches_typeJestFooInCallback :
    WalkReaches typeJestFooInCallback "type_annotation"
      (newVitestifyTask srcUnknownTypeInCallback)
      treeUnknownTypeInCallback.type treeUnknownTypeInCallback.children
      (newVitestifyTask srcUnknownTypeInCallback) :=
  WalkReaches.into _ _ _ _ rfl (by decide) (by decide) (by decide) (by decide)
    (WalkReaches.intoCall _ _ _ _ (newVitestifyTask srcUnknownTypeInCallback) rfl rfl rfl
      (WalkReaches.after _ _ _ _ (newVitestifyTask srcUnknownTypeInCallback) rfl rfl
        (WalkReaches.into _ _ _ _ rfl (by decide) (by decide) (by decide) (by decide)
          (WalkReaches.unnamed _ _ _ _ rfl
            (WalkReaches.into _ _ _ _ rfl (by decide) (by decide) (by decide) (by decide)
              (WalkReaches.into _ _ _ _ rfl (by decide) (by decide) (by decide) (by decide)
                (WalkReaches.unnamed _ _ _ _ rfl
                  (WalkReaches.into _ _ _ _ rfl (by decide) (by decide) (by decide)
                    (by decide)
                    (WalkReaches.after _ _ _ _ (newVitestifyTask srcUnknownTypeInCallback)
                      rfl rfl
                      (WalkReaches.into _ _ _ _ rfl (by decide) (by decide) (by decide)
                        (by decide)
                        (WalkReaches.unnamed _ _ _ _ rfl
                          (WalkReaches.here _ rfl))))))))))))

/-- C13, witness: the type `jest.Foo` of `srcUnknownType`, to which the walk comes
through the declaration, and the type `jest.Foo` of a parameter of a callback passed to
`spy`, to which the walk comes through the call; `run` returns the error on both
sources. -/
theorem unknown_jest_type_fails_witness :
    processJestType (newVitestifyTask srcUnknownType) typeJestFoo
        = Outcome.error (GoError.unhandledJestType (lit "Foo"))
      ∧ run (fun _ => Outcome.ok treeUnknownType) srcUnknownType
        = Outcome.error (GoError.unhandledJestType (lit "Foo"))
      ∧ run (fun _ => Outcome.ok treeUnknownTypeInCallback) srcUnknownTypeInCallback
        = Outcome.error (GoError.unhandledJestType (lit "Foo"))
      ∧ (GoError.unhandledJestType (lit "Foo")).Error (lit "a.test.ts") (lit "a.test.ts")
        = lit "unhandled jest type: jest.Foo" :=
  ⟨(unknown_jest_type_fails (newVitestifyTask srcUnknownType) typeJestFoo
      (nd "type_identifier" 13 16 (some "name") []) (lit "Foo") rfl (by decide)
      (by decide)).1,
    ((unknown_jest_type_fails (newVitestifyTask srcUnknownType) typeJestFoo
      (nd "type_identifier" 13 16 (some "name") []) (lit "Foo") rfl (by decide)
      (by decide)).2.2 "type_annotation" (lit "jest.Foo") rfl (by decide)
        (by decide)).2.2.2
      (fun _ => Outcome.ok treeUnknownType) srcUnknownType treeUnknownType (by decide) rfl
      reaches_typeJestFoo,
    ((unknown_jest_type_fails (newVitestifyTask srcUnknownTypeInCallback)
      typeJestFooInCallback
      (nd "type_identifier" 14 17 (some "name") []) (lit "Foo") rfl (by decide)
      (by decide)).2.2 "type_annotation" (lit "jest.Foo") rfl (by decide)
        (by decide)).2.2.2
      (fun _ => Outcome.ok treeUnknownTypeInCallback) srcUnknownTypeInCallback
      treeUnknownTypeInCallback (by decide) rfl reaches_typeJestFooInCallback,
    by decide⟩

/-- C13, counterexample: in `srcTypeInJestCall` the type `jest.Foo`, which
`processJestType` refuses, stands among the type arguments of the call `jest.fn`. The
case `jest` of `processCallExpression` records the edit of the namespace and returns
without walking the call, so the walk never comes to the type: `run` returns the
rewritten text with `jest.Foo` in it. And when the statement of `srcUnknownType` is the
first line of the file, `regexJestReference` does not match (it asks for a line break
before the reference) and `run` returns the noop sentinel. -/
theorem unknown_jest_type_in_jest_call_is_kept :
    processJestType (newVitestifyTask srcTypeInJestCall) typeJestFooInCall
        = Outcome.error (GoError.unhandledJestType (lit "Foo"))
      ∧ run (fun _ => Outcome.ok treeTypeInJestCall) srcTypeInJestCall
        = Outcome.ok
            (lit "import \x7b vi \x7d from 'vitest';\n\nconst f = vi.fn<jest.Foo>();\n")
      ∧ run (fun _ => Outcome.ok treeUnknownTypeFirstLine) srcUnknownTypeFirstLine
        = Outcome.error GoError.noop :=
  ⟨rfl, by decide!, by decide!⟩

/-- C14 (amended): for every name among `CustomMatcherResult`, `Mock`, `Mocked`,
`MockedClass`, `MockedFunction` and `SpyInstance`, `processJestType` on the type
reference `jest.<name>` succeeds and records exactly one edit covering the whole
qualified type node; for `Mock`, `Mocked`, `MockedClass` and `MockedFunction` the
replacement is the bare name and `type <name>` is registered as required, for
`SpyInstance` the replacement is `MockInstance` with `type MockInstance` registered, and
for `CustomMatcherResult` the replacement is the object type written out with nothing
registered. For the two other names of `typeImports`, `ExpectationResult` and
`MockInstance`, `processJestType` has no case and returns the error
`unhandled jest type: jest.<name>`. -/
theorem processJestType_handled (self : vitestifyTask) (node nameNode : Node)
    (name : Bytes)
    (hname : node.ChildByFieldName "name" = some nameNode)
    (hcontent : nameNode.Content self.code = some name) :
    (name ∈ [lit "CustomMatcherResult", lit "Mock", lit "Mocked", lit "MockedClass",
              lit "MockedFunction", lit "SpyInstance"] →
        processJestType self node
          = Outcome.ok
              { self with
                edits := self.edits ++ [nodeEdit node (claimedTypeReplacement name)]
                vitestImports :=
                  match claimedTypeImport name with
                  | some key => insertKey self.vitestImports key
                  | none => self.vitestImports })
      ∧ (name = lit "ExpectationResult" ∨ name = lit "MockInstance" →
          processJestType self node = Outcome.error (GoError.unhandledJestType name)) := by
  constructor
  · intro hmem
    simp only [List.mem_cons, List.mem_singleton, List.not_mem_nil, or_false] at hmem
    unfold processJestType
    simp only [hname, hcontent]
    rcases hmem with h | h | h | h | h | h <;> subst h <;> rfl
  · intro hmem
    unfold processJestType
    simp only [hname, hcontent]
    rcases hmem with h | h <;> subst h <;> rfl

/-- C14, witness: `jest.SpyInstance` becomes `MockInstance` and registers
`type MockInstance`. -/
theorem processJestType_handled_witness :
    (processJestType (newVitestifyTask srcSpyInstance) typeJestSpyInstance).map
        (fun t => (t.vitestImports, t.edits))
      = Outcome.ok
          ([lit "type MockInstance"],
            [{ startByte := 8, endByte := 24, replacement := lit "MockInstance" }]) := by
  rw [(processJestType_handled (newVitestifyTask srcSpyInstance) typeJestSpyInstance
      (nd "type_identifier" 13 24 (some "name") []) (lit "SpyInstance") rfl
      (by decide)).1 (by decide)]
  decide

/-- C14, counterexample: `ExpectationResult` is a name of the catalogue `typeImports`,
yet `processJestType` on `jest.ExpectationResult` returns an error and records no edit;
`run` on a source with that type returns the error. -/
theorem processJestType_fails_on_ExpectationResult :
    lit "ExpectationResult" ∈ typeImports
      ∧ processJestType (newVitestifyTask srcExpectationResult) typeJestExpectationResult
        = Outcome.error (GoError.unhandledJestType (lit "ExpectationResult"))
      ∧ run (fun _ => Outcome.ok treeExpectationResult) srcExpectationResult
        = Outcome.error (GoError.unhandledJestType (lit "ExpectationResult")) :=
  ⟨by decide, rfl, by decide⟩

/-! ## The noop sentinel and the scenarios -/

/-- After a walk that recorded nothing `run` returns the noop sentinel. -/
theorem runAfterWalk_noop_of_empty (t : vitestifyTask)
    (h1 : t.vitestImports = []) (h2 : t.edits = [])
    (h3 : t.needsEsmDirnamePatch = false) (h4 : t.needsEsmFilenamePatch = false) :
    runAfterWalk t = Outcome.error GoError.noop := by
  unfold runAfterWalk runChunks
  rw [if_pos (by simp [h1, h2, h3, h4])]

/-- When `run` returns text after a walk, the walk recorded something. -/
theorem runAfterWalk_ok_nonempty (t : vitestifyTask) (out : Bytes)
    (h : runAfterWalk t = Outcome.ok out) :
    t.vitestImports ≠ [] ∨ t.edits ≠ [] ∨ t.needsEsmDirnamePatch = true
      ∨ t.needsEsmFilenamePatch = true := by
  by_contra hno
  simp only [not_or, ne_eq, not_not, Bool.not_eq_true] at hno
  obtain ⟨h1, h2, h3, h4⟩ := hno
  rw [runAfterWalk_noop_of_empty t h1 h2 h3 h4] at h
  cases h

/-- C18: `run` returns the noop sentinel (and no text) whenever the walk leaves the
required-import set empty, the ledger empty and both shim flags unset; conversely,
whenever `run` returns rewritten text, the source matched `regexJestReference`, was
parsed and walked, and the walk left at least one of these non-empty or set. A source
with no match of `regexJestReference` yields the noop sentinel without being parsed. -/
theorem noop_when_nothing_recorded (parse : Bytes → Outcome Node) (code : Bytes) :
    (∀ t : vitestifyTask, t.vitestImports = [] → t.edits = [] →
        t.needsEsmDirnamePatch = false → t.needsEsmFilenamePatch = false →
        runAfterWalk t = Outcome.error GoError.noop)
      ∧ (∀ (root : Node) (t : vitestifyTask), parse code = Outcome.ok root →
          walkNode (newVitestifyTask code) root = Outcome.ok t →
          t.vitestImports = [] → t.edits = [] →
          t.needsEsmDirnamePatch = false → t.needsEsmFilenamePatch = false →
          run parse code = Outcome.error GoError.noop)
      ∧ (regexJestReference code = false → run parse code = Outcome.error GoError.noop)
      ∧ (∀ out : Bytes, run parse code = Outcome.ok out →
          regexJestReference code = true
            ∧ ∃ (root : Node) (t : vitestifyTask),
                parse code = Outcome.ok root
                  ∧ walkNode (newVitestifyTask code) root = Outcome.ok t
                  ∧ runAfterWalk t = Outcome.ok out
                  ∧ (t.vitestImports ≠ [] ∨ t.edits ≠ [] ∨ t.needsEsmDirnamePatch = true
                      ∨ t.needsEsmFilenamePatch = true)) := by
  refine ⟨runAfterWalk_noop_of_empty, ?_, run_noop_of_no_match parse code, ?_⟩
  · intro root t hparse hwalk h1 h2 h3 h4
    by_cases hre : regexJestReference code = true
    · rw [run_of_match parse code hre, hparse]
      simp only [hwalk]
      exact runAfterWalk_noop_of_empty t h1 h2 h3 h4
    · exact run_noop_of_no_match parse code (by simpa using hre)
  · intro out hrun
    by_cases hre : regexJestReference code = true
    · refine ⟨hre, ?_⟩
      rw [run_of_match parse code hre] at hrun
      cases hparse : parse code with
      | error err => simp [hparse] at hrun
      | panic => simp [hparse] at hrun
      | ok root =>
        simp only [hparse] at hrun
        cases hwalk : walkNode (newVitestifyTask code) root with
        | error err => simp [hwalk] at hrun
        | panic => simp [hwalk] at hrun
        | ok t =>
          simp only [hwalk] at hrun
          exact ⟨root, t, rfl, hwalk, hrun, runAfterWalk_ok_nonempty t out hrun⟩
    · rw [run_noop_of_no_match parse code (by simpa using hre)] at hrun
      cases hrun

/-- C20 (amended): for the input file whose content is a line break followed by
`test('x', () => { expect(1).toBe(1); });`, with no existing import, and a parser that
returns its tree, `run` returns the line `import { expect, test } from 'vitest';`, a
newline, and then the whole original text unchanged; the walk leaves exactly `expect`
and `test` required and the ledger empty. -/
theorem scenario_test_after_newline (parse : Bytes → Outcome Node)
    (hparse : parse srcTestAfterNewline = Outcome.ok treeTestAfterNewline) :
    regexJestReference srcTestAfterNewline = true
      ∧ (walkNode (newVitestifyTask srcTestAfterNewline) treeTestAfterNewline).map
          (fun t => (namedImports t.vitestImports, t.edits))
        = Outcome.ok ([lit "expect", lit "test"], [])
      ∧ run parse srcTestAfterNewline
        = Outcome.ok
            (lit "import \x7b expect, test \x7d from 'vitest';" ++ lit "\n"
              ++ srcTestAfterNewline) := by
  have hre : regexJestReference srcTestAfterNewline = true := by decide
  have hrun : run (fun _ => Outcome.ok treeTestAfterNewline) srcTestAfterNewline
      = Outcome.ok
          (lit "import \x7b expect, test \x7d from 'vitest';" ++ lit "\n"
            ++ srcTestAfterNewline) := by
    decide!
  refine ⟨hre, by decide!, ?_⟩
  rw [run_of_match _ _ hre] at hrun
  rw [run_of_match parse _ hre, hparse]
  exact hrun

/-- C20, witness: the parser of the examples returns the tree of the scenario source. -/
theorem scenario_test_after_newline_witness :
    run parseExamples srcTestAfterNewline
      = Outcome.ok
          (lit "import \x7b expect, test \x7d from 'vitest';" ++ lit "\n"
            ++ srcTestAfterNewline) :=
  (scenario_test_after_newline parseExamples rfl).2.2

/-- C20, counterexample: when the statement is the whole file, on its first line,
`regexJestReference` does not match (its `\s` needs a byte before the start of the
line of the match) and `run` returns the noop sentinel, not rewritten text, whatever the
parser would return. -/
theorem scenario_test_on_first_line_is_noop :
    regexJestReference srcTestOnFirstLine = false
      ∧ run (fun _ => Outcome.ok treeTestOnFirstLine) srcTestOnFirstLine
        = Outcome.error GoError.noop
      ∧ ∀ parse : Bytes → Outcome Node,
          run parse srcTestOnFirstLine = Outcome.error GoError.noop :=
  ⟨by decide, by decide, fun parse => run_noop_of_no_match parse _ (by decide)⟩

/-- C12, the code at two inputs. In `srcImportSameLine` the byte after the import
statement is the `e` of the next statement: the deletion edit `[0, 33)` takes it and
`run` returns a text that starts `xpect(1);` after the consolidated import. In
`srcImportAtEnd` the import statement ends the 44-byte file: the deletion edit
`[12, 45)` reaches past the end of the buffer and `run` returns a seek error. At both
places `Reader.MaybeConsumeTrailingNewline` leaves the reader where it is. -/
theorem import_deletion_takes_the_next_byte :
    (walkNode (newVitestifyTask srcImportSameLine) treeImportSameLine).map
        (fun t => t.edits)
      = Outcome.ok [{ startByte := 0, endByte := 33, replacement := [] }]
      ∧ importExpectSameLine.EndByte = 32
      ∧ srcImportSameLine.get? 32 = some 101
      ∧ run (fun _ => Outcome.ok treeImportSameLine) srcImportSameLine
        = Outcome.ok
            (lit "import \x7b expect \x7d from 'vitest';\nxpect(1);\nexpect(2);\n")
      ∧ (walkNode (newVitestifyTask srcImportAtEnd) treeImportAtEnd).map
          (fun t => t.edits)
        = Outcome.ok [{ startByte := 12, endByte := 45, replacement := [] }]
      ∧ srcImportAtEnd.length = 44
      ∧ run (fun _ => Outcome.ok treeImportAtEnd) srcImportAtEnd
        = Outcome.error (GoError.unexpectedSeek (GoError.seekPastEnd 12))
      ∧ ({ code := srcImportSameLine, pos := 32 } : Reader).MaybeConsumeTrailingNewline
        = some { code := srcImportSameLine, pos := 32 }
      ∧ ({ code := srcImportAtEnd, pos := 44 } : Reader).MaybeConsumeTrailingNewline
        = some { code := srcImportAtEnd, pos := 44 } := by
  decide!

/-! ## The first import from `vitest` -/

/-- A key is in the map after it is set. -/
theorem insertKey_mem_self (m : List Bytes) (k : Bytes) : k ∈ insertKey m k := by
  unfold insertKey
  by_cases h : k ∈ m
  · rw [if_pos h]
    exact h
  · rw [if_neg h]
    simp

/-- Setting a key keeps the keys of the map. -/
theorem insertKey_mem_of_mem (m : List Bytes) (k x : Bytes) (hx : x ∈ m) :
    x ∈ insertKey m k := by
  unfold insertKey
  by_cases h : k ∈ m
  · rw [if_pos h]
    exact hx
  · rw [if_neg h]
    exact List.mem_append_left _ hx

/-- The loop over the specifiers, one turn. -/
theorem collectImportSpecifiers_cons (code : Bytes) (spec : Node) (rest : List Node)
    (imports : List Bytes) :
    collectImportSpecifiers code (spec :: rest) imports
      = if spec.type ≠ NODE_IMPORT_SPECIFIER then
          collectImportSpecifiers code rest imports
        else
          match spec.ChildByFieldName FIELD_NAME with
          | none => none
          | some nameNode =>
            match nameNode.Content code with
            | none => none
            | some vitestImport =>
              collectImportSpecifiers code rest
                (insertKey imports
                  (if vitestImport ∈ typeImports then lit "type " ++ vitestImport
                   else vitestImport)) := by
  rw [collectImportSpecifiers]

/-- The loop over the clauses, one turn. -/
theorem collectImportClauses_cons (code : Bytes) (clause : Node) (rest : List Node)
    (imports : List Bytes) :
    collectImportClauses code (clause :: rest) imports
      = if clause.type ≠ NODE_NAMED_IMPORTS then
          collectImportClauses code rest imports
        else
          match collectImportSpecifiers code clause.namedChildren imports with
          | none => none
          | some imports1 => collectImportClauses code rest imports1 := by
  rw [collectImportClauses]

/-- What the loop over the specifiers leaves in the map: the keys it had, and the name of
every specifier, tagged `type ` when it is in `typeImports`. -/
theorem collectImportSpecifiers_inv (code : Bytes) :
    ∀ (nodes : List Node) (imports out : List Bytes),
      collectImportSpecifiers code nodes imports = some out →
        (∀ k ∈ imports, k ∈ out)
          ∧ ∀ spec ∈ nodes, spec.type = NODE_IMPORT_SPECIFIER →
              ∃ nameNode name, spec.ChildByFieldName FIELD_NAME = some nameNode
                ∧ nameNode.Content code = some name
                ∧ (if name ∈ typeImports then lit "type " ++ name else name) ∈ out := by
  intro nodes
  induction nodes with
  | nil =>
    intro imports out h
    rw [collectImportSpecifiers] at h
    cases h
    exact ⟨fun k hk => hk, by simp⟩
  | cons spec rest ih =>
    intro imports out h
    rw [collectImportSpecifiers_cons] at h
    by_cases ht : spec.type ≠ NODE_IMPORT_SPECIFIER
    · rw [if_pos ht] at h
      obtain ⟨h1, h2⟩ := ih imports out h
      refine ⟨h1, ?_⟩
      intro s hs hst
      rcases List.mem_cons.1 hs with rfl | hs
      · exact absurd hst ht
      · exact h2 s hs hst
    · rw [if_neg ht] at h
      cases hn : spec.ChildByFieldName FIELD_NAME with
      | none => simp [hn] at h
      | some nameNode =>
        simp only [hn] at h
        cases hc : nameNode.Content code with
        | none => simp [hc] at h
        | some name =>
          simp only [hc] at h
          obtain ⟨h1, h2⟩ := ih _ out h
          refine ⟨fun k hk => h1 k (insertKey_mem_of_mem _ _ _ hk), ?_⟩
          intro s hs hst
          rcases List.mem_cons.1 hs with rfl | hs
          · exact ⟨nameNode, name, hn, hc, h1 _ (insertKey_mem_self _ _)⟩
          · exact h2 s hs hst

/-- The loop over the specifiers returns when every specifier has a name inside the
source. -/
theorem collectImportSpecifiers_some (code : Bytes) :
    ∀ (nodes : List Node) (imports : List Bytes),
      (∀ spec ∈ nodes, spec.type = NODE_IMPORT_SPECIFIER →
        ∃ nameNode name, spec.ChildByFieldName FIELD_NAME = some nameNode
          ∧ nameNode.Content code = some name) →
      ∃ out, collectImportSpecifiers code nodes imports = some out := by
  intro nodes
  induction nodes with
  | nil =>
    intro imports _
    exact ⟨imports, by rw [collectImportSpecifiers]⟩
  | cons spec rest ih =>
    intro imports hall
    have hrest : ∀ s ∈ rest, s.type = NODE_IMPORT_SPECIFIER →
        ∃ nameNode name, s.ChildByFieldName FIELD_NAME = some nameNode
          ∧ nameNode.Content code = some name :=
      fun s hs hst => hall s (List.mem_cons_of_mem _ hs) hst
    rw [collectImportSpecifiers_cons]
    by_cases ht : spec.type ≠ NODE_IMPORT_SPECIFIER
    · rw [if_pos ht]
      exact ih imports hrest
    · rw [if_neg ht]
      obtain ⟨nameNode, name, hn, hc⟩ := hall spec (List.mem_cons_self _ _) (by simpa using ht)
      simp only [hn, hc]
      exact ih _ hrest

/-- What the loop over the clauses leaves in the map: the keys it had, and the names of
the specifiers of every `named_imports` clause. -/
theorem collectImportClauses_inv (code : Bytes) :
    ∀ (clauses : List Node) (imports out : List Bytes),
      collectImportClauses code clauses imports = some out →
        (∀ k ∈ imports, k ∈ out)
          ∧ ∀ clause ∈ clauses, clause.type = NODE_NAMED_IMPORTS →
              ∀ spec ∈ clause.namedChildren, spec.type = NODE_IMPORT_SPECIFIER →
                ∃ nameNode name, spec.ChildByFieldName FIELD_NAME = some nameNode
                  ∧ nameNode.Content code = some name
                  ∧ (if name ∈ typeImports then lit "type " ++ name else name) ∈ out := by
  intro clauses
  induction clauses with
  | nil =>
    intro imports out h
    rw [collectImportClauses] at h
    cases h
    exact ⟨fun k hk => hk, by simp⟩
  | cons clause rest ih =>
    intro imports out h
    rw [collectImportClauses_cons] at h
    by_cases ht : clause.type ≠ NODE_NAMED_IMPORTS
    · rw [if_pos ht] at h
      obtain ⟨h1, h2⟩ := ih imports out h
      refine ⟨h1, ?_⟩
      intro c hc hct
      rcases List.mem_cons.1 hc with rfl | hc
      · exact absurd hct ht
      · exact h2 c hc hct
    · rw [if_neg ht] at h
      cases hs : collectImportSpecifiers code clause.namedChildren imports with
      | none => simp [hs] at h
      | some imports1 =>
        simp only [hs] at h
        obtain ⟨g1, g2⟩ := collectImportSpecifiers_inv code _ _ _ hs
        obtain ⟨h1, h2⟩ := ih imports1 out h
        refine ⟨fun k hk => h1 k (g1 k hk), ?_⟩
        intro c hc hct
        rcases List.mem_cons.1 hc with rfl | hc
        · intro spec hspec hst
          obtain ⟨nameNode, name, hn, hcn, hmem⟩ := g2 spec hspec hst
          exact ⟨nameNode, name, hn, hcn, h1 _ hmem⟩
        · exact h2 c hc hct

/-- The loop over the clauses returns when every specifier has a name inside the
source. -/
theorem collectImportClauses_some (code : Bytes) :
    ∀ (clauses : List Node) (imports : List Bytes),
      (∀ clause ∈ clauses, clause.type = NODE_NAMED_IMPORTS →
        ∀ spec ∈ clause.namedChildren, spec.type = NODE_IMPORT_SPECIFIER →
          ∃ nameNode name, spec.ChildByFieldName FIELD_NAME = some nameNode
            ∧ nameNode.Content code = some name) →
      ∃ out, collectImportClauses code clauses imports = some out := by
  intro clauses
  induction clauses with
  | nil =>
    intro imports _
    exact ⟨imports, by rw [collectImportClauses]⟩
  | cons clause rest ih =>
    intro imports hall
    have hrest : ∀ c ∈ rest, c.type = NODE_NAMED_IMPORTS →
        ∀ spec ∈ c.namedChildren, spec.type = NODE_IMPORT_SPECIFIER →
          ∃ nameNode name, spec.ChildByFieldName FIELD_NAME = some nameNode
            ∧ nameNode.Content code = some name :=
      fun c hc hct => hall c (List.mem_cons_of_mem _ hc) hct
    rw [collectImportClauses_cons]
    by_cases ht : clause.type ≠ NODE_NAMED_IMPORTS
    · rw [if_pos ht]
      exact ih imports hrest
    · rw [if_neg ht]
      obtain ⟨imports1, hs⟩ := collectImportSpecifiers_some code clause.namedChildren imports
        (hall clause (List.mem_cons_self _ _) (by simpa using ht))
      simp only [hs]
      exact ih imports1 hrest

/-- The case `'vitest'` is reached from the loop of `walkNode` for an import statement
whose source is `'vitest'`. -/
theorem walkNodeStep_vitest_import (parentType : String) (node sourceNode : Node)
    (self : vitestifyTask)
    (htype : node.type = NODE_IMPORT_STATEMENT)
    (hsrc : node.ChildByFieldName FIELD_IMPORT_EXPORT_SOURCE = some sourceNode)
    (hcontent : sourceNode.Content self.code = some (lit "'vitest'")) :
    walkNodeStep parentType node self = vitestImportCase self node := by
  rw [walkNodeStep_import parentType node self htype]
  unfold importStatementCase
  simp only [hsrc, hcontent]
  exact if_pos trivial

/-! ## What the walk keeps -/

/-- A task keeps itself. -/
theorem keeps_refl (self : vitestifyTask) : Keeps self (Outcome.ok self) :=
  ⟨List.prefix_refl _, fun _ hk => hk, rfl⟩

/-- Two turns in a row keep what each keeps. -/
theorem keeps_trans (a b : vitestifyTask) (r : Outcome vitestifyTask)
    (hab : Keeps a (Outcome.ok b)) (hbr : Keeps b r) : Keeps a r := by
  cases r with
  | ok t =>
    obtain ⟨h1, h2, h3⟩ := hab
    obtain ⟨g1, g2, g3⟩ := hbr
    exact ⟨h1.trans g1, fun k hk => g2 k (h2 k hk), g3.trans h3⟩
  | error err => exact hbr
  | panic => trivial

/-- Recording an edit keeps the task. -/
theorem keeps_addEdit (self : vitestifyTask) (edit : codeEdit) :
    Keeps self (Outcome.ok (self.addEdit edit)) :=
  ⟨List.prefix_append _ _, fun _ hk => hk, rfl⟩

/-- Requiring an import keeps the task. -/
theorem keeps_addImport (self : vitestifyTask) (key : Bytes) :
    Keeps self (Outcome.ok (self.addImport key)) :=
  ⟨List.prefix_refl _, fun _ hk => insertKey_mem_of_mem _ _ _ hk, rfl⟩

/-- The errors that quote the source are not the noop sentinel. -/
theorem keeps_errorWithContent (self : vitestifyTask) (code : Bytes) (node : Node)
    (mk : Bytes → GoError) (hmk : ∀ c, mk c ≠ GoError.noop) :
    Keeps self (errorWithContent code node mk) := by
  unfold errorWithContent
  cases node.Content code with
  | none => trivial
  | some content => exact hmk content

/-- The case `'vitest'` keeps the task. -/
theorem keeps_vitestImportCase (self : vitestifyTask) (node : Node) :
    Keeps self (vitestImportCase self node) := by
  unfold vitestImportCase
  split
  · exact keeps_refl self
  · split
    · trivial
    · split
      · exact keeps_errorWithContent self _ _ _ (fun c h => by cases h)
      · split
        · trivial
        · rename_i imports hc
          exact ⟨List.prefix_append _ _,
            (collectImportClauses_inv self.code _ _ _ hc).1, rfl⟩

/-- The case of an import statement keeps the task. -/
theorem keeps_importStatementCase (self : vitestifyTask) (node : Node) :
    Keeps self (importStatementCase self node) := by
  unfold importStatementCase
  split
  · exact keeps_errorWithContent self _ _ _ (fun c h => by cases h)
  · split
    · trivial
    · split
      · exact keeps_vitestImportCase self node
      · split
        · split
          · exact ⟨List.prefix_refl _, fun _ hk => hk, rfl⟩
          · exact keeps_refl self
          · rename_i err h
            unfold nodeModuleImportCase at h
            split at h
            · cases h
            · split at h
              · unfold errorWithContent at h
                split at h
                · cases h
                · cases h
                  intro hh
                  cases hh
              · split at h <;> cases h
          · trivial
        · split
          · split
            · exact ⟨List.prefix_refl _, fun _ hk => hk, rfl⟩
            · exact keeps_refl self
            · rename_i err h
              unfold nodeModuleImportCase at h
              split at h
              · cases h
              · split at h
                · unfold errorWithContent at h
                  split at h
                  · cases h
                  · cases h
                    intro hh
                    cases hh
                · split at h <;> cases h
            · trivial
          · exact keeps_refl self

/-- The case of an identifier keeps the task. -/
theorem keeps_identifierCase (self : vitestifyTask) (parentType : String) (node : Node) :
    Keeps self (identifierCase self parentType node) := by
  unfold identifierCase
  split
  · trivial
  · have hE : ENABLE_ESM_UPDATES = false := rfl
    simp only [hE, Bool.false_eq_true, and_false, if_false]
    exact keeps_refl self

/-- `processJestType` keeps the task. -/
theorem keeps_processJestType (self : vitestifyTask) (node : Node) :
    Keeps self (processJestType self node) := by
  unfold processJestType
  split
  · exact keeps_errorWithContent self _ _ _ (fun c h => by cases h)
  · split
    · trivial
    · split_ifs
      · exact keeps_addEdit self _
      · exact keeps_trans _ _ _ (keeps_addImport self _) (keeps_addEdit _ _)
      · exact keeps_trans _ _ _ (keeps_addImport self _) (keeps_addEdit _ _)
      · exact keeps_trans _ _ _ (keeps_addImport self _) (keeps_addEdit _ _)
      · exact keeps_trans _ _ _ (keeps_addImport self _) (keeps_addEdit _ _)
      · exact keeps_trans _ _ _ (keeps_addImport self _) (keeps_addEdit _ _)
      · intro hh
        cases hh

/-- The case of a nested type identifier keeps the task. -/
theorem keeps_nestedTypeCase (self : vitestifyTask) (node : Node) :
    Keeps self (nestedTypeCase self node) := by
  unfold nestedTypeCase
  split
  · trivial
  · split_ifs
    · exact keeps_refl self
    · exact keeps_processJestType self node

/-- `processJestMock` keeps the task. -/
theorem keeps_processJestMock (self : vitestifyTask) (node : Node) :
    Keeps self (processJestMock self node) := by
  unfold processJestMock
  split
  · trivial
  · split
    · trivial
    · split
      · trivial
      · split_ifs
        · exact keeps_addEdit self _
        · split
          · trivial
          · split
            · trivial
            · split
              · trivial
              · exact keeps_addEdit self _

/-- `processJestFnCall` keeps the task. -/
theorem keeps_processJestFnCall (self : vitestifyTask) (node nameNode : Node)
    (namespaceNode : Option Node) :
    Keeps self (processJestFnCall self node nameNode namespaceNode) := by
  unfold processJestFnCall
  split
  · trivial
  · split
    · trivial
    · split_ifs
      · exact keeps_processJestMock self node
      · split
        · exact keeps_errorWithContent self _ _ _ (fun c h => by cases h)
        · split
          · trivial
          · split
            · trivial
            · exact keeps_addEdit self _
      · split
        · exact keeps_errorWithContent self _ _ _ (fun c h => by cases h)
        · split
          · trivial
          · split
            · trivial
            · exact keeps_addEdit self _
      · split
        · trivial
        · exact keeps_addEdit self _

/-- The argument edit of the timer calls keeps the task. -/
theorem keeps_timerArgsEdit (self : vitestifyTask) (node : Node) :
    Keeps self (timerArgsEdit self node) := by
  unfold timerArgsEdit
  split
  · trivial
  · split_ifs
    · split
      · trivial
      · split
        · trivial
        · exact keeps_addEdit self _
    · exact keeps_addEdit self _

/-- The second `switch` keeps the task. -/
theorem keeps_propertySwitch (self : vitestifyTask) (node : Node) (propertyName : Bytes) :
    Keeps self (propertySwitch self node propertyName) := by
  unfold propertySwitch
  split_ifs
  · split
    · trivial
    · split_ifs
      · exact keeps_addEdit self _
      · exact keeps_refl self
  · exact keeps_refl self

/-- The first `switch` keeps the task. -/
theorem keeps_nameSwitch (self : vitestifyTask) (node nameNode : Node)
    (namespaceNode : Option Node) (nameOrNamespace : Bytes) :
    Keeps self (nameSwitch self node nameNode namespaceNode nameOrNamespace) := by
  have htimer : ∀ e : codeEdit,
      Keeps self (timerArgsEdit ((self.addImport (lit "vi")).addEdit e) node) :=
    fun e => keeps_trans _ _ _
      (keeps_trans _ _ _ (keeps_addImport self _) (keeps_addEdit _ e))
      (keeps_timerArgsEdit _ node)
  unfold nameSwitch
  by_cases h0 : nameOrNamespace = lit "userEvent"
  · rw [if_pos h0]
    exact keeps_refl self
  · rw [if_neg h0]
    by_cases h1 : nameOrNamespace = lit "advanceTimersAndPromises"
    · rw [if_pos h1]
      exact htimer _
    · rw [if_neg h1]
      by_cases h2 : nameOrNamespace = lit "advanceTimers"
      · rw [if_pos h2]
        exact htimer _
      · rw [if_neg h2]
        split_ifs
        all_goals first
          | exact keeps_refl self
          | exact keeps_addImport self _

/-- The two `switch` statements keep the task. -/
theorem keeps_callSwitches (self : vitestifyTask) (node nameNode : Node)
    (namespaceNode : Option Node) (nameOrNamespace propertyName : Bytes) :
    Keeps self
      ((callSwitches self node nameNode namespaceNode nameOrNamespace propertyName).map
        Prod.fst) := by
  unfold callSwitches
  split_ifs
  · exact keeps_addImport self _
  · have h := keeps_processJestFnCall (self.addImport (lit "vi")) node nameNode namespaceNode
    cases hp : processJestFnCall (self.addImport (lit "vi")) node nameNode namespaceNode with
    | ok t =>
      rw [hp] at h
      exact keeps_trans _ _ _ (keeps_addImport self _) h
    | error err =>
      rw [hp] at h
      exact h
    | panic => trivial
  · have h := keeps_nameSwitch self node nameNode namespaceNode nameOrNamespace
    cases hn : nameSwitch self node nameNode namespaceNode nameOrNamespace with
    | error err =>
      rw [hn] at h
      exact h
    | panic => trivial
    | ok t =>
      rw [hn] at h
      have g := keeps_propertySwitch t node propertyName
      simp only
      cases hq : propertySwitch t node propertyName with
      | ok u =>
        rw [hq] at g
        exact keeps_trans _ _ _ h g
      | error err =>
        rw [hq] at g
        exact g
      | panic => trivial

/-- What `processCallExpression` does before it walks the children keeps the task. -/
theorem keeps_callExpressionCase (self : vitestifyTask) (node : Node) :
    Keeps self ((callExpressionCase self node).map Prod.fst) := by
  unfold callExpressionCase
  split
  · trivial
  · split_ifs
    · split
      · trivial
      · split
        · trivial
        · split
          · trivial
          · split
            · trivial
            · exact keeps_callSwitches self _ _ _ _ _
    · split
      · trivial
      · exact keeps_callSwitches self _ _ _ _ _

mutual
/-- One turn of the loop of `walkNode` keeps the task. -/
theorem keeps_walkNodeStep (parentType : String) :
    ∀ (node : Node) (self : vitestifyTask), Keeps self (walkNodeStep parentType node self)
  | .mk type startByte endByte named field children, self => by
    rw [walkNodeStep]
    split_ifs
    · exact keeps_importStatementCase self _
    · have h := keeps_callExpressionCase self (.mk type startByte endByte named field children)
      cases hc : callExpressionCase self (.mk type startByte endByte named field children) with
      | error err =>
        rw [hc] at h
        exact h
      | panic => trivial
      | ok res =>
        obtain ⟨self1, b⟩ := res
        rw [hc] at h
        cases b with
        | false => exact h
        | true => exact keeps_trans _ _ _ h (keeps_walkNodeLoop type children self1)
    · exact keeps_identifierCase self parentType _
    · exact keeps_nestedTypeCase self _
    · exact keeps_walkNodeLoop type children self
/-- The loop of `walkNode` keeps the task. -/
theorem keeps_walkNodeLoop (parentType : String) :
    ∀ (nodes : List Node) (self : vitestifyTask), Keeps self (walkNodeLoop parentType nodes self)
  | [], self => by
    rw [walkNodeLoop_nil]
    exact keeps_refl self
  | node :: rest, self => by
    rw [walkNodeLoop_cons]
    split_ifs
    · have h := keeps_walkNodeStep parentType node self
      cases hs : walkNodeStep parentType node self with
      | ok self1 =>
        rw [hs] at h
        exact keeps_trans _ _ _ h (keeps_walkNodeLoop parentType rest self1)
      | error err =>
        rw [hs] at h
        exact h
      | panic => trivial
    · exact keeps_walkNodeLoop parentType rest self
end

/-- The walk keeps the task. -/
theorem keeps_walkNode (self : vitestifyTask) (root : Node) :
    Keeps self (walkNode self root) :=
  keeps_walkNodeLoop root.type root.children self

/-! ## What `run` returns after the walk -/

/-- The loop of the replay keeps the chunks pushed before it. -/
theorem replayLoop_ok_prefix :
    ∀ (es : List codeEdit) (r : Reader) (chunks : List Bytes) (res : List Bytes × Reader),
      replayLoop es r chunks = Outcome.ok res → chunks <+: res.1 := by
  intro es
  induction es with
  | nil =>
    intro r chunks res h
    rw [replayLoop] at h
    cases h
    exact List.prefix_refl _
  | cons e rest ih =>
    intro r chunks res h
    obtain ⟨u, r1, _, _, hrest⟩ := replayLoop_cons_ok e rest r chunks res h
    have hp := ih _ _ res hrest
    rw [List.append_assoc] at hp
    exact (List.prefix_append chunks _).trans hp

/-- The errors of the loop of the replay are not the noop sentinel. -/
theorem replayLoop_error_ne_noop :
    ∀ (es : List codeEdit) (r : Reader) (chunks : List Bytes) (err : GoError),
      replayLoop es r chunks = Outcome.error err → err ≠ GoError.noop := by
  intro es
  induction es with
  | nil =>
    intro r chunks err h
    rw [replayLoop] at h
    cases h
  | cons e rest ih =>
    intro r chunks err h
    rw [replayLoop] at h
    split at h
    · cases h
      intro hh
      cases hh
    · cases h
    · split at h
      · cases h
        intro hh
        cases hh
      · exact ih _ _ err h

/-- The errors of the replay are not the noop sentinel. -/
theorem replay_error_ne_noop (code : Bytes) (edits : List codeEdit) (chunks : List Bytes)
    (err : GoError) (h : replay code edits chunks = Outcome.error err) :
    err ≠ GoError.noop := by
  unfold replay at h
  split at h
  · rename_i e he
    cases h
    exact replayLoop_error_ne_noop _ _ _ _ he
  · cases h
  · split at h
    · cases h
      intro hh
      cases hh
    · cases h
    · cases h

/-- After the walk `run` returns the noop sentinel only when the walk recorded nothing. -/
theorem runAfterWalk_noop_inv (t : vitestifyTask)
    (h : runAfterWalk t = Outcome.error GoError.noop) :
    t.vitestImports = [] ∧ t.edits = [] ∧ t.needsEsmDirnamePatch = false
      ∧ t.needsEsmFilenamePatch = false := by
  unfold runAfterWalk at h
  cases hc : runChunks t with
  | ok chunks => simp [hc] at h
  | panic => simp [hc] at h
  | error err =>
    simp only [hc, Outcome.error.injEq] at h
    subst h
    unfold runChunks at hc
    split at hc
    · rename_i hcond
      obtain ⟨h1, h2, h3, h4⟩ := hcond
      exact ⟨List.length_eq_zero.1 h1, List.length_eq_zero.1 h2, by simpa using h3,
        by simpa using h4⟩
    · split at hc
      · cases hc
      · exact absurd rfl (replay_error_ne_noop _ _ _ _ hc)

/-- The text that `run` returns begins with the consolidated import and a newline when a
symbol is required. -/
theorem runAfterWalk_ok_begins (t : vitestifyTask) (out : Bytes)
    (h : runAfterWalk t = Outcome.ok out) (hne : t.vitestImports ≠ []) :
    ∃ rest, out = importStatement (namedImports t.vitestImports) ++ lit "\n" ++ rest := by
  obtain ⟨chunks, hc, hout⟩ := runAfterWalk_ok_inv t out h
  obtain ⟨cs, r1, r2, fin, hloop, _, hcs⟩ :=
    replay_ok_inv _ _ _ _ (runChunks_ok_inv t chunks hc)
  obtain ⟨more, hmore⟩ := replayLoop_ok_prefix _ _ _ _ hloop
  have hlen : t.vitestImports.length > 0 := List.length_pos.2 hne
  have himp : importChunks t
      = [importStatement (namedImports t.vitestImports), lit "\n"] := by
    unfold importChunks
    rw [if_pos hlen]
  refine ⟨Sprint (esmChunks t ++ more ++ [fin]), ?_⟩
  simp only at hmore
  rw [hout, hcs, ← hmore, himp]
  simp [Sprint, List.append_assoc]

/-- The sorted list holds the keys. -/
theorem namedImports_mem (keys : List Bytes) (s : Bytes) :
    s ∈ namedImports keys ↔ s ∈ keys :=
  (List.perm_insertionSort _ keys).mem_iff

/-- The case `'vitest'` for the first import statement from `'vitest'`, with an import
clause: the symbols are collected, the statement is remembered and its deletion is
recorded. -/
theorem vitestImportCase_first (self : vitestifyTask) (node clause : Node)
    (hnone : self.existingVitestImport = none)
    (hclause : node.NamedChild 0 = some clause)
    (hct : clause.type = NODE_IMPORT_CLAUSE) :
    vitestImportCase self node
      = match collectImportClauses self.code clause.namedChildren self.vitestImports with
        | none => Outcome.panic
        | some imports =>
          Outcome.ok
            { self with
              vitestImports := imports
              existingVitestImport := some node
              edits := self.edits
                ++ [{ startByte := (node.StartByte : Int),
                      endByte := (node.EndByte : Int) + 1,
                      replacement := [] }] } := by
  have hne : ¬ clause.type ≠ NODE_IMPORT_CLAUSE := fun h => h hct
  unfold vitestImportCase
  rw [if_neg (by simp [hnone])]
  simp only [hclause]
  rw [if_neg hne]

/-- A key of the map after a key is set was in the map or is the key set. -/
theorem insertKey_mem_inv (m : List Bytes) (k x : Bytes) (hx : x ∈ insertKey m k) :
    x ∈ m ∨ x = k := by
  unfold insertKey at hx
  by_cases h : k ∈ m
  · rw [if_pos h] at hx
    exact Or.inl hx
  · rw [if_neg h] at hx
    rcases List.mem_append.1 hx with hx | hx
    · exact Or.inl hx
    · exact Or.inr (List.mem_singleton.1 hx)

/-- The loop over the specifiers puts nothing else in the map: every key it leaves was
there before or is the name of a specifier, tagged `type ` when it is in `typeImports`. -/
theorem collectImportSpecifiers_sub (code : Bytes) :
    ∀ (nodes : List Node) (imports out : List Bytes),
      collectImportSpecifiers code nodes imports = some out →
        ∀ k ∈ out, k ∈ imports
          ∨ ∃ spec ∈ nodes, spec.type = NODE_IMPORT_SPECIFIER
              ∧ ∃ nameNode name, spec.ChildByFieldName FIELD_NAME = some nameNode
                ∧ nameNode.Content code = some name
                ∧ k = (if name ∈ typeImports then lit "type " ++ name else name) := by
  intro nodes
  induction nodes with
  | nil =>
    intro imports out h k hk
    rw [collectImportSpecifiers] at h
    cases h
    exact Or.inl hk
  | cons spec rest ih =>
    intro imports out h k hk
    rw [collectImportSpecifiers_cons] at h
    by_cases ht : spec.type ≠ NODE_IMPORT_SPECIFIER
    · rw [if_pos ht] at h
      rcases ih imports out h k hk with h1 | ⟨s, hs, h2⟩
      · exact Or.inl h1
      · exact Or.inr ⟨s, List.mem_cons_of_mem _ hs, h2⟩
    · rw [if_neg ht] at h
      cases hn : spec.ChildByFieldName FIELD_NAME with
      | none => simp [hn] at h
      | some nameNode =>
        simp only [hn] at h
        cases hc : nameNode.Content code with
        | none => simp [hc] at h
        | some name =>
          simp only [hc] at h
          rcases ih _ out h k hk with h1 | ⟨s, hs, h2⟩
          · rcases insertKey_mem_inv _ _ _ h1 with h3 | h3
            · exact Or.inl h3
            · exact Or.inr ⟨spec, List.mem_cons_self _ _, by simpa using ht, nameNode, name,
                hn, hc, h3⟩
          · exact Or.inr ⟨s, List.mem_cons_of_mem _ hs, h2⟩

/-- The loop over the clauses puts nothing else in the map: every key it leaves was
there before or is the name of a specifier of a `named_imports` clause. -/
theorem collectImportClauses_sub (code : Bytes) :
    ∀ (clauses : List Node) (imports out : List Bytes),
      collectImportClauses code clauses imports = some out →
        ∀ k ∈ out, k ∈ imports
          ∨ ∃ clause ∈ clauses, clause.type = NODE_NAMED_IMPORTS
              ∧ ∃ spec ∈ clause.namedChildren, spec.type = NODE_IMPORT_SPECIFIER
                ∧ ∃ nameNode name, spec.ChildByFieldName FIELD_NAME = some nameNode
                  ∧ nameNode.Content code = some name
                  ∧ k = (if name ∈ typeImports then lit "type " ++ name else name) := by
  intro clauses
  induction clauses with
  | nil =>
    intro imports out h k hk
    rw [collectImportClauses] at h
    cases h
    exact Or.inl hk
  | cons clause rest ih =>
    intro imports out h k hk
    rw [collectImportClauses_cons] at h
    by_cases ht : clause.type ≠ NODE_NAMED_IMPORTS
    · rw [if_pos ht] at h
      rcases ih imports out h k hk with h1 | ⟨c, hc, h2⟩
      · exact Or.inl h1
      · exact Or.inr ⟨c, List.mem_cons_of_mem _ hc, h2⟩
    · rw [if_neg ht] at h
      cases hs : collectImportSpecifiers code clause.namedChildren imports with
      | none => simp [hs] at h
      | some imports1 =>
        simp only [hs] at h
        rcases ih imports1 out h k hk with h1 | ⟨c, hc, h2⟩
        · rcases collectImportSpecifiers_sub code _ _ _ hs k h1 with h3 | h3
          · exact Or.inl h3
          · exact Or.inr ⟨clause, List.mem_cons_self _ _, by simpa using ht, h3⟩
        · exact Or.inr ⟨c, List.mem_cons_of_mem _ hc, h2⟩

/-- The text that a successful `ReadTo` returns: the bytes from the position to the
target. -/
theorem readTo_ok_value (r r1 : Reader) (n : Int) (s : Bytes)
    (h : r.ReadTo n = (Outcome.ok s, r1)) :
    s = (r.code.drop r.pos.toNat).take (n - r.pos).toNat := by
  unfold Reader.ReadTo at h
  by_cases he : r.pos ≥ (r.code.length : Int)
  · rw [if_pos he] at h
    simp at h
  · rw [if_neg he] at h
    by_cases hn : n = r.pos
    · rw [if_pos hn] at h
      simp only [Prod.mk.injEq, Outcome.ok.injEq] at h
      rw [← h.1, hn]
      simp
    · rw [if_neg hn] at h
      by_cases hg : n > (r.code.length : Int)
      · have hs : r.Seek n = (some (GoError.seekPastEnd r.pos), r) := by
          unfold Reader.Seek
          rw [if_pos hg]
        simp [hs] at h
      · have hs : r.Seek n = (none, { r with pos := n }) := by
          unfold Reader.Seek
          rw [if_neg hg]
        simp only [hs] at h
        unfold sliceBytes at h
        by_cases hb : 0 ≤ r.pos ∧ r.pos ≤ n ∧ n ≤ (r.code.length : Int)
        · rw [if_pos hb] at h
          simp only [Prod.mk.injEq, Outcome.ok.injEq] at h
          exact h.1.symm
        · rw [if_neg hb] at h
          simp at h

/-- A stretch of a list lies in every stretch around it. -/
theorem segment_infix (code : Bytes) (a b p m : Nat) (hpa : p ≤ a) (hab : a ≤ b)
    (hbm : b ≤ p + m) :
    (code.drop a).take (b - a) <:+: (code.drop p).take m := by
  have hm : m = (a - p) + ((b - a) + (m - (b - p))) := by omega
  have e1 : List.drop (a - p) (List.drop p code) = List.drop a code := by
    rw [List.drop_drop]
    congr 1
    omega
  have e2 : List.drop (b - a) (List.drop a code) = List.drop b code := by
    rw [List.drop_drop]
    congr 1
    omega
  refine ⟨(code.drop p).take (a - p), ((code.drop b)).take (m - (b - p)), ?_⟩
  conv_rhs => rw [hm]
  rw [List.take_add, List.take_add, e1, e2]
  simp only [List.append_assoc]

/-- The loop of the replay keeps what no edit reaches into: when every edit ends before
the stretch `[a, b)` of the source or starts after it, either the stretch stands in the
chunks pushed, or the reader is still before it. -/
theorem replayLoop_keeps_untouched (a b : Nat) (hab : a ≤ b) :
    ∀ (es : List codeEdit) (r : Reader) (chunks : List Bytes) (res : List Bytes × Reader),
      replayLoop es r chunks = Outcome.ok res →
      r.pos ≤ (a : Int) → b ≤ r.code.length →
      (∀ e ∈ es, e.endByte ≤ (a : Int) ∨ (b : Int) ≤ e.startByte) →
      (r.code.drop a).take (b - a) <:+: Sprint res.1
        ∨ (res.2.pos ≤ (a : Int) ∧ res.2.code = r.code) := by
  intro es
  induction es with
  | nil =>
    intro r chunks res h hpos _ _
    rw [replayLoop] at h
    cases h
    exact Or.inr ⟨hpos, rfl⟩
  | cons e rest ih =>
    intro r chunks res h hpos hlen hall
    obtain ⟨u, r1, hread, _, hrest⟩ := replayLoop_cons_ok e rest r chunks res h
    obtain ⟨_, hcode, _, _, hle, hn⟩ := readTo_ok_inv r r1 _ u hread
    have hval := readTo_ok_value r r1 _ u hread
    rcases hall e (List.mem_cons_self _ _) with hend | hstart
    · have hih := ih { r1 with pos := e.endByte } _ res hrest hend
        (by simpa [hcode] using hlen)
        (fun e' he' => hall e' (List.mem_cons_of_mem _ he'))
      simp only [hcode] at hih
      exact hih
    · left
      have hseg : (r.code.drop a).take (b - a) <:+: u := by
        rw [hval]
        exact segment_infix r.code a b r.pos.toNat (e.startByte - r.pos).toNat
          (by omega) hab (by omega)
      obtain ⟨more, hmore⟩ := replayLoop_ok_prefix _ _ _ _ hrest
      rw [← hmore]
      obtain ⟨x, y, hxy⟩ := hseg
      refine ⟨Sprint chunks ++ x, y ++ e.replacement ++ Sprint more, ?_⟩
      simp only [Sprint, List.flatten_append, List.flatten_cons, List.flatten_nil,
        List.append_nil, List.append_assoc, ← hxy]

/-- What no edit of the final ledger reaches into stays in the text that `run` returns:
when every edit ends before the stretch `[a, b)` of the source or starts after it, the
bytes of the stretch stand in the output, one after the other. -/
theorem runAfterWalk_keeps_untouched (t : vitestifyTask) (out : Bytes) (a b : Nat)
    (h : runAfterWalk t = Outcome.ok out) (hab : a ≤ b) (hlen : b ≤ t.code.length)
    (hall : ∀ e ∈ finalLedger t, e.endByte ≤ (a : Int) ∨ (b : Int) ≤ e.startByte) :
    (t.code.drop a).take (b - a) <:+: out := by
  obtain ⟨chunks, hc, hout⟩ := runAfterWalk_ok_inv t out h
  obtain ⟨cs, r1, r2, fin, hloop, hfin, hcs⟩ :=
    replay_ok_inv _ _ _ _ (runChunks_ok_inv t chunks hc)
  have hsorted : ∀ e ∈ sortEdits (finalLedger t),
      e.endByte ≤ (a : Int) ∨ (b : Int) ≤ e.startByte :=
    fun e he => hall e ((List.perm_insertionSort _ _).mem_iff.1 he)
  have hk := replayLoop_keeps_untouched a b hab _ (NewReader t.code) _ (cs, r1) hloop
    (by simp [NewReader]) (by simpa [NewReader] using hlen) hsorted
  rw [hout, hcs]
  rcases hk with hk | ⟨hpos, hcode⟩
  · obtain ⟨x, y, hxy⟩ := hk
    refine ⟨x, y ++ fin, ?_⟩
    simp only [Sprint, List.flatten_append, List.flatten_cons, List.flatten_nil,
      List.append_nil] at hxy ⊢
    rw [← hxy]
    simp only [NewReader, List.append_assoc]
  · simp only at hpos hcode
    have hcode' : r1.code = t.code := by simpa [NewReader] using hcode
    have hseg : (t.code.drop a).take (b - a) <:+: fin := by
      unfold Reader.ReadToEnd at hfin
      by_cases he : r1.pos ≥ (r1.code.length : Int)
      · have hab' : b - a = 0 := by
          rw [hcode'] at he
          omega
        rw [hab']
        simp
      · rw [if_neg he] at hfin
        have hval := readTo_ok_value r1 r2 _ fin hfin
        rw [hval, hcode']
        rw [hcode'] at he
        exact segment_infix t.code a b r1.pos.toNat ((t.code.length : Int) - r1.pos).toNat
          (by omega) hab (by omega)
    obtain ⟨x, y, hxy⟩ := hseg
    refine ⟨Sprint cs ++ x, y, ?_⟩
    simp only [Sprint, List.flatten_append, List.flatten_cons, List.flatten_nil,
      List.append_nil, List.append_assoc, ← hxy]

/-- C11 (amended): for an import statement from `'vitest'` with an import clause that the
loop of `walkNode` meets. When an import statement from `'vitest'` was met before, the
turn changes nothing: the statement is not deleted and its symbols are not collected; and
in whatever text `run` returns, the text of the statement stands wherever no edit of the
final ledger reaches into it. When none was met before, the turn returns if every
specifier has a name, and then it records one deletion edit that starts at the statement,
remembers the statement, keeps the symbols required so far and requires the name of
every import specifier of a `named_imports` clause of the statement, tagged `type ` when
it is in `typeImports`, and nothing else (no default and no namespace binding); whatever
the loop does after it, the ledger still begins with the ledger of that turn, the symbols
are in the sorted list, and the text that `run` returns begins with the one import
synthesized of that list and a newline. -/
theorem first_vitest_import_consolidated (parentType : String) (self : vitestifyTask)
    (node sourceNode clause : Node)
    (htype : node.type = NODE_IMPORT_STATEMENT)
    (hsrc : node.ChildByFieldName FIELD_IMPORT_EXPORT_SOURCE = some sourceNode)
    (hcontent : sourceNode.Content self.code = some (lit "'vitest'"))
    (hclause : node.NamedChild 0 = some clause)
    (hct : clause.type = NODE_IMPORT_CLAUSE) :
    (self.existingVitestImport.isSome = true →
        walkNodeStep parentType node self = Outcome.ok self
          ∧ ∀ (t2 : vitestifyTask) (out text : Bytes),
              runAfterWalk t2 = Outcome.ok out →
              node.Content t2.code = some text →
              (∀ e ∈ finalLedger t2,
                e.endByte ≤ (node.StartByte : Int) ∨ (node.EndByte : Int) ≤ e.startByte) →
              text <:+: out)
      ∧ (self.existingVitestImport = none →
          ((∀ named ∈ clause.namedChildren, named.type = NODE_NAMED_IMPORTS →
              ∀ spec ∈ named.namedChildren, spec.type = NODE_IMPORT_SPECIFIER →
                ∃ nameNode name, spec.ChildByFieldName FIELD_NAME = some nameNode
                  ∧ nameNode.Content self.code = some name) →
            ∃ t, walkNodeStep parentType node self = Outcome.ok t)
          ∧ ∀ t, walkNodeStep parentType node self = Outcome.ok t →
              t.edits = self.edits
                  ++ [{ startByte := (node.StartByte : Int),
                        endByte := (node.EndByte : Int) + 1, replacement := [] }]
                ∧ t.existingVitestImport = some node
                ∧ (∀ k ∈ self.vitestImports, k ∈ t.vitestImports)
                ∧ (∀ named ∈ clause.namedChildren, named.type = NODE_NAMED_IMPORTS →
                    ∀ spec ∈ named.namedChildren, spec.type = NODE_IMPORT_SPECIFIER →
                      ∃ nameNode name, spec.ChildByFieldName FIELD_NAME = some nameNode
                        ∧ nameNode.Content self.code = some name
                        ∧ (if name ∈ typeImports then lit "type " ++ name else name)
                            ∈ t.vitestImports)
                ∧ (∀ k ∈ t.vitestImports, k ∈ self.vitestImports
                    ∨ ∃ named ∈ clause.namedChildren, named.type = NODE_NAMED_IMPORTS
                        ∧ ∃ spec ∈ named.namedChildren, spec.type = NODE_IMPORT_SPECIFIER
                          ∧ ∃ nameNode name,
                              spec.ChildByFieldName FIELD_NAME = some nameNode
                                ∧ nameNode.Content self.code = some name
                                ∧ k = (if name ∈ typeImports then lit "type " ++ name
                                       else name))
                ∧ ∀ (later : List Node) (t2 : vitestifyTask) (out : Bytes),
                    walkNodeLoop parentType later t = Outcome.ok t2 →
                    runAfterWalk t2 = Outcome.ok out →
                    t2.vitestImports ≠ [] →
                      t.edits <+: t2.edits
                        ∧ (∀ k ∈ t.vitestImports, k ∈ namedImports t2.vitestImports)
                        ∧ ∃ rest, out
                            = importStatement (namedImports t2.vitestImports) ++ lit "\n"
                                ++ rest) := by
  have hstep : walkNodeStep parentType node self = vitestImportCase self node :=
    walkNodeStep_vitest_import parentType node sourceNode self htype hsrc hcontent
  refine ⟨?_, ?_⟩
  · intro hsome
    have hturn : walkNodeStep parentType node self = Outcome.ok self := by
      rw [hstep]
      unfold vitestImportCase
      rw [if_pos hsome]
    refine ⟨hturn, ?_⟩
    intro t2 out text hrun htext hall
    unfold Node.Content sliceBytes at htext
    by_cases hb : (0 : Int) ≤ (node.StartByte : Int)
        ∧ (node.StartByte : Int) ≤ (node.EndByte : Int)
        ∧ (node.EndByte : Int) ≤ (t2.code.length : Int)
    · rw [if_pos hb] at htext
      have htxt : text = (t2.code.drop node.StartByte).take (node.EndByte - node.StartByte) := by
        simpa using (Option.some.inj htext).symm
      rw [htxt]
      exact runAfterWalk_keeps_untouched t2 out node.StartByte node.EndByte hrun
        (by omega) (by omega) hall
    · rw [if_neg hb] at htext
      cases htext
  · intro hnone
    have hcase := vitestImportCase_first self node clause hnone hclause hct
    refine ⟨?_, ?_⟩
    · intro hnames
      obtain ⟨imports, hc⟩ :=
        collectImportClauses_some self.code clause.namedChildren self.vitestImports hnames
      rw [hstep, hcase, hc]
      exact ⟨_, rfl⟩
    · intro t ht
      rw [hstep, hcase] at ht
      cases hc : collectImportClauses self.code clause.namedChildren self.vitestImports with
      | none => simp [hc] at ht
      | some imports =>
        simp only [hc, Outcome.ok.injEq] at ht
        subst ht
        obtain ⟨h1, h2⟩ := collectImportClauses_inv self.code _ _ _ hc
        refine ⟨rfl, rfl, h1, h2, collectImportClauses_sub self.code _ _ _ hc, ?_⟩
        intro later t2 out hloop hrun hreq
        have hk := keeps_walkNodeLoop parentType later
          { self with
            vitestImports := imports
            existingVitestImport := some node
            edits := self.edits
              ++ [{ startByte := (node.StartByte : Int),
                    endByte := (node.EndByte : Int) + 1,
                    replacement := [] }] }
        rw [hloop] at hk
        obtain ⟨k1, k2, _⟩ := hk
        exact ⟨k1, fun k hk => (namedImports_mem _ _).2 (k2 k hk),
          runAfterWalk_ok_begins t2 out hrun hreq⟩

/-- C11, witness: the two import statements of `srcTwoImports`. The first is deleted
with the byte after it and its symbol `vi` is required; the second changes nothing, and
its text stands in the text that `run` returns, after the synthesized import. -/
theorem first_vitest_import_consolidated_witness :
    walkNodeStep "program" importExpect taskAfterImportVi = Outcome.ok taskAfterImportVi
      ∧ walkNode (newVitestifyTask srcTwoImports) treeTwoImports
          = Outcome.ok taskAfterTwoImports
      ∧ lit "import \x7b expect \x7d from 'vitest';"
          <:+: lit ("import \x7b expect, vi \x7d from 'vitest';\n"
                ++ "import \x7b expect \x7d from 'vitest';\nexpect(1);\n")
      ∧ run (fun _ => Outcome.ok treeTwoImports) srcTwoImports
          = Outcome.ok
              (lit ("import \x7b expect, vi \x7d from 'vitest';\n"
                ++ "import \x7b expect \x7d from 'vitest';\nexpect(1);\n"))
      ∧ taskAfterImportVi.edits = [{ startByte := 0, endByte := 29, replacement := [] }]
      ∧ (∃ nameNode name,
          (nd "import_specifier" 9 11 none
              [nd "identifier" 9 11 (some "name") []]).ChildByFieldName FIELD_NAME
            = some nameNode
          ∧ nameNode.Content srcTwoImports = some name
          ∧ (if name ∈ typeImports then lit "type " ++ name else name)
              ∈ taskAfterImportVi.vitestImports) :=
  ⟨((first_vitest_import_consolidated "program" taskAfterImportVi importExpect
      (nd "string" 52 60 (some "source")
        [tok "'" 52 53, nd "string_fragment" 53 59 none [], tok "'" 59 60])
      (nd "import_clause" 36 46 none
        [nd "named_imports" 36 46 none
          [tok "\x7b" 36 37,
           nd "import_specifier" 38 44 none [nd "identifier" 38 44 (some "name") []],
           tok "\x7d" 45 46]])
      (by decide) rfl (by decide) rfl (by decide)).1 rfl).1,
    rfl,
    ((first_vitest_import_consolidated "program" taskAfterImportVi importExpect
      (nd "string" 52 60 (some "source")
        [tok "'" 52 53, nd "string_fragment" 53 59 none [], tok "'" 59 60])
      (nd "import_clause" 36 46 none
        [nd "named_imports" 36 46 none
          [tok "\x7b" 36 37,
           nd "import_specifier" 38 44 none [nd "identifier" 38 44 (some "name") []],
           tok "\x7d" 45 46]])
      (by decide) rfl (by decide) rfl (by decide)).1 rfl).2
        taskAfterTwoImports
        (lit ("import \x7b expect, vi \x7d from 'vitest';\n"
          ++ "import \x7b expect \x7d from 'vitest';\nexpect(1);\n"))
        (lit "import \x7b expect \x7d from 'vitest';")
        (by decide) (by decide) (by decide),
    by decide!,
    (((first_vitest_import_consolidated "program" (newVitestifyTask srcTwoImports) importVi
      (nd "string" 19 27 (some "source")
        [tok "'" 19 20, nd "string_fragment" 20 26 none [], tok "'" 26 27])
      (nd "import_clause" 7 13 none
        [nd "named_imports" 7 13 none
          [tok "\x7b" 7 8,
           nd "import_specifier" 9 11 none [nd "identifier" 9 11 (some "name") []],
           tok "\x7d" 12 13]])
      (by decide) rfl (by decide) rfl (by decide)).2 rfl).2 taskAfterImportVi rfl).1,
    (((first_vitest_import_consolidated "program" (newVitestifyTask srcTwoImports) importVi
      (nd "string" 19 27 (some "source")
        [tok "'" 19 20, nd "string_fragment" 20 26 none [], tok "'" 26 27])
      (nd "import_clause" 7 13 none
        [nd "named_imports" 7 13 none
          [tok "\x7b" 7 8,
           nd "import_specifier" 9 11 none [nd "identifier" 9 11 (some "name") []],
           tok "\x7d" 12 13]])
      (by decide) rfl (by decide) rfl (by decide)).2 rfl).2 taskAfterImportVi rfl).2.2.2.1
      (nd "named_imports" 7 13 none
          [tok "\x7b" 7 8,
           nd "import_specifier" 9 11 none [nd "identifier" 9 11 (some "name") []],
           tok "\x7d" 12 13])
      (List.mem_singleton.2 rfl) (by decide)
      (nd "import_specifier" 9 11 none [nd "identifier" 9 11 (some "name") []])
      (List.mem_singleton.2 rfl) (by decide)⟩

/-- C11, counterexample: `srcSecondImportKept` has two import statements from `'vitest'`.
The walk records the deletion of the first only and requires `vi` (of the first
statement) and `expect` (of the call), not `describe` of the second statement; the text
that `run` returns holds two import statements from `'vitest'`, the synthesized one and
the second statement of the source. And in `srcNamespaceImport` the one import statement
from `'vitest'` is a namespace import: the walk records its deletion and requires
`expect` (of the call) only, and the text that `run` returns has the synthesized import
of `expect` and no binding of `V`. -/
theorem second_vitest_import_is_kept :
    (walkNode (newVitestifyTask srcSecondImportKept) treeSecondImportKept).map
        (fun t => (t.vitestImports, t.edits))
      = Outcome.ok
          ([lit "vi", lit "expect"], [{ startByte := 0, endByte := 29, replacement := [] }])
      ∧ run (fun _ => Outcome.ok treeSecondImportKept) srcSecondImportKept
        = Outcome.ok
            (lit "import \x7b expect, vi \x7d from 'vitest';\n"
              ++ lit "import \x7b describe \x7d from 'vitest';\nexpect(1);\n")
      ∧ (walkNode (newVitestifyTask srcNamespaceImport) treeNamespaceImport).map
          (fun t => (t.vitestImports, t.edits))
        = Outcome.ok
            ([lit "expect"], [{ startByte := 0, endByte := 29, replacement := [] }])
      ∧ run (fun _ => Outcome.ok treeNamespaceImport) srcNamespaceImport
        = Outcome.ok (lit "import \x7b expect \x7d from 'vitest';\nexpect(1);\n") := by
  decide!

/-- C18, witness: a source with no match of `regexJestReference`, and a source that
`regexJestReference` matches in a string, on which the walk records nothing. -/
theorem noop_when_nothing_recorded_witness :
    run parseExamples srcTestOnFirstLine = Outcome.error GoError.noop
      ∧ run (fun _ => Outcome.ok treeJestInString) srcJestInString
        = Outcome.error GoError.noop :=
  ⟨(noop_when_nothing_recorded parseExamples srcTestOnFirstLine).2.2.1 (by decide),
    (noop_when_nothing_recorded (fun _ => Outcome.ok treeJestInString)
      srcJestInString).2.1 treeJestInString (newVitestifyTask srcJestInString) rfl rfl
      rfl rfl rfl rfl⟩

/-- C19 (amended): for every text `T`, the text that a first `run` returned among them.
When `T` holds no match of `regexJestReference`, `run` on `T` returns the noop sentinel.
When `T` holds a match and its tree begins with an import statement from `'vitest'` with
an import clause, as the consolidated import of a first `run` is, `run` on `T` does not
return the noop sentinel: the walk records the deletion of that statement first. -/
theorem second_run_noop_or_import_again (parse : Bytes → Outcome Node) (T : Bytes) :
    (regexJestReference T = false → run parse T = Outcome.error GoError.noop)
      ∧ ∀ (root imp sourceNode clause : Node) (rest : List Node),
          regexJestReference T = true →
          parse T = Outcome.ok root →
          root.children = imp :: rest →
          imp.isNamed = true →
          imp.type = NODE_IMPORT_STATEMENT →
          imp.ChildByFieldName FIELD_IMPORT_EXPORT_SOURCE = some sourceNode →
          sourceNode.Content T = some (lit "'vitest'") →
          imp.NamedChild 0 = some clause →
          clause.type = NODE_IMPORT_CLAUSE →
            run parse T ≠ Outcome.error GoError.noop
              ∧ ∀ t, walkNode (newVitestifyTask T) root = Outcome.ok t →
                  [({ startByte := (imp.StartByte : Int),
                      endByte := (imp.EndByte : Int) + 1,
                      replacement := [] } : codeEdit)] <+: t.edits := by
  refine ⟨run_noop_of_no_match parse T, ?_⟩
  intro root imp sourceNode clause rest hre hparse hroot hnamed htype hsrc hcontent
    hclause hct
  have hwalk : walkNode (newVitestifyTask T) root
      = match vitestImportCase (newVitestifyTask T) imp with
        | Outcome.ok self1 => walkNodeLoop root.type rest self1
        | Outcome.error err => Outcome.error err
        | Outcome.panic => Outcome.panic := by
    unfold walkNode
    rw [hroot, walkNodeLoop_cons, if_pos hnamed,
      walkNodeStep_vitest_import root.type imp sourceNode (newVitestifyTask T) htype hsrc
        hcontent]
  rw [vitestImportCase_first (newVitestifyTask T) imp clause rfl hclause hct] at hwalk
  have hprefix : ∀ t, walkNode (newVitestifyTask T) root = Outcome.ok t →
      [({ startByte := (imp.StartByte : Int), endByte := (imp.EndByte : Int) + 1,
          replacement := [] } : codeEdit)] <+: t.edits := by
    intro t ht
    rw [hwalk] at ht
    cases hc : collectImportClauses (newVitestifyTask T).code clause.namedChildren
        (newVitestifyTask T).vitestImports with
    | none => simp [hc] at ht
    | some imports =>
      simp only [hc] at ht
      have hk := keeps_walkNodeLoop root.type rest
        { newVitestifyTask T with
          vitestImports := imports
          existingVitestImport := some imp
          edits := (newVitestifyTask T).edits
            ++ [{ startByte := (imp.StartByte : Int),
                  endByte := (imp.EndByte : Int) + 1,
                  replacement := [] }] }
      rw [ht] at hk
      exact hk.1
  refine ⟨?_, hprefix⟩
  intro hrun
  rw [run_of_match parse T hre, hparse] at hrun
  simp only at hrun
  cases hw : walkNode (newVitestifyTask T) root with
  | panic => simp [hw] at hrun
  | error err =>
    simp only [hw, Outcome.error.injEq] at hrun
    have hk := keeps_walkNode (newVitestifyTask T) root
    rw [hw] at hk
    exact hk hrun
  | ok t =>
    simp only [hw] at hrun
    obtain ⟨_, hedits, _, _⟩ := runAfterWalk_noop_inv t hrun
    have hp := hprefix t hw
    rw [hedits] at hp
    simp at hp

/-- C19, witness: `srcTestRewritten`, the text that `run` returns for the scenario; its
tree begins with the consolidated import. -/
theorem second_run_noop_or_import_again_witness :
    run parseExamples srcTestRewritten ≠ Outcome.error GoError.noop :=
  ((second_run_noop_or_import_again parseExamples srcTestRewritten).2
    treeTestRewritten
    (nd "import_statement" 0 38 none [
      tok "import" 0 6,
      nd "import_clause" 7 23 none [
        nd "named_imports" 7 23 none [
          tok "\x7b" 7 8,
          nd "import_specifier" 9 15 none [
            nd "identifier" 9 15 (some "name") []],
          tok "," 15 16,
          nd "import_specifier" 17 21 none [
            nd "identifier" 17 21 (some "name") []],
          tok "\x7d" 22 23]],
      tok "from" 24 28,
      nd "string" 29 37 (some "source") [
        tok "'" 29 30,
        nd "string_fragment" 30 36 none [],
        tok "'" 36 37],
      tok ";" 37 38])
    (nd "string" 29 37 (some "source") [
      tok "'" 29 30,
      nd "string_fragment" 30 36 none [],
      tok "'" 36 37])
    (nd "import_clause" 7 23 none [
      nd "named_imports" 7 23 none [
        tok "\x7b" 7 8,
        nd "import_specifier" 9 15 none [
          nd "identifier" 9 15 (some "name") []],
        tok "," 15 16,
        nd "import_specifier" 17 21 none [
          nd "identifier" 17 21 (some "name") []],
        tok "\x7d" 22 23]])
    _ (by decide) rfl rfl rfl (by decide) rfl (by decide) rfl (by decide)).1

/-- C19, counterexample: `run` on the scenario source returns `srcTestRewritten`, and
`run` on `srcTestRewritten` returns `srcTestRewritten` again, not the noop sentinel:
`regexJestReference` matches the call of `test`, the walk deletes the
consolidated import and requires `expect` and `test` again. -/
theorem second_run_returns_the_text_again :
    run parseExamples srcTestAfterNewline = Outcome.ok srcTestRewritten
      ∧ run parseExamples srcTestRewritten = Outcome.ok srcTestRewritten
      ∧ run parseExamples srcTestRewritten ≠ Outcome.error GoError.noop := by
  decide!

/-! ## The position of a reader stays inside the buffer -/

/-- `Seek` with an argument that is not negative keeps the buffer and keeps the position
inside it. -/
theorem seek_keeps_range (r : Reader) (n : Int) (hn : 0 ≤ n)
    (h0 : 0 ≤ r.pos) (h1 : r.pos ≤ (r.code.length : Int)) :
    (r.Seek n).2.code = r.code ∧ 0 ≤ (r.Seek n).2.pos
      ∧ (r.Seek n).2.pos ≤ (r.code.length : Int) := by
  unfold Reader.Seek
  by_cases hg : n > (r.code.length : Int)
  · rw [if_pos hg]
    exact ⟨rfl, h0, h1⟩
  · rw [if_neg hg]
    exact ⟨rfl, hn, by simpa using hg⟩

/-- `ReadTo` with an argument that is not negative keeps the buffer and keeps the
position inside it, also when it fails. -/
theorem readTo_keeps_range (r : Reader) (n : Int) (hn : 0 ≤ n)
    (h0 : 0 ≤ r.pos) (h1 : r.pos ≤ (r.code.length : Int)) :
    (r.ReadTo n).2.code = r.code ∧ 0 ≤ (r.ReadTo n).2.pos
      ∧ (r.ReadTo n).2.pos ≤ (r.code.length : Int) := by
  unfold Reader.ReadTo
  by_cases he : r.pos ≥ (r.code.length : Int)
  · rw [if_pos he]
    exact ⟨rfl, h0, h1⟩
  · rw [if_neg he]
    by_cases hs : n = r.pos
    · rw [if_pos hs]
      exact ⟨rfl, h0, h1⟩
    · rw [if_neg hs]
      have hk := seek_keeps_range r n hn h0 h1
      rcases hsk : r.Seek n with ⟨oe, r1⟩
      rw [hsk] at hk
      simp only at hk
      cases oe with
      | some err => exact hk
      | none =>
        simp only
        cases sliceBytes r1.code r.pos n with
        | some s => exact hk
        | none => exact hk

/-- `ReadToEnd` keeps the buffer and keeps the position inside it. -/
theorem readToEnd_keeps_range (r : Reader)
    (h0 : 0 ≤ r.pos) (h1 : r.pos ≤ (r.code.length : Int)) :
    r.ReadToEnd.2.code = r.code ∧ 0 ≤ r.ReadToEnd.2.pos
      ∧ r.ReadToEnd.2.pos ≤ (r.code.length : Int) := by
  unfold Reader.ReadToEnd
  by_cases he : r.pos ≥ (r.code.length : Int)
  · rw [if_pos he]
    exact ⟨rfl, h0, h1⟩
  · rw [if_neg he]
    exact readTo_keeps_range r _ (Int.natCast_nonneg _) h0 h1

/-- `MaybeConsumeTrailingNewline` on a position that is not negative: one byte further
when the byte at the position is a newline, the same reader otherwise. -/
theorem maybeConsume_eq (r : Reader) (h0 : 0 ≤ r.pos) :
    r.MaybeConsumeTrailingNewline
      = some (if r.code.get? r.pos.toNat = some 10 then { r with pos := r.pos + 1 }
              else r) := by
  unfold Reader.MaybeConsumeTrailingNewline
  by_cases he : r.pos ≥ (r.code.length : Int)
  · rw [if_pos he]
    have hnone : r.code.get? r.pos.toNat = none := by
      rw [List.get?_eq_none]
      omega
    rw [hnone]
    simp
  · rw [if_neg he, if_neg (by omega)]
    by_cases hb : r.code.get? r.pos.toNat = some 10
    · rw [if_pos hb, if_pos hb]
      unfold Reader.Seek
      rw [if_neg (by omega)]
    · rw [if_neg hb, if_neg hb]

/-- One call with an argument that is not negative keeps the buffer and keeps the
position inside it. -/
theorem call_keeps_range (r : Reader) (op : ReaderOp) (hop : op.argNonneg = true)
    (h0 : 0 ≤ r.pos) (h1 : r.pos ≤ (r.code.length : Int)) :
    ∃ next, r.call op = some next ∧ next.code = r.code ∧ 0 ≤ next.pos
      ∧ next.pos ≤ (r.code.length : Int) := by
  cases op with
  | readTo n => exact ⟨_, rfl, readTo_keeps_range r n (of_decide_eq_true hop) h0 h1⟩
  | readToEnd => exact ⟨_, rfl, readToEnd_keeps_range r h0 h1⟩
  | seek n => exact ⟨_, rfl, seek_keeps_range r n (of_decide_eq_true hop) h0 h1⟩
  | maybeConsumeTrailingNewline =>
    refine ⟨_, maybeConsume_eq r h0, ?_⟩
    by_cases hb : r.code.get? r.pos.toNat = some 10
    · rw [if_pos hb]
      have hlt : r.pos.toNat < r.code.length := by
        by_contra hge
        rw [List.get?_eq_none.2 (by omega)] at hb
        cases hb
      exact ⟨rfl, by show 0 ≤ r.pos + 1; omega, by show r.pos + 1 ≤ _; omega⟩
    · rw [if_neg hb]
      exact ⟨rfl, h0, h1⟩

/-- A sequence of calls with arguments that are not negative keeps the buffer and keeps
the position inside it. -/
theorem calls_keep_range :
    ∀ (ops : List ReaderOp) (r : Reader), (∀ op ∈ ops, op.argNonneg = true) →
      0 ≤ r.pos → r.pos ≤ (r.code.length : Int) →
      ∃ last, r.calls ops = some last ∧ last.code = r.code ∧ 0 ≤ last.pos
        ∧ last.pos ≤ (r.code.length : Int) := by
  intro ops
  induction ops with
  | nil =>
    intro r _ h0 h1
    exact ⟨r, rfl, rfl, h0, h1⟩
  | cons op rest ih =>
    intro r hops h0 h1
    obtain ⟨next, hcall, hcode, hn0, hn1⟩ :=
      call_keeps_range r op (hops op (List.mem_cons_self _ _)) h0 h1
    rw [← hcode] at hn1
    obtain ⟨last, hl, hlc, hl0, hl1⟩ :=
      ih next (fun o ho => hops o (List.mem_cons_of_mem _ ho)) hn0 hn1
    refine ⟨last, ?_, hlc.trans hcode, hl0, ?_⟩
    · rw [Reader.calls, hcall]
      exact hl
    · rw [← hcode]
      exact hl1

/-- C25: starting from a new reader, after any sequence of `ReadTo`, `ReadToEnd`, `Seek`
and `MaybeConsumeTrailingNewline` calls with arguments that are not negative, whether
each call succeeds or fails, the reader is still over the same buffer and its position
satisfies `0 ≤ pos ≤ len(buffer)`; and on every reader whose position is not negative
`MaybeConsumeTrailingNewline` advances the position by exactly one when the byte at the
position is a newline and leaves the reader unchanged otherwise. -/
theorem reader_position_in_range (code : Bytes) (ops : List ReaderOp)
    (hops : ∀ op ∈ ops, op.argNonneg = true) :
    (∃ last, (NewReader code).calls ops = some last ∧ last.code = code ∧ 0 ≤ last.pos
        ∧ last.pos ≤ (code.length : Int))
      ∧ ∀ r : Reader, 0 ≤ r.pos →
          (r.code.get? r.pos.toNat = some 10 →
              r.MaybeConsumeTrailingNewline = some { r with pos := r.pos + 1 })
            ∧ (r.code.get? r.pos.toNat ≠ some 10 →
                r.MaybeConsumeTrailingNewline = some r) := by
  refine ⟨calls_keep_range ops (NewReader code) hops (le_refl _)
    (Int.natCast_nonneg _), ?_⟩
  intro r h0
  rw [maybeConsume_eq r h0]
  exact ⟨fun hb => by rw [if_pos hb], fun hb => by rw [if_neg hb]⟩

/-- C25, witness: over `"a\nb"`, a read to 1, a newline consumed, a seek past the end
that fails, a read backwards whose slice panics, a read to the end and a newline looked
for at the end: the reader ends at position 3. -/
theorem reader_position_in_range_witness :
    (NewReader (lit "a\nb")).calls
        [ReaderOp.readTo 1, ReaderOp.maybeConsumeTrailingNewline, ReaderOp.seek 7,
         ReaderOp.readTo 0, ReaderOp.readToEnd, ReaderOp.maybeConsumeTrailingNewline]
      = some { code := lit "a\nb", pos := 3 }
      ∧ ∃ last, (NewReader (lit "a\nb")).calls
            [ReaderOp.readTo 1, ReaderOp.maybeConsumeTrailingNewline, ReaderOp.seek 7,
             ReaderOp.readTo 0, ReaderOp.readToEnd, ReaderOp.maybeConsumeTrailingNewline]
          = some last ∧ last.code = lit "a\nb" ∧ 0 ≤ last.pos
            ∧ last.pos ≤ ((lit "a\nb").length : Int) :=
  ⟨by decide,
    (reader_position_in_range (lit "a\nb")
      [ReaderOp.readTo 1, ReaderOp.maybeConsumeTrailingNewline, ReaderOp.seek 7,
       ReaderOp.readTo 0, ReaderOp.readToEnd, ReaderOp.maybeConsumeTrailingNewline]
      (by decide)).1⟩

/-! ## The replay and the order of discovery -/

/-- A ledger in which every edit ends where the next starts or before, every edit has
`start ≤ end`, and no two different insertions stand at one offset, has one order only:
two such arrangements of the same edits are the same list. -/
theorem chain_ledger_unique (s1 s2 : List codeEdit) (hperm : s1.Perm s2)
    (hwf : ∀ e ∈ s1, e.startByte ≤ e.endByte)
    (h1 : List.Chain' (fun a b : codeEdit => a.endByte ≤ b.startByte) s1)
    (h2 : List.Chain' (fun a b : codeEdit => a.endByte ≤ b.startByte) s2)
    (hins : ∀ a ∈ s1, ∀ b ∈ s1, a.startByte = b.startByte → a.endByte = a.startByte →
      b.endByte = b.startByte → a = b) :
    s1 = s2 := by
  let r : codeEdit → codeEdit → Prop := fun a b =>
    a.startByte < b.startByte ∨ (a.startByte = b.startByte ∧ a.endByte < b.endByte) ∨ a = b
  haveI : IsTrans codeEdit r := ⟨by
    intro a b c hab hbc
    rcases hab with hab | ⟨hab, hab2⟩ | rfl
    · rcases hbc with hbc | ⟨hbc, _⟩ | rfl
      · exact Or.inl (lt_trans hab hbc)
      · exact Or.inl (by omega)
      · exact Or.inl hab
    · rcases hbc with hbc | ⟨hbc, hbc2⟩ | rfl
      · exact Or.inl (by omega)
      · exact Or.inr (Or.inl ⟨by omega, by omega⟩)
      · exact Or.inr (Or.inl ⟨hab, hab2⟩)
    · exact hbc⟩
  haveI : IsAntisymm codeEdit r := ⟨by
    intro a b hab hba
    rcases hab with hab | ⟨hab, hab2⟩ | rfl
    · rcases hba with hba | ⟨hba, _⟩ | rfl
      · omega
      · omega
      · rfl
    · rcases hba with hba | ⟨_, hba2⟩ | rfl
      · omega
      · omega
      · rfl
    · rfl⟩
  have key : ∀ s : List codeEdit, (∀ e ∈ s, e ∈ s1) →
      List.Chain' (fun a b : codeEdit => a.endByte ≤ b.startByte) s → List.Sorted r s := by
    intro s hsub hch
    refine List.chain'_iff_pairwise.1 ((List.Chain'.iff_mem.1 hch).imp ?_)
    intro a b hab
    obtain ⟨ha, hb, hle⟩ := hab
    have ha1 := hwf a (hsub a ha)
    have hb1 := hwf b (hsub b hb)
    by_cases hlt : a.startByte < b.startByte
    · exact Or.inl hlt
    · have hs : a.startByte = b.startByte := by omega
      by_cases hbz : b.startByte < b.endByte
      · exact Or.inr (Or.inl ⟨hs, by omega⟩)
      · exact Or.inr (Or.inr
          (hins a (hsub a ha) b (hsub b hb) hs (by omega) (by omega)))
  exact List.eq_of_perm_of_sorted hperm (key s1 (fun _ h => h) h1)
    (key s2 (fun e h => hperm.mem_iff.2 h) h2)

/-- A ledger in which no two edits have one start has one arrangement by start only:
every permutation of it that is sorted by start, as any sort returns it, is the list
that `sortEdits` returns. -/
theorem sortEdits_unique (es sorted : List codeEdit)
    (hdistinct : es.Pairwise (fun a b => a.startByte ≠ b.startByte))
    (hperm : sorted.Perm es)
    (hsorted : sorted.Pairwise (fun a b => a.startByte ≤ b.startByte)) :
    sorted = sortEdits es := by
  let r : codeEdit → codeEdit → Prop := fun a b => a.startByte < b.startByte ∨ a = b
  haveI : IsAntisymm codeEdit r := ⟨by
    intro a b hab hba
    rcases hab with hab | rfl
    · rcases hba with hba | rfl
      · omega
      · rfl
    · rfl⟩
  have key : ∀ s : List codeEdit, s.Perm es →
      s.Pairwise (fun a b => a.startByte ≤ b.startByte) → List.Sorted r s := by
    intro s hp hs
    have hd : s.Pairwise (fun a b => a.startByte ≠ b.startByte) :=
      (hp.pairwise_iff (fun hab => Ne.symm hab)).2 hdistinct
    exact (hs.and hd).imp (fun hab => Or.inl (lt_of_le_of_ne hab.1 hab.2))
  have hp2 : (sortEdits es).Perm es := List.perm_insertionSort _ _
  have hs2 : (sortEdits es).Pairwise (fun a b => a.startByte ≤ b.startByte) := by
    haveI : IsTotal codeEdit (fun a b => a.startByte - b.startByte ≤ 0) :=
      ⟨fun a b => by
        show a.startByte - b.startByte ≤ 0 ∨ b.startByte - a.startByte ≤ 0
        omega⟩
    haveI : IsTrans codeEdit (fun a b => a.startByte - b.startByte ≤ 0) :=
      ⟨fun a b c hab hbc => by
        have hab' : a.startByte - b.startByte ≤ 0 := hab
        have hbc' : b.startByte - c.startByte ≤ 0 := hbc
        show a.startByte - c.startByte ≤ 0
        omega⟩
    have h := List.sorted_insertionSort (fun a b : codeEdit => a.startByte - b.startByte ≤ 0) es
    exact List.Pairwise.imp (fun hab => by
      have hab' : _ - _ ≤ (0 : Int) := hab
      omega) h
  exact List.eq_of_perm_of_sorted (hperm.trans hp2.symm) (key sorted hperm hsorted)
    (key (sortEdits es) hp2 hs2)

/-- C23 (amended): for any two ledgers that are permutations of each other, whose edits
have `start ≤ end`, and in which no two different insertions stand at one offset: any two
arrangements of them with `end_i ≤ start_{i+1}` for every adjacent pair (what a sort by
start returns, whatever order it leaves edits with one start in) are the same sequence
and are replayed alike; and when the sort of `run` yields such a sequence for both, it
yields the same sequence and the replay yields the same chunks, hence the same output
text, the same error or the same panic. -/
theorem replay_of_permuted_ledger (code : Bytes) (l1 l2 : List codeEdit)
    (chunks : List Bytes)
    (hperm : l1.Perm l2)
    (hwf : ∀ e ∈ l1, e.startByte ≤ e.endByte)
    (hins : ∀ a ∈ l1, ∀ b ∈ l1, a.startByte = b.startByte → a.endByte = a.startByte →
      b.endByte = b.startByte → a = b) :
    (∀ s1 s2 : List codeEdit, s1.Perm l1 → s2.Perm l2 →
        List.Chain' (fun a b : codeEdit => a.endByte ≤ b.startByte) s1 →
        List.Chain' (fun a b : codeEdit => a.endByte ≤ b.startByte) s2 →
        s1 = s2
          ∧ replayLoop s1 (NewReader code) chunks = replayLoop s2 (NewReader code) chunks)
      ∧ (List.Chain' (fun a b : codeEdit => a.endByte ≤ b.startByte) (sortEdits l1) →
          List.Chain' (fun a b : codeEdit => a.endByte ≤ b.startByte) (sortEdits l2) →
          sortEdits l1 = sortEdits l2
            ∧ replay code l1 chunks = replay code l2 chunks
            ∧ (replay code l1 chunks).map Sprint = (replay code l2 chunks).map Sprint) := by
  have huniq : ∀ s1 s2 : List codeEdit, s1.Perm l1 → s2.Perm l2 →
      List.Chain' (fun a b : codeEdit => a.endByte ≤ b.startByte) s1 →
      List.Chain' (fun a b : codeEdit => a.endByte ≤ b.startByte) s2 → s1 = s2 := by
    intro s1 s2 hp1 hp2 h1 h2
    exact chain_ledger_unique s1 s2 ((hp1.trans hperm).trans hp2.symm)
      (fun e he => hwf e (hp1.mem_iff.1 he)) h1 h2
      (fun a ha b hb => hins a (hp1.mem_iff.1 ha) b (hp1.mem_iff.1 hb))
  refine ⟨?_, ?_⟩
  · intro s1 s2 hp1 hp2 h1 h2
    have hs := huniq s1 s2 hp1 hp2 h1 h2
    exact ⟨hs, by rw [hs]⟩
  · intro h1 h2
    have hs : sortEdits l1 = sortEdits l2 :=
      huniq (sortEdits l1) (sortEdits l2) (List.perm_insertionSort _ _)
        (List.perm_insertionSort _ _) h1 h2
    have hr : replay code l1 chunks = replay code l2 chunks := by
      unfold replay
      rw [hs]
    exact ⟨hs, hr, by rw [hr]⟩

/-- C23, witness: two edits found in either order, an insertion among them. Both orders
are replayed to `import;aXbcdYf`. -/
theorem replay_of_permuted_ledger_witness :
    replay (lit "abcdef")
        [{ startByte := 4, endByte := 5, replacement := lit "Y" },
         { startByte := 1, endByte := 1, replacement := lit "X" }]
        [lit "import;"]
      = replay (lit "abcdef")
          [{ startByte := 1, endByte := 1, replacement := lit "X" },
           { startByte := 4, endByte := 5, replacement := lit "Y" }]
          [lit "import;"]
      ∧ (replay (lit "abcdef")
          [{ startByte := 4, endByte := 5, replacement := lit "Y" },
           { startByte := 1, endByte := 1, replacement := lit "X" }]
          [lit "import;"]).map Sprint = Outcome.ok (lit "import;aXbcdYf") :=
  ⟨((replay_of_permuted_ledger (lit "abcdef")
    [{ startByte := 4, endByte := 5, replacement := lit "Y" },
     { startByte := 1, endByte := 1, replacement := lit "X" }]
    [{ startByte := 1, endByte := 1, replacement := lit "X" },
     { startByte := 4, endByte := 5, replacement := lit "Y" }]
    [lit "import;"]
    (List.Perm.swap _ _ _)
    (by decide)
    (by decide)).2
    (show List.Chain' (fun a b : codeEdit => a.endByte ≤ b.startByte)
        [{ startByte := 1, endByte := 1, replacement := lit "X" },
         { startByte := 4, endByte := 5, replacement := lit "Y" }] from
      List.chain'_cons.2 ⟨by decide, List.chain'_singleton _⟩)
    (show List.Chain' (fun a b : codeEdit => a.endByte ≤ b.startByte)
        [{ startByte := 1, endByte := 1, replacement := lit "X" },
         { startByte := 4, endByte := 5, replacement := lit "Y" }] from
      List.chain'_cons.2 ⟨by decide, List.chain'_singleton _⟩)).2.1,
    by decide⟩

/-- C23, counterexample: two insertions at offset 2 of `abcd`, found in one order and in
the other. The two ledgers are permutations of each other and both satisfy
`end_i ≤ start_{i+1}` after sorting by start (the two edits compare equal, and the
insertion sort that the library runs on a slice of two leaves them as they stand); the
replay yields `abXYcd` for one and `abYXcd` for the other. -/
theorem replay_depends_on_insertion_order :
    List.Perm
        [({ startByte := 2, endByte := 2, replacement := lit "X" } : codeEdit),
         { startByte := 2, endByte := 2, replacement := lit "Y" }]
        [{ startByte := 2, endByte := 2, replacement := lit "Y" },
         { startByte := 2, endByte := 2, replacement := lit "X" }]
      ∧ List.Chain' (fun a b : codeEdit => a.endByte ≤ b.startByte)
          (sortEdits
            [{ startByte := 2, endByte := 2, replacement := lit "X" },
             { startByte := 2, endByte := 2, replacement := lit "Y" }])
      ∧ List.Chain' (fun a b : codeEdit => a.endByte ≤ b.startByte)
          (sortEdits
            [{ startByte := 2, endByte := 2, replacement := lit "Y" },
             { startByte := 2, endByte := 2, replacement := lit "X" }])
      ∧ (replay (lit "abcd")
            [{ startByte := 2, endByte := 2, replacement := lit "X" },
             { startByte := 2, endByte := 2, replacement := lit "Y" }] []).map Sprint
          = Outcome.ok (lit "abXYcd")
      ∧ (replay (lit "abcd")
            [{ startByte := 2, endByte := 2, replacement := lit "Y" },
             { startByte := 2, endByte := 2, replacement := lit "X" }] []).map Sprint
          = Outcome.ok (lit "abYXcd") :=
  ⟨List.Perm.swap _ _ _,
    show List.Chain' (fun a b : codeEdit => a.endByte ≤ b.startByte)
        [{ startByte := 2, endByte := 2, replacement := lit "X" },
         { startByte := 2, endByte := 2, replacement := lit "Y" }] from
      List.chain'_cons.2 ⟨by decide, List.chain'_singleton _⟩,
    show List.Chain' (fun a b : codeEdit => a.endByte ≤ b.startByte)
        [{ startByte := 2, endByte := 2, replacement := lit "Y" },
         { startByte := 2, endByte := 2, replacement := lit "X" }] from
      List.chain'_cons.2 ⟨by decide, List.chain'_singleton _⟩,
    by decide, by decide⟩

/-! ## Well-formed trees -/

/-- A well-formed node, unfolded. -/
theorem wellFormed_iff (node : Node) :
    node.wellFormed = true
      ↔ node.StartByte ≤ node.EndByte
          ∧ wellFormedList node.StartByte node.EndByte node.children = true := by
  cases node with
  | mk type startByte endByte named field children =>
    rw [Node.wellFormed]
    simp [Node.StartByte, Node.EndByte, Node.children]

/-- A well-formed list of children, unfolded. -/
theorem wellFormedList_cons (lo hi : Nat) (child : Node) (rest : List Node) :
    wellFormedList lo hi (child :: rest) = true
      ↔ lo ≤ child.StartByte ∧ child.EndByte ≤ hi ∧ child.wellFormed = true
          ∧ wellFormedList child.EndByte hi rest = true := by
  rw [wellFormedList]
  simp [and_assoc]

/-- Every child of a well-formed list lies between the bounds of the list and is
well-formed. -/
theorem wellFormedList_mem :
    ∀ (nodes : List Node) (lo hi : Nat), wellFormedList lo hi nodes = true →
      ∀ c ∈ nodes, lo ≤ c.StartByte ∧ c.StartByte ≤ c.EndByte ∧ c.EndByte ≤ hi
        ∧ c.wellFormed = true := by
  intro nodes
  induction nodes with
  | nil =>
    intro lo hi _ c hc
    cases hc
  | cons child rest ih =>
    intro lo hi h c hc
    obtain ⟨h1, h2, h3, h4⟩ := (wellFormedList_cons lo hi child rest).1 h
    have hse := ((wellFormed_iff child).1 h3).1
    rcases List.mem_cons.1 hc with rfl | hc
    · exact ⟨h1, hse, h2, h3⟩
    · obtain ⟨g1, g2, g3, g4⟩ := ih child.EndByte hi h4 c hc
      exact ⟨by omega, g2, g3, g4⟩

/-- The children of a well-formed list are in order: each ends where the later ones
start, or before. -/
theorem wellFormedList_pairwise :
    ∀ (nodes : List Node) (lo hi : Nat), wellFormedList lo hi nodes = true →
      nodes.Pairwise (fun a b => a.EndByte ≤ b.StartByte) := by
  intro nodes
  induction nodes with
  | nil =>
    intro lo hi _
    exact List.Pairwise.nil
  | cons child rest ih =>
    intro lo hi h
    obtain ⟨_, _, _, h4⟩ := (wellFormedList_cons lo hi child rest).1 h
    refine List.Pairwise.cons ?_ (ih child.EndByte hi h4)
    intro b hb
    exact (wellFormedList_mem rest child.EndByte hi h4 b hb).1

/-- A child of a well-formed node lies inside the node and is well-formed. -/
theorem wellFormed_child (node c : Node) (h : node.wellFormed = true)
    (hc : c ∈ node.children) :
    node.StartByte ≤ c.StartByte ∧ c.StartByte ≤ c.EndByte ∧ c.EndByte ≤ node.EndByte
      ∧ c.wellFormed = true :=
  wellFormedList_mem _ _ _ ((wellFormed_iff node).1 h).2 c hc

/-- Two different children of a well-formed node have disjoint ranges. -/
theorem wellFormed_children_apart (node a b : Node) (h : node.wellFormed = true)
    (ha : a ∈ node.children) (hb : b ∈ node.children) (hne : a ≠ b) :
    a.EndByte ≤ b.StartByte ∨ b.EndByte ≤ a.StartByte := by
  have hp := wellFormedList_pairwise _ _ _ ((wellFormed_iff node).1 h).2
  have hs : node.children.Pairwise
      (fun a b => a.EndByte ≤ b.StartByte ∨ b.EndByte ≤ a.StartByte) :=
    hp.imp (fun hab => Or.inl hab)
  exact hs.forall (fun x y hxy => hxy.symm) ha hb hne

/-- The node that `ChildByFieldName` yields is a child with that field name. -/
theorem childByFieldName_mem (node c : Node) (name : String)
    (h : node.ChildByFieldName name = some c) :
    c ∈ node.children ∧ c.fieldName = some name := by
  unfold Node.ChildByFieldName at h
  exact ⟨List.mem_of_find?_eq_some h, by simpa using List.find?_some h⟩

/-- The node that `NamedChild` yields is a child. -/
theorem namedChild_mem (node c : Node) (idx : Nat) (h : node.NamedChild idx = some c) :
    c ∈ node.children := by
  unfold Node.NamedChild at h
  exact (List.mem_filter.1 (List.get?_mem h)).1

/-- A node is one of its nodes. -/
theorem subnodes_self (node : Node) : node ∈ node.subnodes := by
  cases node with
  | mk type startByte endByte named field children =>
    rw [Node.subnodes]
    exact List.mem_cons_self _ _

/-- The nodes of a child are nodes of the list. -/
theorem subnodesList_mem :
    ∀ (nodes : List Node) (c n : Node), c ∈ nodes → n ∈ c.subnodes →
      n ∈ subnodesList nodes := by
  intro nodes
  induction nodes with
  | nil =>
    intro c n hc _
    cases hc
  | cons child rest ih =>
    intro c n hc hn
    rw [subnodesList]
    rcases List.mem_cons.1 hc with rfl | hc
    · exact List.mem_append_left _ hn
    · exact List.mem_append_right _ (ih c n hc hn)

/-- The nodes of a child are nodes of the parent. -/
theorem subnodes_child (node c n : Node) (hc : c ∈ node.children)
    (hn : n ∈ c.subnodes) : n ∈ node.subnodes := by
  cases node with
  | mk type startByte endByte named field children =>
    rw [Node.subnodes]
    exact List.mem_cons_of_mem _ (subnodesList_mem children c n hc hn)

/-- `processJestMock` records one edit when it returns. -/
theorem processJestMock_one_edit (self : vitestifyTask) (node : Node) (t : vitestifyTask)
    (h : processJestMock self node = Outcome.ok t) :
    t.vitestImports = self.vitestImports
      ∧ ∃ replacement, t.edits = self.edits ++ [nodeEdit node replacement] := by
  unfold processJestMock at h
  split at h
  · cases h
  · split at h
    · cases h
    · split at h
      · cases h
      · split_ifs at h
        · cases h
          exact ⟨rfl, _, rfl⟩
        · split at h
          · cases h
          · split at h
            · cases h
            · split at h
              · cases h
              · cases h
                exact ⟨rfl, _, rfl⟩

/-- `processJestFnCall` records one edit when it returns, and requires nothing. -/
theorem processJestFnCall_one_edit (self : vitestifyTask) (node nameNode : Node)
    (namespaceNode : Option Node) (t : vitestifyTask)
    (h : processJestFnCall self node nameNode namespaceNode = Outcome.ok t) :
    t.vitestImports = self.vitestImports ∧ ∃ e, t.edits = self.edits ++ [e] := by
  unfold processJestFnCall at h
  split at h
  · cases h
  · split at h
    · cases h
    · split_ifs at h
      · obtain ⟨h1, r, h2⟩ := processJestMock_one_edit self node t h
        exact ⟨h1, _, h2⟩
      · split at h
        · unfold errorWithContent at h
          split at h <;> cases h
        · split at h
          · cases h
          · split at h
            · cases h
            · cases h
              exact ⟨rfl, _, rfl⟩
      · split at h
        · unfold errorWithContent at h
          split at h <;> cases h
        · split at h
          · cases h
          · split at h
            · cases h
            · cases h
              exact ⟨rfl, _, rfl⟩
      · split at h
        · cases h
        · cases h
          exact ⟨rfl, _, rfl⟩

/-! ## Calls on the `jest` and `vi` namespaces -/

/-- A call whose callee is a member access on `jest`: `vi` is required and
`processJestFnCall` does the rest; the children of the call are not walked. -/
theorem processCallExpression_jest (self : vitestifyTask)
    (node nameNode propertyNode namespaceNode : Node) (propertyName : Bytes)
    (hfn : node.ChildByFieldName "function" = some nameNode)
    (hty : nameNode.type = "member_expression")
    (hp : nameNode.ChildByFieldName "property" = some propertyNode)
    (hpc : propertyNode.Content self.code = some propertyName)
    (ho : nameNode.ChildByFieldName "object" = some namespaceNode)
    (hoc : namespaceNode.Content self.code = some (lit "jest")) :
    processCallExpression self node
      = processJestFnCall (self.addImport (lit "vi")) node nameNode (some namespaceNode) := by
  unfold processCallExpression
  rw [callExpressionCase_member self node nameNode propertyNode namespaceNode (lit "jest")
    propertyName hfn hty hp hpc ho hoc]
  unfold callSwitches
  rw [if_neg (by decide), if_pos rfl]
  cases processJestFnCall (self.addImport (lit "vi")) node nameNode (some namespaceNode) with
  | ok t => rfl
  | error err => rfl
  | panic => rfl

/-- A call whose callee is a member access on `vi`: `vi` is required and nothing else
happens; the children of the call are not walked. -/
theorem processCallExpression_vi (self : vitestifyTask)
    (node nameNode propertyNode namespaceNode : Node) (propertyName : Bytes)
    (hfn : node.ChildByFieldName "function" = some nameNode)
    (hty : nameNode.type = "member_expression")
    (hp : nameNode.ChildByFieldName "property" = some propertyNode)
    (hpc : propertyNode.Content self.code = some propertyName)
    (ho : nameNode.ChildByFieldName "object" = some namespaceNode)
    (hoc : namespaceNode.Content self.code = some (lit "vi")) :
    processCallExpression self node = Outcome.ok (self.addImport (lit "vi")) := by
  unfold processCallExpression
  rw [callExpressionCase_member self node nameNode propertyNode namespaceNode (lit "vi")
    propertyName hfn hty hp hpc ho hoc]
  unfold callSwitches
  rw [if_pos rfl]

/-- The default case of `processJestFnCall`: the namespace node is renamed. -/
theorem processJestFnCall_default (self : vitestifyTask)
    (node nameNode propertyNode namespaceNode : Node) (method : Bytes)
    (hp : nameNode.ChildByFieldName "property" = some propertyNode)
    (hpc : propertyNode.Content self.code = some method)
    (h1 : method ≠ lit "mock") (h2 : method ≠ lit "requireActual")
    (h3 : method ≠ lit "setTimeout") :
    processJestFnCall self node nameNode (some namespaceNode)
      = Outcome.ok (self.addEdit (nodeEdit namespaceNode (lit "vi"))) := by
  unfold processJestFnCall
  simp only [hp, hpc]
  rw [if_neg h1, if_neg h2, if_neg h3]

/-- C22: for every call `jest.<method>(...)` whose method is not `mock`, `requireActual`
or `setTimeout`, `processCallExpression` registers `vi` as required and records exactly
one edit, the byte range of the namespace identifier `jest` replaced by `vi`, and does
not walk the children of the call; in a well-formed tree that range lies inside the
callee, apart from the method name and apart from the argument list. -/
theorem jest_call_namespace_renamed (self : vitestifyTask)
    (node nameNode propertyNode namespaceNode : Node) (method : Bytes)
    (hfn : node.ChildByFieldName "function" = some nameNode)
    (hty : nameNode.type = "member_expression")
    (hp : nameNode.ChildByFieldName "property" = some propertyNode)
    (hpc : propertyNode.Content self.code = some method)
    (ho : nameNode.ChildByFieldName "object" = some namespaceNode)
    (hoc : namespaceNode.Content self.code = some (lit "jest"))
    (hm : method ∉ [lit "mock", lit "requireActual", lit "setTimeout"]) :
    processCallExpression self node
        = Outcome.ok
            { self with
              vitestImports := insertKey self.vitestImports (lit "vi")
              edits := self.edits
                ++ [{ startByte := (namespaceNode.StartByte : Int),
                      endByte := (namespaceNode.EndByte : Int),
                      replacement := lit "vi" }] }
      ∧ (node.wellFormed = true →
          nameNode.StartByte ≤ namespaceNode.StartByte
            ∧ namespaceNode.EndByte ≤ nameNode.EndByte
            ∧ (namespaceNode.EndByte ≤ propertyNode.StartByte
                ∨ propertyNode.EndByte ≤ namespaceNode.StartByte)
            ∧ ∀ args, node.ChildByFieldName FIELD_FN_ARGUMENTS = some args →
                namespaceNode.EndByte ≤ args.StartByte
                  ∨ args.EndByte ≤ namespaceNode.StartByte) := by
  have h1 : method ≠ lit "mock" := fun h => hm (by rw [h]; simp)
  have h2 : method ≠ lit "requireActual" := fun h => hm (by rw [h]; simp)
  have h3 : method ≠ lit "setTimeout" := fun h => hm (by rw [h]; simp)
  refine ⟨?_, ?_⟩
  · rw [processCallExpression_jest self node nameNode propertyNode namespaceNode method hfn
      hty hp hpc ho hoc,
      processJestFnCall_default (self.addImport (lit "vi")) node nameNode propertyNode
        namespaceNode method hp hpc h1 h2 h3]
    rfl
  · intro hwf
    obtain ⟨hnm, hnf⟩ := childByFieldName_mem node nameNode _ hfn
    obtain ⟨hom, hof⟩ := childByFieldName_mem nameNode namespaceNode _ ho
    obtain ⟨hpm, hpf⟩ := childByFieldName_mem nameNode propertyNode _ hp
    obtain ⟨n1, n2, n3, nwf⟩ := wellFormed_child node nameNode hwf hnm
    obtain ⟨o1, o2, o3, _⟩ := wellFormed_child nameNode namespaceNode nwf hom
    refine ⟨o1, o3, ?_, ?_⟩
    · refine wellFormed_children_apart nameNode namespaceNode propertyNode nwf hom hpm ?_
      intro heq
      rw [heq, hpf] at hof
      exact absurd hof (by decide)
    · intro args hargs
      obtain ⟨ham, haf⟩ := childByFieldName_mem node args _ hargs
      have hne : nameNode ≠ args := by
        intro heq
        rw [heq, haf] at hnf
        exact absurd hnf (by decide)
      rcases wellFormed_children_apart node nameNode args hwf hnm ham hne with h | h
      · exact Or.inl (by omega)
      · exact Or.inr (by omega)

/-- C22, witness: `jest.fn(() => expect(1))` of `srcJestFn`: `vi` is required and the
four bytes of `jest` are replaced. -/
theorem jest_call_namespace_renamed_witness :
    (processCallExpression (newVitestifyTask srcJestFn) callJestFn).map
        (fun t => (t.vitestImports, t.edits))
      = Outcome.ok ([lit "vi"], [{ startByte := 1, endByte := 5, replacement := lit "vi" }])
      ∧ run (fun _ => Outcome.ok treeJestFn) srcJestFn
        = Outcome.ok
            (lit "import \x7b expect, vi \x7d from 'vitest';\n\nvi.fn(() => expect(1));\n"
              ++ lit "spy(() => expect(2));\n") := by
  constructor
  · rw [(jest_call_namespace_renamed (newVitestifyTask srcJestFn) callJestFn
        (nd "member_expression" 1 8 (some "function") [
          nd "identifier" 1 5 (some "object") [],
          tok "." 5 6,
          nd "property_identifier" 6 8 (some "property") []])
        (nd "property_identifier" 6 8 (some "property") [])
        (nd "identifier" 1 5 (some "object") [])
        (lit "fn") rfl (by decide) rfl (by decide) rfl (by decide) (by decide)).1]
    decide
  · decide!

/-- C26: for every call expression whose callee is `vi.<method>` or `jest.<method>`,
`processCallExpression` returns without walking the children of the call: for `vi` the
task only gains the required symbol `vi`; for `jest` it gains `vi` and whatever
`processJestFnCall` records, exactly one edit when it returns. For a call on any other
name, whether a member access or a bare name, `processCallExpression` ends with the walk
of the children of the call. -/
theorem vi_and_jest_calls_not_walked (self : vitestifyTask) (node nameNode : Node)
    (hfn : node.ChildByFieldName "function" = some nameNode) :
    (∀ (propertyNode namespaceNode : Node) (name propertyName : Bytes),
        nameNode.type = "member_expression" →
        nameNode.ChildByFieldName "property" = some propertyNode →
        propertyNode.Content self.code = some propertyName →
        nameNode.ChildByFieldName "object" = some namespaceNode →
        namespaceNode.Content self.code = some name →
          (name = lit "vi" →
              processCallExpression self node = Outcome.ok (self.addImport (lit "vi")))
            ∧ (name = lit "jest" →
                processCallExpression self node
                    = processJestFnCall (self.addImport (lit "vi")) node nameNode
                        (some namespaceNode)
                  ∧ ∀ t, processCallExpression self node = Outcome.ok t →
                      t.vitestImports = insertKey self.vitestImports (lit "vi")
                        ∧ ∃ e, t.edits = self.edits ++ [e])
            ∧ (name ≠ lit "vi" → name ≠ lit "jest" →
                ∀ st descend, callExpressionCase self node = Outcome.ok (st, descend) →
                  descend = true ∧ processCallExpression self node = walkNode st node))
      ∧ (∀ name : Bytes, nameNode.type ≠ "member_expression" →
          nameNode.Content self.code = some name →
          name ≠ lit "vi" → name ≠ lit "jest" →
            ∀ st descend, callExpressionCase self node = Outcome.ok (st, descend) →
              descend = true ∧ processCallExpression self node = walkNode st node) := by
  have hother : ∀ (ns : Option Node) (name propertyName : Bytes),
      callExpressionCase self node = callSwitches self node nameNode ns name propertyName →
      name ≠ lit "vi" → name ≠ lit "jest" →
      ∀ st descend, callExpressionCase self node = Outcome.ok (st, descend) →
        descend = true ∧ processCallExpression self node = walkNode st node := by
    intro ns name propertyName hcase hvi hjest st descend hst
    have hd : descend = true := by
      rw [hcase] at hst
      unfold callSwitches at hst
      rw [if_neg hvi, if_neg hjest] at hst
      cases hn : nameSwitch self node nameNode ns name with
      | error err => simp [hn] at hst
      | panic => simp [hn] at hst
      | ok s1 =>
        simp only [hn] at hst
        cases hq : propertySwitch s1 node propertyName with
        | error err => simp [hq] at hst
        | panic => simp [hq] at hst
        | ok s2 =>
          simp only [hq, Outcome.ok.injEq, Prod.mk.injEq] at hst
          exact hst.2.symm
    subst hd
    exact ⟨rfl, by rw [processCallExpression_of_case self st node true hst]; rfl⟩
  refine ⟨?_, ?_⟩
  · intro propertyNode namespaceNode name propertyName hty hp hpc ho hoc
    refine ⟨?_, ?_, ?_⟩
    · intro hname
      subst hname
      exact processCallExpression_vi self node nameNode propertyNode namespaceNode
        propertyName hfn hty hp hpc ho hoc
    · intro hname
      subst hname
      have heq := processCallExpression_jest self node nameNode propertyNode namespaceNode
        propertyName hfn hty hp hpc ho hoc
      refine ⟨heq, ?_⟩
      intro t ht
      rw [heq] at ht
      exact processJestFnCall_one_edit (self.addImport (lit "vi")) node nameNode
        (some namespaceNode) t ht
    · exact hother (some namespaceNode) name propertyName
        (callExpressionCase_member self node nameNode propertyNode namespaceNode name
          propertyName hfn hty hp hpc ho hoc)
  · intro name hty hname
    exact hother none name [] (callExpressionCase_bare self node nameNode name hfn hty hname)

/-- C26, witness: in `srcJestFn` the call `expect(1)` inside the callback passed to
`jest.fn` is not visited, so `expect` is not required by it; the call `expect(2)` inside
the callback passed to `spy` is visited and requires `expect`. -/
theorem vi_and_jest_calls_not_walked_witness :
    (processCallExpression (newVitestifyTask srcJestFn) callJestFn).map
        (fun t => (t.vitestImports, t.edits))
      = Outcome.ok ([lit "vi"], [{ startByte := 1, endByte := 5, replacement := lit "vi" }])
      ∧ (processCallExpression (newVitestifyTask srcJestFn) callSpy).map
          (fun t => (t.vitestImports, t.edits))
        = Outcome.ok ([lit "expect"], []) := by
  constructor
  · rw [(((vi_and_jest_calls_not_walked (newVitestifyTask srcJestFn) callJestFn
        (nd "member_expression" 1 8 (some "function") [
          nd "identifier" 1 5 (some "object") [],
          tok "." 5 6,
          nd "property_identifier" 6 8 (some "property") []]) rfl).1
        (nd "property_identifier" 6 8 (some "property") [])
        (nd "identifier" 1 5 (some "object") [])
        (lit "jest") (lit "fn") (by decide) rfl (by decide) rfl (by decide)).2.1 rfl).1]
    decide
  · rw [(((vi_and_jest_calls_not_walked (newVitestifyTask srcJestFn) callSpy
        (nd "identifier" 27 30 (some "function") []) rfl).2
        (lit "spy") (by decide) (by decide) (by decide) (by decide)
        ((newVitestifyTask srcJestFn)) true rfl).2)]
    decide

/-- C24 (amended): for every `jest.mock(...)` call whose argument list has a first
argument, `processJestMock` records exactly one edit when it returns, and the byte range
of that edit is the range of the call expression. With a single argument it returns and
the replacement is `vi.mock(<path text>)`. With more arguments, when the second one has
a body, it returns and the replacement is built from the path text and the text of the
body alone: the substitution of `regexJestRequireActual` and the renaming of `jest.` are
applied to the text of the body. -/
theorem jest_mock_replaces_the_call (self : vitestifyTask)
    (node argsNode pathNode : Node) (importPath : Bytes)
    (hargs : node.ChildByFieldName "arguments" = some argsNode)
    (hpath : argsNode.NamedChild 0 = some pathNode)
    (hpc : pathNode.Content self.code = some importPath) :
    (argsNode.NamedChildCount = 1 →
        processJestMock self node
          = Outcome.ok
              { self with
                edits := self.edits
                  ++ [{ startByte := (node.StartByte : Int),
                        endByte := (node.EndByte : Int),
                        replacement := lit "vi.mock(" ++ importPath ++ lit ")" }] })
      ∧ (argsNode.NamedChildCount ≠ 1 →
          ∀ (factoryNode bodyNode : Node) (factoryBody : Bytes),
            argsNode.NamedChild 1 = some factoryNode →
            factoryNode.ChildByFieldName "body" = some bodyNode →
            bodyNode.Content self.code = some factoryBody →
              processJestMock self node
                = Outcome.ok
                    { self with
                      edits := self.edits
                        ++ [{ startByte := (node.StartByte : Int),
                              endByte := (node.EndByte : Int),
                              replacement :=
                                lit "vi.mock(" ++ importPath
                                  ++ lit ", async (importActual): Promise<typeof import("
                                  ++ importPath ++ lit ")> => "
                                  ++ ReplaceAll
                                      (regexJestRequireActualReplaceAll factoryBody
                                        (lit "(await importActual<typeof import("
                                          ++ importPath ++ lit ")>())"))
                                      (lit "jest.") (lit "vi.")
                                  ++ lit ")" }] })
      ∧ (∀ t, processJestMock self node = Outcome.ok t →
          t.vitestImports = self.vitestImports
            ∧ ∃ replacement, t.edits
                = self.edits
                    ++ [{ startByte := (node.StartByte : Int),
                          endByte := (node.EndByte : Int),
                          replacement := replacement }]) := by
  refine ⟨?_, ?_, ?_⟩
  · intro hone
    unfold processJestMock
    simp only [hargs, hpath, hpc]
    rw [if_pos hone]
    rfl
  · intro hmore factoryNode bodyNode factoryBody hf hb hbc
    unfold processJestMock
    simp only [hargs, hpath, hpc]
    rw [if_neg hmore]
    simp only [hf, hb, hbc]
    rfl
  · intro t ht
    obtain ⟨h1, r, h2⟩ := processJestMock_one_edit self node t ht
    exact ⟨h1, r, h2⟩

/-- C24, witness: `jest.mock('./a')` and the call with a factory of `srcJestMock`; the
call of `jest.requireActual` in the body of the factory is replaced in the text of the
body. -/
theorem jest_mock_replaces_the_call_witness :
    (processJestMock (newVitestifyTask srcJestMock) callJestMockPath).map
        (fun t => (t.vitestImports, t.edits))
      = Outcome.ok
          ([], [{ startByte := 1, endByte := 17, replacement := lit "vi.mock('./a')" }])
      ∧ (processJestMock (newVitestifyTask srcJestMock) callJestMockFactory).map
          (fun t => (t.vitestImports, t.edits))
        = Outcome.ok
            ([],
              [{ startByte := 19, endByte := 70,
                 replacement :=
                   lit "vi.mock('./b', async (importActual): Promise<typeof import('./b')> => "
                     ++ lit "((await importActual<typeof import('./b')>())))" }]) := by
  constructor
  · rw [(jest_mock_replaces_the_call (newVitestifyTask srcJestMock) callJestMockPath
        (nd "arguments" 10 17 (some "arguments") [
          tok "(" 10 11,
          nd "string" 11 16 none [
            tok "'" 11 12,
            nd "string_fragment" 12 15 none [],
            tok "'" 15 16],
          tok ")" 16 17])
        (nd "string" 11 16 none [
          tok "'" 11 12,
          nd "string_fragment" 12 15 none [],
          tok "'" 15 16])
        (lit "'./a'") rfl rfl (by decide)).1 (by decide)]
    decide
  · decide

/-- C24, counterexample: `jest.mock('./c', f)`, whose second argument is the name of a
factory and has no body, and `jest.mock()`, which has no argument: `processJestMock`
calls `Content` on a nil node, which panics; no edit is recorded, and `run` on the
source does not return. -/
theorem jest_mock_panics_without_body :
    (processJestMock (newVitestifyTask srcJestMock) callJestMockNamedFactory).map
        (fun t => t.edits)
      = Outcome.panic
      ∧ (processJestMock (newVitestifyTask srcJestMock) callJestMockEmpty).map
          (fun t => t.edits)
        = Outcome.panic
      ∧ (processCallExpression (newVitestifyTask srcJestMock)
            callJestMockNamedFactory).map (fun t => t.edits)
        = Outcome.panic
      ∧ run (fun _ => Outcome.ok treeJestMock) srcJestMock = Outcome.panic := by
  decide!

/-! ## Where the edits of the walk lie -/

/-- The edit of a node that lies inside another node lies inside that node. -/
theorem nodeEdit_inside (x node : Node) (replacement : Bytes)
    (h1 : node.StartByte ≤ x.StartByte) (h2 : x.StartByte ≤ x.EndByte)
    (h3 : x.EndByte ≤ node.EndByte) :
    (nodeEdit x replacement).inside node := by
  unfold codeEdit.inside nodeEdit
  refine ⟨?_, ?_, ?_⟩ <;> simp only <;> omega

/-- An edit inside a child of a well-formed node lies inside the node. -/
theorem inside_of_child (e : codeEdit) (node c : Node) (hwf : node.wellFormed = true)
    (hc : c ∈ node.children) (he : e.inside c) : e.inside node := by
  obtain ⟨c1, _, c3, _⟩ := wellFormed_child node c hwf hc
  obtain ⟨e1, e2, e3⟩ := he
  exact ⟨by omega, e2, by omega⟩

/-- The edit that `processJestFnCall` records when it returns: it replaces the call or
the namespace node. -/
theorem processJestFnCall_edit (self : vitestifyTask) (node nameNode : Node)
    (namespaceNode : Option Node) (t : vitestifyTask)
    (h : processJestFnCall self node nameNode namespaceNode = Outcome.ok t) :
    ∃ e, t.edits = self.edits ++ [e]
      ∧ ((∃ r, e = nodeEdit node r)
          ∨ ∃ ns, namespaceNode = some ns ∧ e = nodeEdit ns (lit "vi")) := by
  unfold processJestFnCall at h
  split at h
  · cases h
  · split at h
    · cases h
    · split_ifs at h
      · obtain ⟨_, r, h2⟩ := processJestMock_one_edit self node t h
        exact ⟨_, h2, Or.inl ⟨r, rfl⟩⟩
      · split at h
        · unfold errorWithContent at h
          split at h <;> cases h
        · split at h
          · cases h
          · split at h
            · cases h
            · cases h
              exact ⟨_, rfl, Or.inl ⟨_, rfl⟩⟩
      · split at h
        · unfold errorWithContent at h
          split at h <;> cases h
        · split at h
          · cases h
          · split at h
            · cases h
            · cases h
              exact ⟨_, rfl, Or.inl ⟨_, rfl⟩⟩
      · split at h
        · cases h
        · cases h
          exact ⟨_, rfl, Or.inr ⟨_, rfl, rfl⟩⟩

/-- The edit that the timer cases record on the argument list. -/
theorem timerArgsEdit_edit (self : vitestifyTask) (node : Node) (t : vitestifyTask)
    (h : timerArgsEdit self node = Outcome.ok t) :
    ∃ args r, node.ChildByFieldName FIELD_FN_ARGUMENTS = some args
      ∧ t.edits = self.edits ++ [nodeEdit args r] := by
  unfold timerArgsEdit at h
  split at h
  · cases h
  · rename_i args hargs
    split_ifs at h
    · split at h
      · cases h
      · split at h
        · cases h
        · cases h
          exact ⟨args, _, hargs, rfl⟩
    · cases h
      exact ⟨args, _, hargs, rfl⟩

/-- What the second `switch` records: nothing, or one edit of an argument list that has
no argument. -/
theorem propertySwitch_edit (self : vitestifyTask) (node : Node) (propertyName : Bytes)
    (t : vitestifyTask) (h : propertySwitch self node propertyName = Outcome.ok t) :
    t.edits = self.edits
      ∨ ∃ args r, node.ChildByFieldName FIELD_FN_ARGUMENTS = some args
          ∧ args.NamedChildCount = 0 ∧ propertyName = lit "mockImplementation"
          ∧ t.edits = self.edits ++ [nodeEdit args r] := by
  unfold propertySwitch at h
  split_ifs at h with hp
  · split at h
    · cases h
    · rename_i args hargs
      split_ifs at h with hz
      · cases h
        exact Or.inr ⟨args, _, hargs, hz, hp, rfl⟩
      · cases h
        exact Or.inl rfl
  · cases h
    exact Or.inl rfl

/-- What the first `switch` records: nothing, or the edit of the callee and the edit of
the argument list. -/
theorem nameSwitch_edit (self : vitestifyTask) (node nameNode : Node)
    (namespaceNode : Option Node) (name : Bytes) (t : vitestifyTask)
    (h : nameSwitch self node nameNode namespaceNode name = Outcome.ok t) :
    t.edits = self.edits
      ∨ ∃ args r1 r2, node.ChildByFieldName FIELD_FN_ARGUMENTS = some args
          ∧ t.edits = self.edits ++ [nodeEdit nameNode r1, nodeEdit args r2] := by
  have htimer : ∀ r1 : Bytes,
      timerArgsEdit ((self.addImport (lit "vi")).addEdit (nodeEdit nameNode r1)) node
        = Outcome.ok t →
      ∃ args r1 r2, node.ChildByFieldName FIELD_FN_ARGUMENTS = some args
        ∧ t.edits = self.edits ++ [nodeEdit nameNode r1, nodeEdit args r2] := by
    intro r1 ht
    obtain ⟨args, r2, hargs, hed⟩ := timerArgsEdit_edit _ node t ht
    refine ⟨args, r1, r2, hargs, ?_⟩
    rw [hed]
    simp [vitestifyTask.addEdit, vitestifyTask.addImport]
  by_cases h1 : name = lit "advanceTimersAndPromises"
  · unfold nameSwitch at h
    rw [if_neg (by rw [h1]; decide), if_pos h1] at h
    exact Or.inr (htimer _ h)
  · by_cases h2 : name = lit "advanceTimers"
    · unfold nameSwitch at h
      rw [if_neg (by rw [h2]; decide), if_neg h1, if_pos h2] at h
      exact Or.inr (htimer _ h)
    · obtain ⟨st, hst, hed, _⟩ := nameSwitch_edits self node nameNode namespaceNode name h1 h2
      rw [hst] at h
      cases h
      exact Or.inl hed

/-- What the two `switch` statements record: edits of the call, of the callee, of the
namespace node or of the argument list, and at most one edit when the children of the
call are not walked afterwards. -/
theorem callSwitches_edit (self : vitestifyTask) (node nameNode : Node)
    (namespaceNode : Option Node) (name propertyName : Bytes) (st : vitestifyTask)
    (descend : Bool)
    (h : callSwitches self node nameNode namespaceNode name propertyName
      = Outcome.ok (st, descend)) :
    ∃ own, st.edits = self.edits ++ own
      ∧ (descend = false → own.length ≤ 1)
      ∧ ∀ e ∈ own,
          (∃ r, e = nodeEdit node r) ∨ (∃ r, e = nodeEdit nameNode r)
            ∨ (∃ ns, namespaceNode = some ns ∧ ∃ r, e = nodeEdit ns r)
            ∨ ∃ args r, node.ChildByFieldName FIELD_FN_ARGUMENTS = some args
                ∧ e = nodeEdit args r := by
  unfold callSwitches at h
  split_ifs at h
  · cases h
    exact ⟨[], by simp [vitestifyTask.addImport], fun _ => by simp, by simp⟩
  · cases hp : processJestFnCall (self.addImport (lit "vi")) node nameNode namespaceNode with
    | error err => simp [hp] at h
    | panic => simp [hp] at h
    | ok t =>
      simp only [hp, Outcome.ok.injEq, Prod.mk.injEq] at h
      obtain ⟨ht, _⟩ := h
      subst ht
      obtain ⟨e, hed, hcase⟩ := processJestFnCall_edit _ node nameNode namespaceNode t hp
      refine ⟨[e], hed, fun _ => by simp, ?_⟩
      intro e' he'
      rw [List.mem_singleton] at he'
      subst he'
      rcases hcase with ⟨r, hr⟩ | ⟨ns, hns, hr⟩
      · exact Or.inl ⟨r, hr⟩
      · exact Or.inr (Or.inr (Or.inl ⟨ns, hns, _, hr⟩))
  · cases hn : nameSwitch self node nameNode namespaceNode name with
    | error err => simp [hn] at h
    | panic => simp [hn] at h
    | ok s1 =>
      simp only [hn] at h
      cases hq : propertySwitch s1 node propertyName with
      | error err => simp [hq] at h
      | panic => simp [hq] at h
      | ok s2 =>
        simp only [hq, Outcome.ok.injEq, Prod.mk.injEq] at h
        obtain ⟨ht, hd⟩ := h
        subst ht
        subst hd
        have hname := nameSwitch_edit self node nameNode namespaceNode name s1 hn
        have hprop := propertySwitch_edit s1 node propertyName s2 hq
        rcases hname with h1 | ⟨args, r1, r2, hargs, h1⟩
        · rcases hprop with h2 | ⟨args2, r3, hargs2, _, _, h2⟩
          · exact ⟨[], by rw [h2, h1]; simp, (fun hf => absurd hf (by decide)), by simp⟩
          · refine ⟨[nodeEdit args2 r3], by rw [h2, h1], (fun hf => absurd hf (by decide)), ?_⟩
            intro e he
            rw [List.mem_singleton] at he
            exact Or.inr (Or.inr (Or.inr ⟨args2, r3, hargs2, he⟩))
        · rcases hprop with h2 | ⟨args2, r3, hargs2, _, _, h2⟩
          · refine ⟨[nodeEdit nameNode r1, nodeEdit args r2], by rw [h2, h1],
              (fun hf => absurd hf (by decide)), ?_⟩
            intro e he
            simp only [List.mem_cons, List.mem_singleton, List.not_mem_nil, or_false] at he
            rcases he with he | he
            · exact Or.inr (Or.inl ⟨r1, he⟩)
            · exact Or.inr (Or.inr (Or.inr ⟨args, r2, hargs, he⟩))
          · refine ⟨[nodeEdit nameNode r1, nodeEdit args r2, nodeEdit args2 r3],
              by rw [h2, h1]; simp, (fun hf => absurd hf (by decide)), ?_⟩
            intro e he
            simp only [List.mem_cons, List.mem_singleton, List.not_mem_nil, or_false] at he
            rcases he with he | he | he
            · exact Or.inr (Or.inl ⟨r1, he⟩)
            · exact Or.inr (Or.inr (Or.inr ⟨args, r2, hargs, he⟩))
            · exact Or.inr (Or.inr (Or.inr ⟨args2, r3, hargs2, he⟩))

/-- In a well-formed tree the edits that `processCallExpression` records itself lie
inside the call; at most one is recorded when the children are not walked afterwards. -/
theorem callExpressionCase_inside (self : vitestifyTask) (node : Node)
    (st : vitestifyTask) (descend : Bool) (hwf : node.wellFormed = true)
    (h : callExpressionCase self node = Outcome.ok (st, descend)) :
    ∃ own, st.edits = self.edits ++ own
      ∧ (descend = false → own.length ≤ 1)
      ∧ ∀ e ∈ own, e.inside node := by
  have hself := ((wellFormed_iff node).1 hwf).1
  have hargsIn : ∀ args r, node.ChildByFieldName FIELD_FN_ARGUMENTS = some args →
      (nodeEdit args r).inside node := by
    intro args r hargs
    obtain ⟨a1, a2, a3, _⟩ :=
      wellFormed_child node args hwf (childByFieldName_mem node args _ hargs).1
    exact nodeEdit_inside args node r a1 a2 a3
  unfold callExpressionCase at h
  split at h
  · cases h
  · rename_i nameNode hfn
    obtain ⟨n1, n2, n3, nwf⟩ :=
      wellFormed_child node nameNode hwf (childByFieldName_mem node nameNode _ hfn).1
    split_ifs at h
    · split at h
      · cases h
      · split at h
        · cases h
        · split at h
          · cases h
          · rename_i namespaceNode ho
            split at h
            · cases h
            · obtain ⟨o1, o2, o3, _⟩ := wellFormed_child nameNode namespaceNode nwf
                (childByFieldName_mem nameNode namespaceNode _ ho).1
              obtain ⟨own, hed, hlen, hown⟩ := callSwitches_edit _ _ _ _ _ _ _ _ h
              refine ⟨own, hed, hlen, ?_⟩
              intro e he
              rcases hown e he with ⟨r, hr⟩ | ⟨r, hr⟩ | ⟨ns, hns, r, hr⟩ | ⟨args, r, hargs, hr⟩
              · rw [hr]
                exact nodeEdit_inside node node r (le_refl _) hself (le_refl _)
              · rw [hr]
                exact nodeEdit_inside nameNode node r n1 n2 n3
              · cases hns
                rw [hr]
                exact nodeEdit_inside namespaceNode node r (by omega) o2 (by omega)
              · rw [hr]
                exact hargsIn args r hargs
    · split at h
      · cases h
      · obtain ⟨own, hed, hlen, hown⟩ := callSwitches_edit _ _ _ _ _ _ _ _ h
        refine ⟨own, hed, hlen, ?_⟩
        intro e he
        rcases hown e he with ⟨r, hr⟩ | ⟨r, hr⟩ | ⟨ns, hns, r, hr⟩ | ⟨args, r, hargs, hr⟩
        · rw [hr]
          exact nodeEdit_inside node node r (le_refl _) hself (le_refl _)
        · rw [hr]
          exact nodeEdit_inside nameNode node r n1 n2 n3
        · cases hns
        · rw [hr]
          exact hargsIn args r hargs

/-- An import statement that is not from `'vitest'` records no edit. -/
theorem importStatementCase_edits (self : vitestifyTask) (node : Node) (t : vitestifyTask)
    (hnot : ∀ sourceNode, node.ChildByFieldName FIELD_IMPORT_EXPORT_SOURCE = some sourceNode →
      sourceNode.Content self.code ≠ some (lit "'vitest'"))
    (h : importStatementCase self node = Outcome.ok t) :
    t.edits = self.edits := by
  unfold importStatementCase at h
  split at h
  · unfold errorWithContent at h
    split at h <;> cases h
  · rename_i sourceNode hsrc
    split at h
    · cases h
    · rename_i source hcontent
      split_ifs at h with hv hp hu
      · rw [hv] at hcontent
        exact absurd hcontent (hnot sourceNode hsrc)
      · split at h
        · cases h
          rfl
        · cases h
          rfl
        · cases h
        · cases h
      · split at h
        · cases h
          rfl
        · cases h
          rfl
        · cases h
        · cases h
      · cases h
        rfl

/-- An identifier records no edit. -/
theorem identifierCase_edits (self : vitestifyTask) (parentType : String) (node : Node)
    (t : vitestifyTask) (h : identifierCase self parentType node = Outcome.ok t) :
    t.edits = self.edits := by
  unfold identifierCase at h
  split at h
  · cases h
  · have hE : ENABLE_ESM_UPDATES = false := rfl
    simp only [hE, Bool.false_eq_true, and_false, if_false, Outcome.ok.injEq] at h
    rw [← h]

/-- What `processJestType` records when it returns: one edit of the type node. -/
theorem processJestType_edit (self : vitestifyTask) (node : Node) (t : vitestifyTask)
    (h : processJestType self node = Outcome.ok t) :
    ∃ r, t.edits = self.edits ++ [nodeEdit node r] := by
  unfold processJestType at h
  split at h
  · unfold errorWithContent at h
    split at h <;> cases h
  · split at h
    · cases h
    · split_ifs at h
      · cases h
        exact ⟨_, rfl⟩
      · cases h
        exact ⟨_, rfl⟩
      · cases h
        exact ⟨_, rfl⟩
      · cases h
        exact ⟨_, rfl⟩
      · cases h
        exact ⟨_, rfl⟩
      · cases h
        exact ⟨_, rfl⟩

/-- What a nested type identifier records: nothing, or one edit of the node. -/
theorem nestedTypeCase_edit (self : vitestifyTask) (node : Node) (t : vitestifyTask)
    (h : nestedTypeCase self node = Outcome.ok t) :
    t.edits = self.edits ∨ ∃ r, t.edits = self.edits ++ [nodeEdit node r] := by
  unfold nestedTypeCase at h
  split at h
  · cases h
  · split_ifs at h
    · cases h
      exact Or.inl rfl
    · exact Or.inr (processJestType_edit self node t h)

/-- A turn of the loop on a named child, as a loop over that child alone. -/
theorem walkNodeLoop_single (parentType : String) (c : Node) (self : vitestifyTask)
    (hnamed : c.isNamed = true) :
    walkNodeLoop parentType [c] self = walkNodeStep parentType c self := by
  rw [walkNodeLoop_cons, if_pos hnamed]
  cases walkNodeStep parentType c self with
  | ok t => exact walkNodeLoop_nil parentType t
  | error err => rfl
  | panic => rfl

mutual
/-- In a well-formed tree with no import statement from `'vitest'`, in which the edits
that `processCallExpression` records itself lie apart from the children that the walk
records an edit in, the edits of one turn of the loop lie apart and inside the node. -/
theorem apart_walkNodeStep (code : Bytes) :
    ∀ (node : Node) (parentType : String) (self t : vitestifyTask),
      self.code = code → node.wellFormed = true →
      (∀ n ∈ node.subnodes, notVitestImport code n) →
      (∀ n ∈ node.subnodes, n.type = NODE_CALL_EXPRESSION → callEditsApart code n) →
      walkNodeStep parentType node self = Outcome.ok t →
      ∃ own, t.edits = self.edits ++ own ∧ own.Pairwise codeEdit.apart
        ∧ ∀ e ∈ own, e.inside node
  | .mk type startByte endByte named field children, parentType, self, t,
      hcode, hwf, himp, hcall, hstep => by
    have hsub : ∀ n ∈ subnodesList children,
        n ∈ (Node.mk type startByte endByte named field children).subnodes := by
      intro n hn
      rw [Node.subnodes]
      exact List.mem_cons_of_mem _ hn
    have hlist := ((wellFormed_iff _).1 hwf).2
    simp only [Node.StartByte, Node.EndByte, Node.children] at hlist
    have hloop : ∀ (s1 t1 : vitestifyTask), s1.code = code →
        walkNodeLoop type children s1 = Outcome.ok t1 →
        ∃ own, t1.edits = s1.edits ++ own ∧ own.Pairwise codeEdit.apart
          ∧ ∀ e ∈ own, ∃ c ∈ children, e.inside c ∧ ¬ recordsNoEdit code type c :=
      fun s1 t1 h1 h2 =>
        apart_walkNodeLoop code children type startByte endByte s1 t1 h1 hlist
          (fun n hn => himp n (hsub n hn)) (fun n hn => hcall n (hsub n hn)) h2
    have hin : ∀ e : codeEdit, (∃ c ∈ children, e.inside c ∧ ¬ recordsNoEdit code type c) →
        e.inside (Node.mk type startByte endByte named field children) := by
      intro e he
      obtain ⟨c, hc, hec, _⟩ := he
      exact inside_of_child e _ c hwf hc hec
    rw [walkNodeStep] at hstep
    split_ifs at hstep with h1 h2 h3 h4
    · have hnot := himp _ (subnodes_self _) h1
      rw [← hcode] at hnot
      have hed := importStatementCase_edits self _ t hnot hstep
      exact ⟨[], by rw [hed]; simp, List.Pairwise.nil, by simp⟩
    · cases hc : callExpressionCase self
          (Node.mk type startByte endByte named field children) with
      | error err => simp [hc] at hstep
      | panic => simp [hc] at hstep
      | ok res =>
        obtain ⟨s1, descend⟩ := res
        obtain ⟨own0, hed0, hlen, hin0⟩ := callExpressionCase_inside self _ s1 descend hwf hc
        have hk := keeps_callExpressionCase self
          (Node.mk type startByte endByte named field children)
        rw [hc] at hk
        have hcode1 : s1.code = code := hk.2.2.trans hcode
        rw [hc] at hstep
        cases descend with
        | false =>
          simp only [Outcome.ok.injEq] at hstep
          subst hstep
          refine ⟨own0, hed0, ?_, hin0⟩
          have hl := hlen rfl
          match own0, hl with
          | [], _ => exact List.Pairwise.nil
          | [e], _ => exact List.pairwise_singleton _ _
        | true =>
          simp only at hstep
          obtain ⟨hp0, hap0⟩ :=
            hcall _ (subnodes_self _) h2 self s1 own0 hcode hc hed0
          obtain ⟨own1, hed1, hp1, hin1⟩ := hloop s1 t hcode1 hstep
          refine ⟨own0 ++ own1, by rw [hed1, hed0, List.append_assoc], ?_, ?_⟩
          · refine List.pairwise_append.2 ⟨hp0, hp1, ?_⟩
            intro a ha b hb
            obtain ⟨c, hcm, hbc, hnq⟩ := hin1 b hb
            obtain ⟨b1, b2, b3⟩ := hbc
            rcases hap0 a ha c hcm hnq with h | h
            · exact Or.inl (by omega)
            · exact Or.inr (by omega)
          · intro e he
            rcases List.mem_append.1 he with he | he
            · exact hin0 e he
            · exact hin e (hin1 e he)
    · have hed := identifierCase_edits self parentType _ t hstep
      exact ⟨[], by rw [hed]; simp, List.Pairwise.nil, by simp⟩
    · rcases nestedTypeCase_edit self _ t hstep with hed | ⟨r, hed⟩
      · exact ⟨[], by rw [hed]; simp, List.Pairwise.nil, by simp⟩
      · refine ⟨[nodeEdit _ r], hed, List.pairwise_singleton _ _, ?_⟩
        intro e he
        rw [List.mem_singleton] at he
        rw [he]
        exact nodeEdit_inside _ _ r (le_refl _) ((wellFormed_iff _).1 hwf).1 (le_refl _)
    · obtain ⟨own, hed, hp, hown⟩ := hloop self t hcode hstep
      exact ⟨own, hed, hp, fun e he => hin e (hown e he)⟩
/-- In such a tree the edits of the loop over the children of a node lie apart, each
inside a child in which the walk records an edit. -/
theorem apart_walkNodeLoop (code : Bytes) :
    ∀ (nodes : List Node) (parentType : String) (lo hi : Nat) (self t : vitestifyTask),
      self.code = code → wellFormedList lo hi nodes = true →
      (∀ n ∈ subnodesList nodes, notVitestImport code n) →
      (∀ n ∈ subnodesList nodes, n.type = NODE_CALL_EXPRESSION → callEditsApart code n) →
      walkNodeLoop parentType nodes self = Outcome.ok t →
      ∃ own, t.edits = self.edits ++ own ∧ own.Pairwise codeEdit.apart
        ∧ ∀ e ∈ own, ∃ c ∈ nodes, e.inside c ∧ ¬ recordsNoEdit code parentType c
  | [], parentType, lo, hi, self, t, hcode, hwf, himp, hcall, hloop => by
    rw [walkNodeLoop_nil] at hloop
    cases hloop
    exact ⟨[], by simp, List.Pairwise.nil, by simp⟩
  | c :: rest, parentType, lo, hi, self, t, hcode, hwf, himp, hcall, hloop => by
    obtain ⟨w1, w2, w3, w4⟩ := (wellFormedList_cons lo hi c rest).1 hwf
    have hrestsub : ∀ n ∈ subnodesList rest, n ∈ subnodesList (c :: rest) := by
      intro n hn
      rw [subnodesList]
      exact List.mem_append_right _ hn
    have hcsub : ∀ n ∈ c.subnodes, n ∈ subnodesList (c :: rest) := by
      intro n hn
      rw [subnodesList]
      exact List.mem_append_left _ hn
    have hrest : ∀ (s1 : vitestifyTask), s1.code = code →
        walkNodeLoop parentType rest s1 = Outcome.ok t →
        ∃ own, t.edits = s1.edits ++ own ∧ own.Pairwise codeEdit.apart
          ∧ ∀ e ∈ own, ∃ c' ∈ rest, e.inside c' ∧ ¬ recordsNoEdit code parentType c' :=
      fun s1 h1 h2 =>
        apart_walkNodeLoop code rest parentType c.EndByte hi s1 t h1 w4
          (fun n hn => himp n (hrestsub n hn)) (fun n hn => hcall n (hrestsub n hn)) h2
    rw [walkNodeLoop_cons] at hloop
    by_cases hnamed : c.isNamed = true
    · rw [if_pos hnamed] at hloop
      cases hs : walkNodeStep parentType c self with
      | error err => simp [hs] at hloop
      | panic => simp [hs] at hloop
      | ok s1 =>
        simp only [hs] at hloop
        obtain ⟨own1, hed1, hp1, hin1⟩ :=
          apart_walkNodeStep code c parentType self s1 hcode w3
            (fun n hn => himp n (hcsub n hn)) (fun n hn => hcall n (hcsub n hn)) hs
        have hk := keeps_walkNodeStep parentType c self
        rw [hs] at hk
        obtain ⟨own2, hed2, hp2, hin2⟩ := hrest s1 (hk.2.2.trans hcode) hloop
        refine ⟨own1 ++ own2, by rw [hed2, hed1, List.append_assoc], ?_, ?_⟩
        · refine List.pairwise_append.2 ⟨hp1, hp2, ?_⟩
          intro a ha b hb
          obtain ⟨_, _, a3⟩ := hin1 a ha
          obtain ⟨c', hc', ⟨b1, _, _⟩, _⟩ := hin2 b hb
          have hord := (wellFormedList_mem rest c.EndByte hi w4 c' hc').1
          exact Or.inl (by omega)
        · intro e he
          rcases List.mem_append.1 he with he | he
          · refine ⟨c, List.mem_cons_self _ _, hin1 e he, ?_⟩
            intro hq
            have hsingle := walkNodeLoop_single parentType c self hnamed
            rw [hs] at hsingle
            have hno := hq self s1 hcode hsingle
            rw [hed1] at hno
            have hnil : own1 = [] := by simpa using hno
            rw [hnil] at he
            cases he
          · obtain ⟨c', hc', h1, h2⟩ := hin2 e he
            exact ⟨c', List.mem_cons_of_mem _ hc', h1, h2⟩
    · rw [if_neg hnamed] at hloop
      obtain ⟨own, hed, hp, hin⟩ := hrest self hcode hloop
      refine ⟨own, hed, hp, ?_⟩
      intro e he
      obtain ⟨c', hc', h1, h2⟩ := hin e he
      exact ⟨c', List.mem_cons_of_mem _ hc', h1, h2⟩
end

/-- Edits that lie apart, each with `start ≤ end`, can be arranged in the order of their
starts so that each ends where the next starts, or before. -/
theorem apart_sorted_arrangement (es : List codeEdit)
    (hwf : ∀ e ∈ es, e.startByte ≤ e.endByte) (hap : es.Pairwise codeEdit.apart) :
    ∃ sorted : List codeEdit, sorted.Perm es
      ∧ sorted.Pairwise (fun a b => a.startByte ≤ b.startByte)
      ∧ List.Chain' (fun a b : codeEdit => a.endByte ≤ b.startByte) sorted := by
  let r : codeEdit → codeEdit → Prop := fun a b =>
    a.startByte < b.startByte ∨ (a.startByte = b.startByte ∧ a.endByte ≤ b.endByte)
  haveI : DecidableRel r := fun a b => by
    show Decidable (a.startByte < b.startByte
      ∨ (a.startByte = b.startByte ∧ a.endByte ≤ b.endByte))
    infer_instance
  haveI : IsTotal codeEdit r := ⟨by
    intro a b
    show (a.startByte < b.startByte ∨ (a.startByte = b.startByte ∧ a.endByte ≤ b.endByte))
      ∨ (b.startByte < a.startByte ∨ (b.startByte = a.startByte ∧ b.endByte ≤ a.endByte))
    omega⟩
  haveI : IsTrans codeEdit r := ⟨by
    intro a b c hab hbc
    have hab' : a.startByte < b.startByte
        ∨ (a.startByte = b.startByte ∧ a.endByte ≤ b.endByte) := hab
    have hbc' : b.startByte < c.startByte
        ∨ (b.startByte = c.startByte ∧ b.endByte ≤ c.endByte) := hbc
    show a.startByte < c.startByte ∨ (a.startByte = c.startByte ∧ a.endByte ≤ c.endByte)
    omega⟩
  have hperm : (es.insertionSort r).Perm es := List.perm_insertionSort r es
  have hsorted : (es.insertionSort r).Pairwise r := List.sorted_insertionSort r es
  have hap' : (es.insertionSort r).Pairwise codeEdit.apart :=
    (hperm.pairwise_iff (fun hab => Or.symm hab)).2 hap
  have hboth : (es.insertionSort r).Pairwise
      (fun a b => a.startByte ≤ b.startByte ∧ a.endByte ≤ b.startByte) := by
    refine (hsorted.and hap').imp_of_mem ?_
    intro a b _ hb hab
    obtain ⟨hr, hd⟩ := hab
    have hbwf := hwf b (hperm.mem_iff.1 hb)
    have hr' : a.startByte < b.startByte
        ∨ (a.startByte = b.startByte ∧ a.endByte ≤ b.endByte) := hr
    have hd' : a.endByte ≤ b.startByte ∨ b.endByte ≤ a.startByte := hd
    omega
  exact ⟨es.insertionSort r, hperm, hboth.imp (fun h => h.1),
    (hboth.imp (fun h => h.2)).chain'⟩

/-- Edits that lie apart, none of them empty, are in order after the sort of `run`: each
ends where the next starts, or before. -/
theorem apart_sortEdits_chain (es : List codeEdit)
    (hne : ∀ e ∈ es, e.startByte < e.endByte) (hap : es.Pairwise codeEdit.apart) :
    List.Chain' (fun a b : codeEdit => a.endByte ≤ b.startByte) (sortEdits es) := by
  haveI : IsTotal codeEdit (fun a b => a.startByte - b.startByte ≤ 0) := ⟨by
    intro a b
    show a.startByte - b.startByte ≤ 0 ∨ b.startByte - a.startByte ≤ 0
    omega⟩
  haveI : IsTrans codeEdit (fun a b => a.startByte - b.startByte ≤ 0) := ⟨by
    intro a b c hab hbc
    have hab' : a.startByte - b.startByte ≤ 0 := hab
    have hbc' : b.startByte - c.startByte ≤ 0 := hbc
    show a.startByte - c.startByte ≤ 0
    omega⟩
  have hperm : (sortEdits es).Perm es := List.perm_insertionSort _ es
  have hsorted : (sortEdits es).Pairwise (fun a b => a.startByte - b.startByte ≤ 0) :=
    List.sorted_insertionSort _ es
  have hap' : (sortEdits es).Pairwise codeEdit.apart :=
    (hperm.pairwise_iff (fun hab => Or.symm hab)).2 hap
  refine List.Pairwise.chain' ((hsorted.and hap').imp_of_mem ?_)
  intro a b _ hb hab
  obtain ⟨hr, hd⟩ := hab
  have hbne := hne b (hperm.mem_iff.1 hb)
  have hr' : a.startByte - b.startByte ≤ 0 := hr
  have hd' : a.endByte ≤ b.startByte ∨ b.endByte ≤ a.startByte := hd
  omega

/-- Where the edits of a walk do lie apart: in a well-formed syntax tree with no import
statement from `'vitest'`, in which the edits that `processCallExpression` records itself
on a call lie apart from each other and from every child of the call in which the walk
records an edit, and on which `walkNode` succeeds, no two edits of the ledger intersect,
every edit lies inside the root, the edits can be arranged by start into a sequence with
`end_i ≤ start_{i+1}` for every adjacent pair, and the sort of `run` yields such a
sequence when no edit is empty. -/
theorem walk_edits_apart (code : Bytes) (root : Node) (t : vitestifyTask)
    (hwf : root.wellFormed = true)
    (himp : ∀ n ∈ root.subnodes, notVitestImport code n)
    (hcall : ∀ n ∈ root.subnodes, n.type = NODE_CALL_EXPRESSION → callEditsApart code n)
    (hwalk : walkNode (newVitestifyTask code) root = Outcome.ok t) :
    t.edits.Pairwise codeEdit.apart
      ∧ (∀ e ∈ t.edits, e.inside root)
      ∧ (∃ sorted : List codeEdit, sorted.Perm t.edits
          ∧ sorted.Pairwise (fun a b => a.startByte ≤ b.startByte)
          ∧ List.Chain' (fun a b : codeEdit => a.endByte ≤ b.startByte) sorted)
      ∧ ((∀ e ∈ t.edits, e.startByte < e.endByte) →
          List.Chain' (fun a b : codeEdit => a.endByte ≤ b.startByte)
            (sortEdits t.edits)) := by
  have hlist := ((wellFormed_iff root).1 hwf).2
  have hsub : ∀ n ∈ subnodesList root.children, n ∈ root.subnodes := by
    intro n hn
    cases root with
    | mk type startByte endByte named field children =>
      rw [Node.subnodes]
      exact List.mem_cons_of_mem _ hn
  obtain ⟨own, hed, hp, hin⟩ :=
    apart_walkNodeLoop code root.children root.type root.StartByte root.EndByte
      (newVitestifyTask code) t rfl hlist (fun n hn => himp n (hsub n hn))
      (fun n hn => hcall n (hsub n hn)) hwalk
  have hedits : t.edits = own := by
    rw [hed]
    rfl
  have hinside : ∀ e ∈ t.edits, e.inside root := by
    intro e he
    rw [hedits] at he
    obtain ⟨c, hc, hec, _⟩ := hin e he
    exact inside_of_child e root c hwf hc hec
  have hpair : t.edits.Pairwise codeEdit.apart := by
    rw [hedits]
    exact hp
  exact ⟨hpair, hinside,
    apart_sorted_arrangement t.edits (fun e he => (hinside e he).2.1) hpair,
    fun hne => apart_sortEdits_chain t.edits hne hpair⟩

/-! ## A check that is enough for edits to lie apart -/

/-- The callee that `processCallExpression` reads, then the two `switch` statements. -/
theorem callExpressionCase_calleeOf (self : vitestifyTask) (node : Node) :
    callExpressionCase self node
      = match calleeOf self.code node with
        | none => Outcome.panic
        | some (nameNode, namespaceNode, name, propertyName) =>
          callSwitches self node nameNode namespaceNode name propertyName := by
  unfold callExpressionCase calleeOf
  cases node.ChildByFieldName "function" with
  | none => rfl
  | some nameNode =>
    simp only
    by_cases hty : nameNode.type = "member_expression"
    · rw [if_pos hty, if_pos hty]
      cases nameNode.ChildByFieldName "property" with
      | none => rfl
      | some propertyNode =>
        simp only
        cases propertyNode.Content self.code with
        | none => rfl
        | some propertyName =>
          simp only
          cases nameNode.ChildByFieldName "object" with
          | none => rfl
          | some namespaceNode =>
            simp only
            cases namespaceNode.Content self.code with
            | none => rfl
            | some name => rfl
    · rw [if_neg hty, if_neg hty]
      cases nameNode.Content self.code with
      | none => rfl
      | some name => rfl

/-- The callee that `calleeOf` yields is the child in the field `function`. -/
theorem calleeOf_function (code : Bytes) (node nameNode : Node)
    (namespaceNode : Option Node) (name propertyName : Bytes)
    (h : calleeOf code node = some (nameNode, namespaceNode, name, propertyName)) :
    node.ChildByFieldName "function" = some nameNode := by
  unfold calleeOf at h
  cases hfn : node.ChildByFieldName "function" with
  | none => simp [hfn] at h
  | some n =>
    simp only [hfn] at h
    split_ifs at h
    · split at h
      · cases h
      · split at h
        · cases h
        · split at h
          · cases h
          · split at h
            · cases h
            · simp only [Option.some.injEq, Prod.mk.injEq] at h
              rw [h.1]
    · split at h
      · cases h
      · simp only [Option.some.injEq, Prod.mk.injEq] at h
        rw [h.1]

mutual
/-- One turn of the loop on a plain node records no edit. -/
theorem plain_walkNodeStep :
    ∀ (node : Node) (parentType : String) (self t : vitestifyTask),
      (∀ n ∈ node.subnodes, n.type ≠ NODE_IMPORT_STATEMENT ∧ n.type ≠ NODE_CALL_EXPRESSION
        ∧ n.type ≠ NODE_NESTED_TYPE_IDENTIFIER) →
      walkNodeStep parentType node self = Outcome.ok t → t.edits = self.edits
  | .mk type startByte endByte named field children, parentType, self, t, hplain, hstep => by
    obtain ⟨h1, h2, h3⟩ := hplain _ (subnodes_self _)
    simp only [Node.type] at h1 h2 h3
    have hsub : ∀ n ∈ subnodesList children,
        n.type ≠ NODE_IMPORT_STATEMENT ∧ n.type ≠ NODE_CALL_EXPRESSION
          ∧ n.type ≠ NODE_NESTED_TYPE_IDENTIFIER := by
      intro n hn
      refine hplain n ?_
      rw [Node.subnodes]
      exact List.mem_cons_of_mem _ hn
    rw [walkNodeStep, if_neg h1, if_neg h2] at hstep
    split_ifs at hstep
    · exact identifierCase_edits self parentType _ t hstep
    · exact plain_walkNodeLoop children type self t hsub hstep
/-- The loop over plain nodes records no edit. -/
theorem plain_walkNodeLoop :
    ∀ (nodes : List Node) (parentType : String) (self t : vitestifyTask),
      (∀ n ∈ subnodesList nodes, n.type ≠ NODE_IMPORT_STATEMENT
        ∧ n.type ≠ NODE_CALL_EXPRESSION ∧ n.type ≠ NODE_NESTED_TYPE_IDENTIFIER) →
      walkNodeLoop parentType nodes self = Outcome.ok t → t.edits = self.edits
  | [], parentType, self, t, _, hloop => by
    rw [walkNodeLoop_nil] at hloop
    cases hloop
    rfl
  | c :: rest, parentType, self, t, hplain, hloop => by
    have hrest : ∀ n ∈ subnodesList rest, n.type ≠ NODE_IMPORT_STATEMENT
        ∧ n.type ≠ NODE_CALL_EXPRESSION ∧ n.type ≠ NODE_NESTED_TYPE_IDENTIFIER := by
      intro n hn
      refine hplain n ?_
      rw [subnodesList]
      exact List.mem_append_right _ hn
    have hc : ∀ n ∈ c.subnodes, n.type ≠ NODE_IMPORT_STATEMENT
        ∧ n.type ≠ NODE_CALL_EXPRESSION ∧ n.type ≠ NODE_NESTED_TYPE_IDENTIFIER := by
      intro n hn
      refine hplain n ?_
      rw [subnodesList]
      exact List.mem_append_left _ hn
    rw [walkNodeLoop_cons] at hloop
    split_ifs at hloop
    · cases hs : walkNodeStep parentType c self with
      | error err => simp [hs] at hloop
      | panic => simp [hs] at hloop
      | ok s1 =>
        simp only [hs] at hloop
        rw [plain_walkNodeLoop rest parentType s1 t hrest hloop,
          plain_walkNodeStep c parentType self s1 hc hs]
    · exact plain_walkNodeLoop rest parentType self t hrest hloop
end

/-- The walk records no edit in a plain child. -/
theorem recordsNoEdit_of_plain (code : Bytes) (parentType : String) (c : Node)
    (h : c.plain = true) : recordsNoEdit code parentType c := by
  intro self t _ hloop
  refine plain_walkNodeLoop [c] parentType self t ?_ hloop
  intro n hn
  rw [subnodesList, subnodesList, List.append_nil] at hn
  unfold Node.plain at h
  have hn' := List.all_eq_true.1 h n hn
  simp only [Bool.and_eq_true, decide_eq_true_eq] at hn'
  exact ⟨hn'.1.1, hn'.1.2, hn'.2⟩

/-- The edit of a node lies apart from a node with a disjoint range. -/
theorem nodeEdit_apart_node (x c : Node) (r : Bytes)
    (h : x.EndByte ≤ c.StartByte ∨ c.EndByte ≤ x.StartByte) :
    (nodeEdit x r).endByte ≤ (c.StartByte : Int)
      ∨ (c.EndByte : Int) ≤ (nodeEdit x r).startByte := by
  unfold nodeEdit
  simp only
  omega

/-- A call that passes `callSafe` in a well-formed tree satisfies `callEditsApart`. -/
theorem callEditsApart_of_callSafe (code : Bytes) (node : Node)
    (hwf : node.wellFormed = true) (hsafe : callSafe code node = true) :
    callEditsApart code node := by
  intro self st own hcode hcase hed
  rw [callExpressionCase_calleeOf, hcode] at hcase
  unfold callSafe at hsafe
  cases hco : calleeOf code node with
  | none => simp [hco] at hcase
  | some res =>
    obtain ⟨nameNode, namespaceNode, name, propertyName⟩ := res
    simp only [hco] at hcase hsafe
    have hfn := calleeOf_function code node nameNode namespaceNode name propertyName hco
    obtain ⟨hnm, hnf⟩ := childByFieldName_mem node nameNode _ hfn
    have hnil : st.edits = self.edits → own.Pairwise codeEdit.apart
        ∧ ∀ e ∈ own, ∀ c ∈ node.children, ¬ recordsNoEdit code node.type c →
            e.endByte ≤ (c.StartByte : Int) ∨ (c.EndByte : Int) ≤ e.startByte := by
      intro hsame
      rw [hsame] at hed
      have : own = [] := by simpa using hed
      rw [this]
      exact ⟨List.Pairwise.nil, by simp⟩
    by_cases hvj : name = lit "vi" ∨ name = lit "jest"
    · exfalso
      unfold callSwitches at hcase
      rcases hvj with hv | hj
      · rw [if_pos hv] at hcase
        simp at hcase
      · rw [if_neg (by rw [hj]; decide), if_pos hj] at hcase
        cases hp : processJestFnCall (self.addImport (lit "vi")) node nameNode
            namespaceNode with
        | ok s1 => simp [hp] at hcase
        | error err => simp [hp] at hcase
        | panic => simp [hp] at hcase
    · rw [if_neg hvj] at hsafe
      have hv : name ≠ lit "vi" := fun h => hvj (Or.inl h)
      have hj : name ≠ lit "jest" := fun h => hvj (Or.inr h)
      unfold callSwitches at hcase
      rw [if_neg hv, if_neg hj] at hcase
      cases hn : nameSwitch self node nameNode namespaceNode name with
      | error err => simp [hn] at hcase
      | panic => simp [hn] at hcase
      | ok s1 =>
        simp only [hn] at hcase
        cases hq : propertySwitch s1 node propertyName with
        | error err => simp [hq] at hcase
        | panic => simp [hq] at hcase
        | ok s2 =>
          simp only [hq, Outcome.ok.injEq, Prod.mk.injEq, and_true] at hcase
          subst hcase
          by_cases ht : name = lit "advanceTimersAndPromises" ∨ name = lit "advanceTimers"
          · rw [if_pos ht] at hsafe
            simp only [Bool.and_eq_true, decide_eq_true_eq] at hsafe
            obtain ⟨hprop, hall⟩ := hsafe
            rw [propertySwitch_of_ne s1 node propertyName hprop] at hq
            simp only [Outcome.ok.injEq] at hq
            subst hq
            have hquiet : ∀ c ∈ node.children, recordsNoEdit code node.type c :=
              fun c hc => recordsNoEdit_of_plain code node.type c
                (List.all_eq_true.1 hall c hc)
            rcases nameSwitch_edit self node nameNode namespaceNode name s1 hn with
              h1 | ⟨args, r1, r2, hargs, h1⟩
            · exact hnil h1
            · rw [h1] at hed
              have hown : own = [nodeEdit nameNode r1, nodeEdit args r2] :=
                (List.append_cancel_left hed).symm
              rw [hown]
              obtain ⟨ham, haf⟩ := childByFieldName_mem node args _ hargs
              have hne : nameNode ≠ args := by
                intro heq
                rw [heq, haf] at hnf
                exact absurd hnf (by decide)
              refine ⟨?_, ?_⟩
              · refine List.pairwise_pair.2 ?_
                have := wellFormed_children_apart node nameNode args hwf hnm ham hne
                unfold codeEdit.apart nodeEdit
                simp only
                omega
              · intro e _ c hc hnq
                exact absurd (hquiet c hc) hnq
          · rw [if_neg ht] at hsafe
            have h1 : name ≠ lit "advanceTimersAndPromises" := fun h => ht (Or.inl h)
            have h2 : name ≠ lit "advanceTimers" := fun h => ht (Or.inr h)
            obtain ⟨s1', hs1, hed1, _⟩ :=
              nameSwitch_edits self node nameNode namespaceNode name h1 h2
            rw [hn] at hs1
            simp only [Outcome.ok.injEq] at hs1
            subst hs1
            rcases propertySwitch_edit s1 node propertyName s2 hq with
              h3 | ⟨args, r, hargs, hzero, hprop, h3⟩
            · exact hnil (h3.trans hed1)
            · rw [if_pos hprop] at hsafe
              simp only [hargs, Bool.or_eq_true, decide_eq_true_eq] at hsafe
              have hplain : args.plain = true := by
                rcases hsafe with h | h
                · exact absurd hzero h
                · exact h
              rw [h3, hed1] at hed
              have hown : own = [nodeEdit args r] := (List.append_cancel_left hed).symm
              rw [hown]
              obtain ⟨ham, _⟩ := childByFieldName_mem node args _ hargs
              refine ⟨List.pairwise_singleton _ _, ?_⟩
              intro e he c hc hnq
              rw [List.mem_singleton] at he
              rw [he]
              have hne : args ≠ c := by
                intro heq
                rw [← heq] at hnq
                exact hnq (recordsNoEdit_of_plain code node.type args hplain)
              exact nodeEdit_apart_node args c r
                (wellFormed_children_apart node args c hwf ham hc hne)

mutual
/-- The nodes of a well-formed tree are well-formed. -/
theorem wellFormed_subnodes :
    ∀ (node : Node), node.wellFormed = true → ∀ n ∈ node.subnodes, n.wellFormed = true
  | .mk type startByte endByte named field children, hwf, n, hn => by
    rw [Node.subnodes] at hn
    rcases List.mem_cons.1 hn with rfl | hn
    · exact hwf
    · have hlist := ((wellFormed_iff _).1 hwf).2
      simp only [Node.StartByte, Node.EndByte, Node.children] at hlist
      exact wellFormed_subnodesList children startByte endByte hlist n hn
/-- The nodes of a well-formed list of children are well-formed. -/
theorem wellFormed_subnodesList :
    ∀ (nodes : List Node) (lo hi : Nat), wellFormedList lo hi nodes = true →
      ∀ n ∈ subnodesList nodes, n.wellFormed = true
  | [], _, _, _, n, hn => by
    rw [subnodesList] at hn
    cases hn
  | c :: rest, lo, hi, hwf, n, hn => by
    obtain ⟨_, _, w3, w4⟩ := (wellFormedList_cons lo hi c rest).1 hwf
    rw [subnodesList] at hn
    rcases List.mem_append.1 hn with hn | hn
    · exact wellFormed_subnodes c w3 n hn
    · exact wellFormed_subnodesList rest c.EndByte hi w4 n hn
end

/-- A well-formed tree that passes `editsKeptApart` has no import statement from
`'vitest'`, and its calls satisfy `callEditsApart`. -/
theorem hypotheses_of_editsKeptApart (code : Bytes) (root : Node)
    (hwf : root.wellFormed = true) (h : root.editsKeptApart code = true) :
    (∀ n ∈ root.subnodes, notVitestImport code n)
      ∧ ∀ n ∈ root.subnodes, n.type = NODE_CALL_EXPRESSION → callEditsApart code n := by
  unfold Node.editsKeptApart at h
  have hall := List.all_eq_true.1 h
  refine ⟨?_, ?_⟩
  · intro n hn htype sourceNode hsrc
    have hn' := hall n hn
    simp only [Bool.and_eq_true, Bool.or_eq_true, decide_eq_true_eq, hsrc] at hn'
    rcases hn'.1 with h1 | h1
    · exact absurd htype h1
    · exact h1
  · intro n hn htype
    have hn' := hall n hn
    simp only [Bool.and_eq_true, Bool.or_eq_true, decide_eq_true_eq] at hn'
    rcases hn'.2 with h1 | h1
    · exact absurd htype h1
    · exact callEditsApart_of_callSafe code n (wellFormed_subnodes root hwf n hn) h1

/-- Edits with `start ≤ end`, each ending where the next starts or before, lie apart. -/
theorem chain_pairwise_apart (es : List codeEdit)
    (hwf : ∀ e ∈ es, e.startByte ≤ e.endByte)
    (hch : List.Chain' (fun a b : codeEdit => a.endByte ≤ b.startByte) es) :
    es.Pairwise codeEdit.apart := by
  let r : codeEdit → codeEdit → Prop := fun a b =>
    a.endByte ≤ b.startByte ∧ b.startByte ≤ b.endByte
  haveI : IsTrans codeEdit r := ⟨by
    intro a b c hab hbc
    have hab' : a.endByte ≤ b.startByte ∧ b.startByte ≤ b.endByte := hab
    have hbc' : b.endByte ≤ c.startByte ∧ c.startByte ≤ c.endByte := hbc
    show a.endByte ≤ c.startByte ∧ c.startByte ≤ c.endByte
    omega⟩
  have hr : List.Chain' r es :=
    (List.Chain'.iff_mem.1 hch).imp (fun a b hab => ⟨hab.2.2, hwf b hab.2.1⟩)
  exact (List.chain'_iff_pairwise.1 hr).imp (fun hab => Or.inl hab.1)

/-- An instance of `walk_edits_apart`: `srcEditsApart`, with a timer call, a call of
`mockImplementation` without arguments on the result of `jest.fn()`, and the type
`jest.Mock`. The walk records five edits, the edit of the empty argument list before the
edit of `jest` in the callee; they lie apart and are in order after the sort of `run`. -/
theorem walk_edits_apart_example :
    ∃ t, walkNode (newVitestifyTask srcEditsApart) treeEditsApart = Outcome.ok t
      ∧ t.edits
          = [{ startByte := 1, endByte := 14, replacement := lit "vi.advanceTimersByTime" },
             { startByte := 14, endByte := 17, replacement := lit "(5 * 1000)" },
             { startByte := 47, endByte := 49, replacement := lit "(() => \x7b\x7d)" },
             { startByte := 19, endByte := 23, replacement := lit "vi" },
             { startByte := 58, endByte := 67, replacement := lit "Mock" }]
      ∧ t.edits.Pairwise codeEdit.apart
      ∧ List.Chain' (fun a b : codeEdit => a.endByte ≤ b.startByte) (sortEdits t.edits) := by
  have hmap : (walkNode (newVitestifyTask srcEditsApart) treeEditsApart).map
        (fun t => t.edits)
      = Outcome.ok
          [{ startByte := 1, endByte := 14, replacement := lit "vi.advanceTimersByTime" },
           { startByte := 14, endByte := 17, replacement := lit "(5 * 1000)" },
           { startByte := 47, endByte := 49, replacement := lit "(() => \x7b\x7d)" },
           { startByte := 19, endByte := 23, replacement := lit "vi" },
           { startByte := 58, endByte := 67, replacement := lit "Mock" }] := by
    decide!
  have hwf : treeEditsApart.wellFormed = true := by decide!
  have hcheck : treeEditsApart.editsKeptApart srcEditsApart = true := by decide!
  obtain ⟨himp, hcall⟩ :=
    hypotheses_of_editsKeptApart srcEditsApart treeEditsApart hwf hcheck
  cases hwalk : walkNode (newVitestifyTask srcEditsApart) treeEditsApart with
  | error err =>
    rw [hwalk] at hmap
    cases hmap
  | panic =>
    rw [hwalk] at hmap
    cases hmap
  | ok t =>
    rw [hwalk] at hmap
    have hedits : t.edits = _ := Outcome.ok.inj hmap
    have hthm := walk_edits_apart srcEditsApart treeEditsApart t hwf himp hcall hwalk
    refine ⟨t, rfl, hedits, hthm.1, hthm.2.2.2 ?_⟩
    rw [hedits]
    decide

/-- C21, the failing inputs. In `advanceTimers(jest.now())`, a well-formed tree, the walk
records the edit `[14, 26)` of the argument list of the timer call and then, inside those
arguments, the edit `[15, 19)` of `jest`: the two intersect, no arrangement of the ledger
has `end_i ≤ start_{i+1}` for every adjacent pair, and the replay of `run` panics. In
`srcImportThenJest`, a well-formed tree too, the deletion `[0, 29)` of the import
statement reaches into the next statement, where the walk records the edit `[28, 32)` of
`jest`: the two intersect and the replay of `run` panics. -/
theorem walk_records_intersecting_edits :
    treeTimerNested.wellFormed = true
      ∧ (walkNode (newVitestifyTask srcTimerNested) treeTimerNested).map
          (fun t => t.edits)
        = Outcome.ok
            [{ startByte := 1, endByte := 14, replacement := lit "vi.advanceTimersByTime" },
             { startByte := 14, endByte := 26,
               replacement := lit "(jest.now() * 1000)" },
             { startByte := 15, endByte := 19, replacement := lit "vi" }]
      ∧ ((15 : Int) < 26 ∧ (14 : Int) < 19)
      ∧ (∀ sorted : List codeEdit,
          sorted.Perm
              [{ startByte := 1, endByte := 14,
                 replacement := lit "vi.advanceTimersByTime" },
               { startByte := 14, endByte := 26,
                 replacement := lit "(jest.now() * 1000)" },
               { startByte := 15, endByte := 19, replacement := lit "vi" }] →
            ¬ List.Chain' (fun a b : codeEdit => a.endByte ≤ b.startByte) sorted)
      ∧ run (fun _ => Outcome.ok treeTimerNested) srcTimerNested = Outcome.panic
      ∧ treeImportThenJest.wellFormed = true
      ∧ (walkNode (newVitestifyTask srcImportThenJest) treeImportThenJest).map
          (fun t => t.edits)
        = Outcome.ok
            [{ startByte := 0, endByte := 29, replacement := [] },
             { startByte := 28, endByte := 32, replacement := lit "vi" },
             { startByte := 39, endByte := 43, replacement := lit "vi" }]
      ∧ ((28 : Int) < 29 ∧ (0 : Int) < 32)
      ∧ (∀ sorted : List codeEdit,
          sorted.Perm
              [{ startByte := 0, endByte := 29, replacement := [] },
               { startByte := 28, endByte := 32, replacement := lit "vi" },
               { startByte := 39, endByte := 43, replacement := lit "vi" }] →
            ¬ List.Chain' (fun a b : codeEdit => a.endByte ≤ b.startByte) sorted)
      ∧ run (fun _ => Outcome.ok treeImportThenJest) srcImportThenJest = Outcome.panic := by
  refine ⟨by decide!, by decide!, by decide, ?_, by decide!, by decide!, by decide!,
    by decide, ?_, by decide!⟩
  · intro sorted hperm hch
    have hwf : ∀ e ∈ sorted, e.startByte ≤ e.endByte := by
      intro e he
      have hmem := hperm.mem_iff.1 he
      simp only [List.mem_cons, List.mem_singleton, List.not_mem_nil, or_false] at hmem
      rcases hmem with rfl | rfl | rfl <;> decide
    have hap := (hperm.pairwise_iff (fun hab => Or.symm hab)).1
      (chain_pairwise_apart sorted hwf hch)
    have h23 := (List.pairwise_cons.1 (List.pairwise_cons.1 hap).2).1
      { startByte := 15, endByte := 19, replacement := lit "vi" } (List.mem_singleton.2 rfl)
    unfold codeEdit.apart at h23
    simp only at h23
    omega
  · intro sorted hperm hch
    have hwf : ∀ e ∈ sorted, e.startByte ≤ e.endByte := by
      intro e he
      have hmem := hperm.mem_iff.1 he
      simp only [List.mem_cons, List.mem_singleton, List.not_mem_nil, or_false] at hmem
      rcases hmem with rfl | rfl | rfl <;> decide
    have hap := (hperm.pairwise_iff (fun hab => Or.symm hab)).1
      (chain_pairwise_apart sorted hwf hch)
    have h12 := (List.pairwise_cons.1 hap).1
      { startByte := 28, endByte := 32, replacement := lit "vi" }
      (List.mem_cons_self _ _)
    unfold codeEdit.apart at h12
    simp only at h12
    omega

end Vitestify
